import Mathlib

/-!
Verification development for the quiz-generation content pipeline
(`src/main.ts`, `src/questionTypes.ts`): a shallow embedding of the
JSON recovery parser, schema registry, question normalizer,
deduplicator, randomizer, retry-collector and grading engine, together
with theorems checking the specification's claims about them.

Modelling conventions:
* JavaScript strings are modelled as `List Char` (with `String` at the
  API boundary); `JSON.parse` is modelled by an executable recursive
  descent parser `parseVal` faithful to the JSON grammar.
* JavaScript numbers are modelled as `Rat`.  All rationals are built
  with `mkRat` and compared with the core order so that every
  definition evaluates inside the kernel.
* `Math.random`-driven choices are modelled by an explicit stream
  `rng : Nat → Nat` (consumed at an index that is threaded through),
  and `uid`/`Date` by explicit supplies, so that shuffling and id
  generation are pure.
* Exceptions are modelled with `Except`/`Option`, carrying the thrown
  message strings of the source.
-/

namespace QuizCore

/-! ## JavaScript primitives: whitespace, trim, digits, parseInt -/

/-- Whitespace for JavaScript `\s` in regexes and `String.prototype.trim`
(space, tab, line feed, carriage return, vertical tab, form feed,
no-break space, BOM). -/
def jsWsChar (c : Char) : Bool :=
  c = ' ' || c = '\t' || c = '\n' || c = '\r' || c = Char.ofNat 11 ||
  c = Char.ofNat 12 || c = Char.ofNat 160 || c = Char.ofNat 65279

/-- Drop leading JS whitespace. -/
def dropWsL : List Char → List Char
  | [] => []
  | c :: cs => if jsWsChar c then dropWsL cs else c :: cs

/-- `String.prototype.trim` on a list of characters. -/
def jsTrimL (s : List Char) : List Char :=
  dropWsL ((dropWsL s.reverse).reverse)

/-- `String.prototype.trim`. -/
def jsTrim (s : String) : String := String.mk (jsTrimL s.data)

/-- Numeric value of a decimal digit character. -/
def digitVal (c : Char) : Nat := c.toNat - 48

/-- The character for a decimal digit. -/
def digitChar (d : Nat) : Char := Char.ofNat (48 + d)

/-- Split off the longest prefix of decimal digits. -/
def takeDigits : List Char → List Char × List Char
  | [] => ([], [])
  | c :: cs =>
    if c.isDigit then
      let p := takeDigits cs
      (c :: p.1, p.2)
    else ([], c :: cs)

/-- Value of a big-endian digit string. -/
def digitsToNat (ds : List Char) : Nat :=
  ds.foldl (fun a c => 10 * a + digitVal c) 0

/-- Big-endian decimal digits of a natural number (empty for zero). -/
def natDigits (n : Nat) : List Char :=
  ((Nat.digits 10 n).map digitChar).reverse

/-- Decimal string of a natural number. -/
def natToChars (n : Nat) : List Char :=
  if n = 0 then ['0'] else natDigits n

/-- Decimal string of an integer. -/
def intToChars (i : Int) : List Char :=
  if i < 0 then '-' :: natToChars i.natAbs else natToChars i.toNat

/-- `parseInt(s, 10)`: skip leading whitespace, read an optional sign and
then a digit prefix; `none` models `NaN` (no digits found). -/
def parseIntJs (s : List Char) : Option Int :=
  match dropWsL s with
  | '-' :: rest =>
    let p := takeDigits rest
    if p.1 = [] then none else some (-(digitsToNat p.1 : Int))
  | '+' :: rest =>
    let p := takeDigits rest
    if p.1 = [] then none else some (digitsToNat p.1 : Int)
  | rest =>
    let p := takeDigits rest
    if p.1 = [] then none else some (digitsToNat p.1 : Int)

/-- The rational `n : Nat` (kernel-reducible). -/
def ratOfNat (n : Nat) : Rat := mkRat n 1

/-- The rational `i : Int` (kernel-reducible). -/
def ratOfInt (i : Int) : Rat := mkRat i 1

/-- `Math.max` on two rationals. -/
def jsMaxQ (a b : Rat) : Rat := if a ≤ b then b else a

/-- `Math.min` on two rationals. -/
def jsMinQ (a b : Rat) : Rat := if a ≤ b then a else b

/-- `Math.round`, which rounds half up: `⌊q + 1/2⌋`, computed on
numerator and denominator so that the kernel can evaluate it.
`jsRound_eq_round` below proves it equal to Mathlib's `round`. -/
def jsRound (q : Rat) : Int :=
  Int.fdiv (2 * q.num + q.den) (2 * (q.den : Int))

/-! ## The JSON value model

Values produced by `JSON.parse`.  Object fields keep all key/value
pairs in textual order; `objGet` returns the value of the *last*
occurrence of a key, matching how repeated keys overwrite in
JavaScript. -/

inductive JVal where
  | jnull
  | jbool (b : Bool)
  | jnum (q : Rat)
  | jstr (s : String)
  | jarr (elems : List JVal)
  | jobj (fields : List (String × JVal))

/-- Field lookup on an object's pair list: last occurrence wins. -/
def lookupLast (k : String) : List (String × JVal) → Option JVal
  | [] => none
  | (k2, v) :: rest =>
    match lookupLast k rest with
    | some r => some r
    | none => if k2 = k then some v else none

/-- `value.field` access: `none` models `undefined` (also on non-objects). -/
def objGet (v : JVal) (k : String) : Option JVal :=
  match v with
  | .jobj fields => lookupLast k fields
  | _ => none

/-! ## JSON parser (model of `JSON.parse`) -/

/-- JSON's own whitespace (space, tab, line feed, carriage return). -/
def jsonWsChar (c : Char) : Bool :=
  c = ' ' || c = '\t' || c = '\n' || c = '\r'

/-- Skip JSON whitespace. -/
def skipJsonWs : List Char → List Char
  | [] => []
  | c :: cs => if jsonWsChar c then skipJsonWs cs else c :: cs

/-- Hex digit value, if any. -/
def hexVal (c : Char) : Option Nat :=
  if '0' ≤ c ∧ c ≤ '9' then some (c.toNat - 48)
  else if 'a' ≤ c ∧ c ≤ 'f' then some (c.toNat - 87)
  else if 'A' ≤ c ∧ c ≤ 'F' then some (c.toNat - 55)
  else none

/-- The code unit of a single-character JSON string escape. -/
def simpleEscape (e : Char) : Option Nat :=
  if e = '"' then some 34
  else if e = '\\' then some 92
  else if e = '/' then some 47
  else if e = 'b' then some 8
  else if e = 'f' then some 12
  else if e = 'n' then some 10
  else if e = 'r' then some 13
  else if e = 't' then some 9
  else none

/-- Decode the body of a JSON string after the opening quote into
UTF-16 code units, returning them and the input following the closing
quote.  Escapes follow `JSON.parse`. -/
def parseStrUnits : List Char → Option (List Nat × List Char)
  | [] => none
  | c :: rest =>
    if c = '"' then some ([], rest)
    else if c = '\\' then
      match rest with
      | e :: rest2 =>
        if e = 'u' then
          match rest2 with
          | a :: b :: c2 :: d :: rest3 =>
            match hexVal a, hexVal b, hexVal c2, hexVal d with
            | some ha, some hb, some hc, some hd =>
              let code := ((ha * 16 + hb) * 16 + hc) * 16 + hd
              (parseStrUnits rest3).map (fun p => (code :: p.1, p.2))
            | _, _, _, _ => none
          | _ => none
        else
          match simpleEscape e with
          | some u => (parseStrUnits rest2).map (fun p => (u :: p.1, p.2))
          | none => none
      | [] => none
    else
      if c.toNat < 32 then none
      else (parseStrUnits rest).map (fun p => (c.toNat :: p.1, p.2))

/-- Combine UTF-16 code units into characters: a high surrogate
followed by a low surrogate forms one scalar; an unpaired surrogate
falls back to `Char.ofNat`'s default (a modelling boundary, since Lean
chars are unicode scalars while JS strings are UTF-16). -/
def unitsToCharsAux (pending : Option Nat) : List Nat → List Char
  | [] =>
    match pending with
    | some hu => [Char.ofNat hu]
    | none => []
  | u :: rest =>
    match pending with
    | some hu =>
      if 0xDC00 ≤ u ∧ u ≤ 0xDFFF then
        Char.ofNat (0x10000 + (hu - 0xD800) * 0x400 + (u - 0xDC00)) :: unitsToCharsAux none rest
      else if 0xD800 ≤ u ∧ u ≤ 0xDBFF then
        Char.ofNat hu :: unitsToCharsAux (some u) rest
      else
        Char.ofNat hu :: Char.ofNat u :: unitsToCharsAux none rest
    | none =>
      if 0xD800 ≤ u ∧ u ≤ 0xDBFF then unitsToCharsAux (some u) rest
      else Char.ofNat u :: unitsToCharsAux none rest

/-- Combine UTF-16 code units into characters (see `unitsToCharsAux`). -/
def unitsToChars (us : List Nat) : List Char := unitsToCharsAux none us

/-- Parse the body of a JSON string after the opening quote. -/
def parseStrBody (s : List Char) : Option (List Char × List Char) :=
  (parseStrUnits s).map (fun p => (unitsToChars p.1, p.2))

/-- The optional sign of an exponent: whether it is negative, and the
input after the sign. -/
def parseExpSign : List Char → Bool × List Char
  | '-' :: r2 => (true, r2)
  | '+' :: r2 => (false, r2)
  | r2 => (false, r2)

/-- Parse the exponent part of a number; `mant` is the signed mantissa
already read and `k` the number of fraction digits.  The value is
assembled with a single `mkRat` from integer arithmetic. -/
def parseNumExp (mant : Int) (k : Nat) (s2 : List Char) : Option (Rat × List Char) :=
  match s2 with
  | c :: rest =>
    if c = 'e' ∨ c = 'E' then
      let expPart := parseExpSign rest
      let p := takeDigits expPart.2
      if p.1 = [] then none
      else
        let e := digitsToNat p.1
        if expPart.1 then some (mkRat mant (10 ^ k * 10 ^ e), p.2)
        else some (mkRat (mant * 10 ^ e) (10 ^ k), p.2)
    else some (mkRat mant (10 ^ k), s2)
  | [] => some (mkRat mant (10 ^ k), s2)

/-- Fraction part of a number: the digits after `.`, their count, and
the rest; no `.` yields zero digits. -/
def parseFrac (s : List Char) : Option (Nat × Nat × List Char) :=
  match s with
  | c :: rest =>
    if c = '.' then
      let p := takeDigits rest
      if p.1 = [] then none else some (digitsToNat p.1, p.1.length, p.2)
    else some (0, 0, s)
  | [] => some (0, 0, s)

/-- Fraction and exponent of a number after its integer part;
`sgn` is `1` or `-1`, `n` the integer part already read. -/
def parseNumTail (sgn : Int) (n : Nat) (s : List Char) : Option (Rat × List Char) :=
  match parseFrac s with
  | none => none
  | some (f, k, s2) => parseNumExp (sgn * (n * 10 ^ k + f)) k s2

/-- Parse a JSON number (after sign handling of the leading `-`).
A leading `0` is not followed by more integer digits, as in JSON. -/
def parseNumAfterSign (sgn : Int) : List Char → Option (Rat × List Char)
  | c :: rest =>
    if c = '0' then parseNumTail sgn 0 rest
    else if c.isDigit then
      let p := takeDigits (c :: rest)
      parseNumTail sgn (digitsToNat p.1) p.2
    else none
  | [] => none

/-- Parse a JSON number. -/
def parseNum : List Char → Option (Rat × List Char)
  | c :: rest => if c = '-' then parseNumAfterSign (-1) rest else parseNumAfterSign 1 (c :: rest)
  | [] => parseNumAfterSign 1 []

mutual

/-- Recursive descent JSON value parser (fuel-indexed so that every
definition is structural and kernel-evaluable). -/
def parseVal : Nat → List Char → Option (JVal × List Char)
  | 0, _ => none
  | Nat.succ fuel, s =>
    match skipJsonWs s with
    | [] => none
    | c :: rest =>
      if c = '{' then
        match skipJsonWs rest with
        | c2 :: r2 =>
          if c2 = '}' then some (.jobj [], r2)
          else (parseMembers fuel (c2 :: r2)).map (fun p => (.jobj p.1, p.2))
        | [] => (parseMembers fuel []).map (fun p => (.jobj p.1, p.2))
      else if c = '[' then
        match skipJsonWs rest with
        | c2 :: r2 =>
          if c2 = ']' then some (.jarr [], r2)
          else (parseElems fuel (c2 :: r2)).map (fun p => (.jarr p.1, p.2))
        | [] => (parseElems fuel []).map (fun p => (.jarr p.1, p.2))
      else if c = '"' then (parseStrBody rest).map (fun p => (.jstr (String.mk p.1), p.2))
      else if c = '-' ∨ c.isDigit then (parseNum (c :: rest)).map (fun p => (.jnum p.1, p.2))
      else
        match c :: rest with
        | 't' :: 'r' :: 'u' :: 'e' :: r => some (.jbool true, r)
        | 'f' :: 'a' :: 'l' :: 's' :: 'e' :: r => some (.jbool false, r)
        | 'n' :: 'u' :: 'l' :: 'l' :: r => some (.jnull, r)
        | _ => none

/-- Parse the elements of a non-empty array up to and including `]`. -/
def parseElems : Nat → List Char → Option (List JVal × List Char)
  | 0, _ => none
  | Nat.succ fuel, s =>
    (parseVal fuel s).bind (fun p =>
      match skipJsonWs p.2 with
      | c :: r2 =>
        if c = ',' then (parseElems fuel r2).map (fun q => (p.1 :: q.1, q.2))
        else if c = ']' then some ([p.1], r2)
        else none
      | [] => none)

/-- Parse the members of a non-empty object up to and including `}`. -/
def parseMembers : Nat → List Char → Option (List (String × JVal) × List Char)
  | 0, _ => none
  | Nat.succ fuel, s =>
    match skipJsonWs s with
    | c :: rest =>
      if c = '"' then
        (parseStrBody rest).bind (fun kp =>
          match skipJsonWs kp.2 with
          | c2 :: r2 =>
            if c2 = ':' then
              (parseVal fuel r2).bind (fun vp =>
                match skipJsonWs vp.2 with
                | c3 :: r3 =>
                  if c3 = ',' then
                    (parseMembers fuel r3).map (fun q => ((String.mk kp.1, vp.1) :: q.1, q.2))
                  else if c3 = '}' then some ([(String.mk kp.1, vp.1)], r3)
                  else none
                | [] => none)
            else none
          | [] => none)
      else none
    | [] => none

end

/-- `JSON.parse` on a list of characters: parse one value and require
only whitespace to remain. -/
def jsonParseL (s : List Char) : Option JVal :=
  match parseVal (2 * s.length + 2) s with
  | some (v, rest) => if skipJsonWs rest = [] then some v else none
  | none => none

/-- `JSON.parse` on a string; `none` models a thrown `SyntaxError`. -/
def jsonParse (s : String) : Option JVal := jsonParseL s.data

/-! ## `repairJsonCommon`

The source applies, in order: removal of code-fence markers
(```` ``` ```` optionally followed by `json`, case-insensitively, then
any remaining ```` ``` ````), replacement of typographic double and
single quotes by straight ones, insertion of a comma between a closer
and an opener separated by whitespace containing a newline, removal of
a comma standing (up to whitespace) before a closer, and a trim.
The scanners mirror the global regex pass: they move left to right and
resume scanning right after each replacement.  Each is fuel-indexed
(with fuel = input length, ample since every step consumes a
character) so that it stays structural and kernel-evaluable. -/

/-- The backtick character. -/
def tickChar : Char := Char.ofNat 96

/-- The straight apostrophe character. -/
def aposChar : Char := Char.ofNat 39

/-- Case-insensitive character comparison against a lowercase letter. -/
def lowEq (c target : Char) : Bool := c = target ∨ c.toNat = target.toNat - 32

/-- One global pass of ``/```(?:json)?/gi``. -/
def stripFencesF : Nat → List Char → List Char
  | 0, s => s
  | Nat.succ _, [] => []
  | Nat.succ fuel, c :: rest =>
    if c = tickChar then
      match rest with
      | c2 :: c3 :: rest2 =>
        if c2 = tickChar ∧ c3 = tickChar then
          match rest2 with
          | w1 :: w2 :: w3 :: w4 :: rest3 =>
            if lowEq w1 'j' ∧ lowEq w2 's' ∧ lowEq w3 'o' ∧ lowEq w4 'n' then
              stripFencesF fuel rest3
            else stripFencesF fuel rest2
          | _ => stripFencesF fuel rest2
        else c :: stripFencesF fuel rest
      | _ => c :: stripFencesF fuel rest
    else c :: stripFencesF fuel rest

/-- One global pass of ``/```/g``. -/
def stripTicksF : Nat → List Char → List Char
  | 0, s => s
  | Nat.succ _, [] => []
  | Nat.succ fuel, c :: rest =>
    if c = tickChar then
      match rest with
      | c2 :: c3 :: rest2 =>
        if c2 = tickChar ∧ c3 = tickChar then stripTicksF fuel rest2
        else c :: stripTicksF fuel rest
      | _ => c :: stripTicksF fuel rest
    else c :: stripTicksF fuel rest

/-- Replace typographic double quotes by `"` and typographic single
quotes by `'` (the two quote-normalizing regex passes). -/
def mapCurly (s : List Char) : List Char :=
  s.map (fun c =>
    if c = '“' ∨ c = '”' then '"'
    else if c = '‘' ∨ c = '’' then aposChar
    else c)

/-- Match `\s*\n\s*` followed by `op`: consume whitespace, requiring a
newline among it, then `op`; returns the input after `op`. -/
def wsThenOpen (op : Char) (seenNl : Bool) : List Char → Option (List Char)
  | [] => none
  | c :: rest =>
    if c = op then (if seenNl then some rest else none)
    else if jsWsChar c then wsThenOpen op (seenNl ∨ c = '\n') rest
    else none

/-- One global pass of `/}\s*\n\s*\{/g → "},{"` (or the bracket
variant), scanning left to right. -/
def insertCommasF (close op : Char) : Nat → List Char → List Char
  | 0, s => s
  | Nat.succ _, [] => []
  | Nat.succ fuel, c :: rest =>
    if c = close then
      match wsThenOpen op false rest with
      | some rest2 => close :: ',' :: op :: insertCommasF close op fuel rest2
      | none => c :: insertCommasF close op fuel rest
    else c :: insertCommasF close op fuel rest

/-- Match `\s*` followed by a closer, returning it and the rest. -/
def wsThenCloser : List Char → Option (Char × List Char)
  | [] => none
  | c :: rest =>
    if c = '}' ∨ c = ']' then some (c, rest)
    else if jsWsChar c then wsThenCloser rest
    else none

/-- One global pass of `/,\s*([}\]])/g → "$1"`. -/
def stripTrailingCommasF : Nat → List Char → List Char
  | 0, s => s
  | Nat.succ _, [] => []
  | Nat.succ fuel, c :: rest =>
    if c = ',' then
      match wsThenCloser rest with
      | some p => p.1 :: stripTrailingCommasF fuel p.2
      | none => c :: stripTrailingCommasF fuel rest
    else c :: stripTrailingCommasF fuel rest

/-- `repairJsonCommon` from the source, on a list of characters. -/
def repairJsonCommonL (s : List Char) : List Char :=
  let a := stripFencesF s.length s
  let b := stripTicksF a.length a
  let c := mapCurly b
  let d := insertCommasF '}' '{' c.length c
  let e := insertCommasF ']' '[' d.length d
  let f := stripTrailingCommasF e.length e
  jsTrimL f

/-- `repairJsonCommon` at the string level. -/
def repairJsonCommon (s : String) : String :=
  String.mk (repairJsonCommonL s.data)

/-! ## `findLastBalancedJsonEnd` and `looksTruncatedJson` -/

/-- State of the string-aware bracket scan: inside a quoted string,
just after a backslash inside a string, and the nesting depth
(an integer, since the source lets it go negative). -/
structure ScanSt where
  inStr : Bool
  esc : Bool
  depth : Int
deriving DecidableEq, Repr

/-- Initial scan state. -/
def scanInit : ScanSt := ⟨false, false, 0⟩

/-- One character step of the scan in `findLastBalancedJsonEnd` and
`looksTruncatedJson`. -/
def scanStep (st : ScanSt) (c : Char) : ScanSt :=
  if st.inStr then
    if st.esc then { st with esc := false }
    else if c = '\\' then { st with esc := true }
    else if c = '"' then { st with inStr := false }
    else st
  else
    if c = '"' then { st with inStr := true }
    else if c = '{' ∨ c = '[' then { st with depth := st.depth + 1 }
    else if c = '}' ∨ c = ']' then { st with depth := st.depth - 1 }
    else st

/-- Does processing `c` in state `st` bring the depth back to exactly
zero (the source records `lastEnd` at such indices)? -/
def zeroHit (st : ScanSt) (c : Char) : Bool :=
  !st.inStr ∧ (c = '}' ∨ c = ']') ∧ st.depth = 1

/-- The index of the last zero-return of the depth scan, or `none`. -/
def scanLastEnd (st : ScanSt) (i : Nat) : List Char → Option Nat
  | [] => none
  | c :: rest =>
    match scanLastEnd (scanStep st c) (i + 1) rest with
    | some e => some e
    | none => if zeroHit st c then some i else none

/-- `findLastBalancedJsonEnd(s, start)` from the source. -/
def findLastBalancedJsonEnd (s : List Char) (start : Nat) : Option Nat :=
  scanLastEnd scanInit start (s.drop start)

/-- All indices at which the depth scan returns to exactly zero, in
increasing order (specification-side companion of `scanLastEnd`). -/
def scanZeroHits (st : ScanSt) (i : Nat) : List Char → List Nat
  | [] => []
  | c :: rest =>
    (if zeroHit st c then [i] else []) ++ scanZeroHits (scanStep st c) (i + 1) rest

/-- Final depth of the string-aware scan over a whole text. -/
def depthScan (s : List Char) : Int :=
  (s.foldl scanStep scanInit).depth

/-- The regex test `/[}\]]\s*$/`: some closer is followed only by
whitespace up to the end. -/
def endsWithCloser (s : List Char) : Bool :=
  match dropWsL s.reverse with
  | c :: _ => c = '}' ∨ c = ']'
  | [] => false

/-- `looksTruncatedJson` from the source. -/
def looksTruncatedJsonL (s : List Char) : Bool :=
  let t := jsTrimL s
  if t = [] then true
  else if !endsWithCloser t then true
  else depthScan t ≠ 0

/-! ## `safeParseJson` -/

/-- Error kinds thrown by `safeParseJson`.  `notJson` is the
"Model output was not JSON." failure (no candidate start); `malformed`
is the "Model output was not valid JSON: …" failure (the underlying
engine message is abstracted away); `truncated` is the
"Model returned truncated/invalid JSON…" failure. -/
inductive ParseErr where
  | emptyInput
  | notJson
  | truncated
  | malformed
deriving DecidableEq, Repr

/-- The thrown message of each `safeParseJson` failure (the `malformed`
message carries an engine-specific suffix, abstracted here). -/
def parseErrMessage : ParseErr → String
  | .emptyInput => "Empty model output."
  | .notJson => "Model output was not JSON."
  | .truncated => "Model returned truncated/invalid JSON. Increase Max Output Tokens or reduce question count."
  | .malformed => "Model output was not valid JSON: "

/-- JS `indexOf` for a character. -/
def idxOfChar (s : List Char) (c : Char) : Int :=
  match s.findIdx? (fun x => x = c) with
  | some n => n
  | none => -1

/-- The candidate start index: the first `{` or `[` of the cleaned
text, computed as in the source from the two `indexOf` results. -/
def firstBraceStart (s : List Char) : Option Nat :=
  let o := idxOfChar s '{'
  let a := idxOfChar s '['
  let start := if o ≥ 0 ∧ (a < 0 ∨ o < a) then o else a
  if start < 0 then none else some start.toNat

/-- The repaired candidate substring `[start, e]` of the cleaned text. -/
def candidateSlice (cleaned : List Char) (start e : Nat) : List Char :=
  repairJsonCommonL ((cleaned.drop start).take (e + 1 - start))

/-- The repaired tail of the cleaned text from the candidate start. -/
def tailRepaired (cleaned : List Char) (start : Nat) : List Char :=
  repairJsonCommonL (cleaned.drop start)

/-- The candidate value of `safeParseJson`'s step 2: the re-repaired
slice up to the last balanced end, when that end exists and parses. -/
def candidateParse (cleaned : List Char) (start : Nat) : Option JVal :=
  match findLastBalancedJsonEnd cleaned start with
  | some e => jsonParseL (candidateSlice cleaned start e)
  | none => none

/-- `safeParseJson`'s step 3 (inlined in the source): parse the
re-repaired tail, else classify as truncated or malformed. -/
def tailParse (cleaned : List Char) (start : Nat) : Except ParseErr JVal :=
  match jsonParseL (tailRepaired cleaned start) with
  | some v => .ok v
  | none =>
    if looksTruncatedJsonL (tailRepaired cleaned start) then .error .truncated
    else .error .malformed

/-- The recovery part of `safeParseJson` (everything after the failed
direct parse, inlined in the source): candidate extraction from the
first `{`/`[`, the repaired tail, and the truncated/malformed
classification. -/
def safeParseRecover (cleaned : List Char) : Except ParseErr JVal :=
  match firstBraceStart cleaned with
  | none => .error .notJson
  | some start =>
    match candidateParse cleaned start with
    | some v => .ok v
    | none => tailParse cleaned start

/-- The direct-parse step on the cleaned text, falling through to the
recovery steps. -/
def safeParseDirect (cleaned : List Char) : Except ParseErr JVal :=
  match jsonParseL cleaned with
  | some v => .ok v
  | none => safeParseRecover cleaned

/-- `safeParseJson` from the source: trim, repair, direct parse, then
recovery of the largest balanced chunk from the first `{`/`[`, then
the repaired tail, and finally the truncated/malformed classification. -/
def safeParseJson (text : String) : Except ParseErr JVal :=
  if jsTrimL text.data = [] then .error .emptyInput
  else safeParseDirect (repairJsonCommonL (jsTrimL text.data))

/-! ## JavaScript value coercions -/

/-- JS truthiness of a parsed value (`undefined` is handled at the
`Option` level by callers). -/
def jsTruthy : JVal → Bool
  | .jnull => false
  | .jbool b => b
  | .jnum q => !(q.num = 0)
  | .jstr s => !(s = "")
  | .jarr _ => true
  | .jobj _ => true

/-- `x || ""` for a possibly-undefined value: the value when truthy,
otherwise the empty string. -/
def strOrEmpty : Option JVal → JVal
  | some v => if jsTruthy v then v else .jstr ""
  | none => .jstr ""

/-- Left-pad with `'0'` to width `k`. -/
def padZeros (k : Nat) (ds : List Char) : List Char :=
  List.replicate (k - ds.length) '0' ++ ds

/-- `String(n)` for a number: integer or finite-decimal rendering.
Rationals whose denominator divides no power of ten cannot arise from
`JSON.parse`; they fall back to a fraction marker (modelling boundary). -/
def jsNumToString (q : Rat) : String :=
  if q.den = 1 then String.mk (intToChars q.num)
  else
    match (List.range (q.den + 1)).find? (fun k => (10 ^ k) % q.den = 0) with
    | some k =>
      let total := (q.num.natAbs * 10 ^ k) / q.den
      let sign : List Char := if q.num < 0 then ['-'] else []
      String.mk (sign ++ natToChars (total / 10 ^ k) ++ '.' :: padZeros k (natToChars (total % 10 ^ k)))
    | none => String.mk (intToChars q.num ++ '/' :: natToChars q.den)

mutual

/-- `String(x)` on a parsed value. -/
def jsToString : JVal → String
  | .jnull => "null"
  | .jbool b => if b then "true" else "false"
  | .jnum q => jsNumToString q
  | .jstr s => s
  | .jarr l => jsArrToString l
  | .jobj _ => "[object Object]"

/-- `Array.prototype.toString`: elements joined by commas, with `null`
rendered as the empty string. -/
def jsArrToString : List JVal → String
  | [] => ""
  | [v] =>
    match v with
    | .jnull => ""
    | v2 => jsToString v2
  | v :: rest =>
    (match v with
     | .jnull => ""
     | v2 => jsToString v2) ++ "," ++ jsArrToString rest

end

/-- `String(x)` where `x` may be `undefined`. -/
def jsToStringU : Option JVal → String
  | none => "undefined"
  | some v => jsToString v

/-! ## Schema registry and matcher (`questionTypes.ts`) -/

/-- `typeof value === "string"` on a possibly-undefined field. -/
def fieldIsString : Option JVal → Bool
  | some (.jstr _) => true
  | _ => false

/-- `Number.isFinite(value)` on a possibly-undefined field (every
parsed number is finite in the model). -/
def fieldIsNumber : Option JVal → Bool
  | some (.jnum _) => true
  | _ => false

/-- `typeof value === "boolean"` on a possibly-undefined field. -/
def fieldIsBoolean : Option JVal → Bool
  | some (.jbool _) => true
  | _ => false

/-- `Array.isArray(v) && v.every(isString)`. -/
def fieldIsStringArray : Option JVal → Bool
  | some (.jarr l) => l.all (fun v => match v with | .jstr _ => true | _ => false)
  | _ => false

/-- `Array.isArray(v) && v.every(isNumber)`. -/
def fieldIsNumberArray : Option JVal → Bool
  | some (.jarr l) => l.all (fun v => match v with | .jnum _ => true | _ => false)
  | _ => false

/-- `isMatchingQuestion` from `questionTypes.ts`. -/
def isMatchingQuestion (v : JVal) : Bool :=
  match v with
  | .jobj _ =>
    fieldIsString (objGet v "prompt") &&
    (match objGet v "pairs" with
     | some (.jarr pairs) =>
       !pairs.isEmpty &&
       pairs.all (fun p =>
         match p with
         | .jobj _ => fieldIsString (objGet p "left") && fieldIsString (objGet p "right")
         | _ => false)
     | _ => false)
  | _ => false

/-- `isSelectAllQuestion` from `questionTypes.ts`. -/
def isSelectAllQuestion (v : JVal) : Bool :=
  match v with
  | .jobj _ =>
    fieldIsString (objGet v "q") &&
    fieldIsStringArray (objGet v "choices") &&
    fieldIsNumberArray (objGet v "correct_indexes") &&
    (match objGet v "correct_indexes" with
     | some (.jarr l) => !l.isEmpty
     | _ => false)
  | _ => false

/-- `isFillBlankQuestion` from `questionTypes.ts`. -/
def isFillBlankQuestion (v : JVal) : Bool :=
  match v with
  | .jobj _ => fieldIsString (objGet v "q") && fieldIsString (objGet v "answer")
  | _ => false

/-- `isMultipleChoiceQuestion` from `questionTypes.ts`. -/
def isMultipleChoiceQuestion (v : JVal) : Bool :=
  match v with
  | .jobj _ =>
    fieldIsString (objGet v "q") &&
    fieldIsStringArray (objGet v "choices") &&
    fieldIsNumber (objGet v "answer_index")
  | _ => false

/-- `isTrueFalseQuestion` from `questionTypes.ts`. -/
def isTrueFalseQuestion (v : JVal) : Bool :=
  match v with
  | .jobj _ => fieldIsString (objGet v "q") && fieldIsBoolean (objGet v "answer")
  | _ => false

/-- `isShortLongAnswerQuestion` from `questionTypes.ts`. -/
def isShortLongAnswerQuestion (v : JVal) : Bool :=
  match v with
  | .jobj _ =>
    fieldIsString (objGet v "q") &&
    fieldIsString (objGet v "ideal_answer") &&
    fieldIsString (objGet v "grading_criteria")
  | _ => false

/-- The six question variants, standing for the toggle/quantity key
pairs of the registry entries. -/
inductive QTypeKey where
  | matching
  | selectAll
  | fillBlank
  | multipleChoice
  | trueFalse
  | shortLong
deriving DecidableEq, Repr

/-- `MULTIPLE_CHOICE_TOGGLE_KEY`. -/
def MULTIPLE_CHOICE_TOGGLE_KEY : QTypeKey := .multipleChoice

/-- A registry entry: its key (standing for the toggle and quantity
keys), UI description and structural type guard. -/
structure QuestionTypeRegistryEntry where
  key : QTypeKey
  description : String
  typeGuard : JVal → Bool

/-- `questionTypeRegistry` from `questionTypes.ts`, in registration
order. -/
def questionTypeRegistry : List QuestionTypeRegistryEntry :=
  [ ⟨.matching, "Matching (pair terms with definitions)", isMatchingQuestion⟩,
    ⟨.selectAll, "Select All (multiple correct choices)", isSelectAllQuestion⟩,
    ⟨.fillBlank, "Fill in the Blank (short text answer)", isFillBlankQuestion⟩,
    ⟨.multipleChoice, "Multiple Choice (single correct choice)", isMultipleChoiceQuestion⟩,
    ⟨.trueFalse, "True/False", isTrueFalseQuestion⟩,
    ⟨.shortLong, "Short/Long Answer (graded response)", isShortLongAnswerQuestion⟩ ]

/-- `matchQuestionType`: first registry entry whose guard accepts. -/
def matchQuestionType (question : JVal) : Option QuestionTypeRegistryEntry :=
  questionTypeRegistry.find? (fun entry => entry.typeGuard question)

/-! ## Question type settings and the plan builder -/

/-- `QuestionTypeSettings` from `questionTypes.ts` (quantities are
modelled as integers; `parseInt(String(n), 10)` is the identity on
them). -/
structure QuestionTypeSettings where
  matchingEnabled : Bool
  matchingQuantity : Int
  selectAllEnabled : Bool
  selectAllQuantity : Int
  fillBlankEnabled : Bool
  fillBlankQuantity : Int
  multipleChoiceEnabled : Bool
  multipleChoiceQuantity : Int
  trueFalseEnabled : Bool
  trueFalseQuantity : Int
  shortLongEnabled : Bool
  shortLongQuantity : Int
deriving DecidableEq, Repr

/-- `DEFAULT_QUESTION_TYPE_SETTINGS`. -/
def DEFAULT_QUESTION_TYPE_SETTINGS : QuestionTypeSettings :=
  ⟨false, 0, false, 0, false, 0, true, 10, false, 0, false, 0⟩

/-- `settings[entry.enabledToggleKey]`. -/
def enabledOf (s : QuestionTypeSettings) : QTypeKey → Bool
  | .matching => s.matchingEnabled
  | .selectAll => s.selectAllEnabled
  | .fillBlank => s.fillBlankEnabled
  | .multipleChoice => s.multipleChoiceEnabled
  | .trueFalse => s.trueFalseEnabled
  | .shortLong => s.shortLongEnabled

/-- `settings[entry.quantityKey]`. -/
def quantityOf (s : QuestionTypeSettings) : QTypeKey → Int
  | .matching => s.matchingQuantity
  | .selectAll => s.selectAllQuantity
  | .fillBlank => s.fillBlankQuantity
  | .multipleChoice => s.multipleChoiceQuantity
  | .trueFalse => s.trueFalseQuantity
  | .shortLong => s.shortLongQuantity

/-- The plugin settings, restricted to the field the modelled logic
reads; `questionTypeSettings` is optional because the source guards it
with `|| DEFAULT_QUESTION_TYPE_SETTINGS`. -/
structure Settings where
  questionTypeSettings : Option QuestionTypeSettings
deriving DecidableEq, Repr

/-- `clampInt` from the source.  On integer inputs the
`parseInt(String(n), 10)` coercion is the identity and always finite,
so the fallback argument is dead; it is kept for signature fidelity. -/
def clampInt (n lo hi _fallback : Int) : Int :=
  max lo (min hi n)

/-- A plan entry: a registry key together with a requested quantity. -/
structure QuestionTypePlanEntry where
  key : QTypeKey
  quantity : Int
deriving DecidableEq, Repr

/-- `buildQuestionTypePlan` from the source. -/
def buildQuestionTypePlan (settings : Settings) (totalCount : Int) : List QuestionTypePlanEntry :=
  let qts := settings.questionTypeSettings.getD DEFAULT_QUESTION_TYPE_SETTINGS
  let enabledEntries := questionTypeRegistry.filter (fun entry => enabledOf qts entry.key)
  match enabledEntries with
  | [] =>
    match questionTypeRegistry.find? (fun entry => entry.key = MULTIPLE_CHOICE_TOGGLE_KEY) with
    | some fallback => [⟨fallback.key, totalCount⟩]
    | none => []
  | [only] => [⟨only.key, totalCount⟩]
  | first :: _ =>
    let plan := (enabledEntries.map (fun entry =>
      QuestionTypePlanEntry.mk entry.key (clampInt (quantityOf qts entry.key) 0 totalCount 0))).filter
      (fun item => item.quantity > 0)
    match plan with
    | [] => [⟨first.key, totalCount⟩]
    | _ => plan

/-- `totalQuestionsFromPlan`. -/
def totalQuestionsFromPlan (plan : List QuestionTypePlanEntry) : Int :=
  plan.foldl (fun sum item => sum + item.quantity) 0

/-! ## The question normalizer -/

/-- A canonical quiz question (`QuizQuestion` from the source).
`answer_index` is a JS number, hence a rational in the model. -/
structure QuizQuestion where
  id : String
  q : String
  choices : List String
  answer_index : Rat
  explanation : String
  user_answer_index : Option Rat
deriving DecidableEq, Repr

/-- `normalizeQuestion` from the source.  `freshId` models the
random-based `uid()` result. -/
def normalizeQuestion (freshId : String) (q : JVal) (choicesCount : Nat) : Except String QuizQuestion :=
  match matchQuestionType q with
  | none => .error ("Bad model output: question did not match any expected schema.")
  | some matched =>
    if matched.key ≠ MULTIPLE_CHOICE_TOGGLE_KEY then
      .error ("Bad model output: unsupported question type (" ++ matched.description ++ ").")
    else
      let qq := jsTrim (jsToString (strOrEmpty (objGet q "q")))
      let choices :=
        match objGet q "choices" with
        | some (.jarr l) => (l.map (fun x => jsTrim (jsToString x))).filter (fun s => s ≠ "")
        | _ => []
      let aiOpt : Option Rat :=
        match objGet q "answer_index" with
        | some (.jnum x) => some x
        | other => (parseIntJs (jsToStringU other).data).map ratOfInt
      if qq = "" then .error ("Bad model output: missing question text.")
      else if choices.length ≠ choicesCount then
        .error ("Bad model output: choices must be exactly " ++ String.mk (natToChars choicesCount) ++ ".")
      else
        let ai1 : Rat := aiOpt.getD (mkRat 0 1)
        let ai : Rat := jsMaxQ (mkRat 0 1) (jsMinQ (ratOfInt ((choices.length : Int) - 1)) ai1)
        .ok
          { id := freshId
            q := qq
            choices := choices
            answer_index := ai
            explanation := jsTrim (jsToString (strOrEmpty (objGet q "explanation")))
            user_answer_index := none }

/-! ## Deduplicator -/

/-- `normText` on a list of characters: lowercase, replace every
character outside `[a-z0-9 ]` by a space, collapse whitespace runs to
one space, trim. -/
def collapseWsAux (inRun : Bool) : List Char → List Char
  | [] => []
  | c :: rest =>
    if jsWsChar c then
      if inRun then collapseWsAux true rest
      else ' ' :: collapseWsAux true rest
    else c :: collapseWsAux false rest

/-- Is `c` in `[a-z0-9 ]`? -/
def keptChar (c : Char) : Bool :=
  ('a' ≤ c ∧ c ≤ 'z') ∨ ('0' ≤ c ∧ c ≤ '9') ∨ c = ' '

/-- `normText` from the source, on a list of characters. -/
def normTextL (s : List Char) : List Char :=
  jsTrimL (collapseWsAux false
    ((s.map Char.toLower).map (fun c => if keptChar c then c else ' ')))

/-- `normText` from the source. -/
def normText (s : String) : String := String.mk (normTextL s.data)

/-- Split on single spaces, as `split(" ")` does. -/
def splitOnSpace : List Char → List (List Char)
  | [] => [[]]
  | c :: rest =>
    match splitOnSpace rest with
    | chunk :: chunks =>
      if c = ' ' then [] :: chunk :: chunks else (c :: chunk) :: chunks
    | [] => [[]]

/-- `tokenSet` from the source: the set of words of length at least 3
of the normalized text, modelled as a deduplicated list. -/
def tokenSet (s : String) : List String :=
  (((splitOnSpace (normTextL s.data)).map String.mk).filter (fun w => w.length ≥ 3)).dedup

/-- `jaccard` from the source.  The division `inter / uni` is exact
here (`mkRat`), whereas the source divides IEEE doubles; the threshold
comparison below inherits the same convention. -/
def jaccard (a b : List String) : Rat :=
  if a.length = 0 ∨ b.length = 0 then mkRat 0 1
  else
    let inter := (a.filter (fun x => x ∈ b)).length
    let uni := a.length + b.length - inter
    if uni = 0 then mkRat 0 1 else mkRat inter uni

/-- `isNearDuplicate` from the source.  `existing` is the set of
normalized texts (a deduplicated list) and `existingTokenSets` the
parallel token-set list. -/
def isNearDuplicate (qText : String) (existing : List String)
    (existingTokenSets : List (List String)) : Bool :=
  let n := normText qText
  if n = "" then true
  else if n ∈ existing then true
  else
    let t := tokenSet n
    existingTokenSets.any (fun ex => mkRat 72 100 ≤ jaccard t ex)

/-! ## Randomizer -/

/-- Swap two positions of a list (identity when out of range, which
cannot happen for the indices the shuffle produces). -/
def swapL (l : List α) (i j : Nat) : List α :=
  match l[i]?, l[j]? with
  | some x, some y => (l.set i y).set j x
  | _, _ => l

/-- The Fisher–Yates loop of `shuffleInPlace`: at loop variable
`i + 1` (the source's `i`), swap with `j = rng k % (i + 2)`, modelling
`Math.floor(Math.random() * (i + 1))`; `k` indexes the random stream. -/
def fyAux (rng : Nat → Nat) : Nat → Nat → List α → List α × Nat
  | k, 0, l => (l, k)
  | k, Nat.succ i, l => fyAux rng (k + 1) i (swapL l (i + 1) (rng k % (i + 2)))

/-- `shuffleInPlace` from the source, with an explicit random stream
and counter. -/
def shuffleInPlace (rng : Nat → Nat) (k : Nat) (l : List α) : List α × Nat :=
  fyAux rng k (l.length - 1) l

/-- JS `Array.prototype.findIndex` (`-1` when absent). -/
def jsFindIndex (p : α → Bool) (l : List α) : Int :=
  match l.findIdx? p with
  | some n => n
  | none => -1

/-- `randomizeQuestionChoices` from the source. -/
def randomizeQuestionChoices (rng : Nat → Nat) (k : Nat) (q : QuizQuestion) :
    QuizQuestion × Nat :=
  let pairs := q.choices.enum.map (fun p => (p.2, p.1))
  let shuffled := shuffleInPlace rng k pairs
  let newChoices := shuffled.1.map (fun p => p.1)
  let newAnswerIndex : Int := jsFindIndex (fun p => ratOfNat p.2 = q.answer_index) shuffled.1
  let newUserIndex : Option Int :=
    match q.user_answer_index with
    | none => none
    | some u => some (jsFindIndex (fun p => ratOfNat p.2 = u) shuffled.1)
  ({ q with
      choices := newChoices
      answer_index := ratOfInt (max 0 newAnswerIndex)
      user_answer_index := newUserIndex.map ratOfInt },
    shuffled.2)

/-- The `questions.map(randomizeQuestionChoices)` pass, threading the
random counter left to right. -/
def mapRandomize (rng : Nat → Nat) : Nat → List QuizQuestion → List QuizQuestion × Nat
  | k, [] => ([], k)
  | k, q :: qs =>
    let p := randomizeQuestionChoices rng k q
    let r := mapRandomize rng p.2 qs
    (p.1 :: r.1, r.2)

/-- `randomizeQuestions` from the source. -/
def randomizeQuestions (rng : Nat → Nat) (k : Nat) (questions : List QuizQuestion) :
    List QuizQuestion × Nat :=
  let m := mapRandomize rng k questions
  shuffleInPlace rng m.2 m.1

/-! ## Grading engine -/

/-- Per-question grade record. -/
structure GradePer where
  isAnswered : Bool
  isCorrect : Bool
  ua : Option Rat
  ca : Rat
deriving DecidableEq, Repr

/-- The quiz grade. -/
structure Grade where
  total : Nat
  answered : Nat
  correct : Nat
  accuracyAnswered : Int
  accuracyTotal : Int
  per : List GradePer
deriving DecidableEq, Repr

/-- The quiz object, restricted to the fields the modelled operations
read and write.  A quiz whose source lives in a note file is modelled
by its loaded text, since file access is an external collaborator. -/
structure Quiz where
  title : String
  sourceText : String
  choicesCount : Nat
  submitted : Bool
  questions : List QuizQuestion
  updated_at : String
deriving DecidableEq, Repr

/-- `computeGrade` from the source. -/
def computeGrade (quiz : Quiz) : Grade :=
  let total := quiz.questions.length
  let per := quiz.questions.map (fun q =>
    let isAnswered := q.user_answer_index.isSome
    let isCorrect := isAnswered && q.user_answer_index = some q.answer_index
    GradePer.mk isAnswered isCorrect (if isAnswered then q.user_answer_index else none) q.answer_index)
  let answered := per.countP (fun p => p.isAnswered)
  let correct := per.countP (fun p => p.isCorrect)
  let accuracyAnswered := if answered = 0 then 0 else jsRound (mkRat (correct * 100) answered)
  let accuracyTotal := if total = 0 then 0 else jsRound (mkRat (correct * 100) total)
  ⟨total, answered, correct, accuracyAnswered, accuracyTotal, per⟩

/-! ## Retry-collector (`addMoreQuestionsToCurrentQuiz`)

The network round-trip, the response-envelope extraction and the
persistence write are external collaborators; the loop is modelled
against `responses i n`, the extracted response text of attempt `i`
when `n` questions are requested, with `rng` and `uids` the explicit
random and id supplies and `now` the clock.  Errors are the thrown
message strings of the source; on an error the quiz is returned
unchanged, mirroring that the source throws before mutating it. -/

/-- The `NoNewQuestions` failure message. -/
def NO_NEW_QUESTIONS_MSG : String :=
  "No new, non-duplicate questions were produced. Try again."

/-- JS `Set.prototype.add` on a deduplicated list. -/
def jsSetAdd (s : List String) (x : String) : List String :=
  if x ∈ s then s else s ++ [x]

/-- The collector's per-session state: accepted questions, their
normalized-text set and token sets, and the random and id counters. -/
structure SessState where
  collected : List QuizQuestion
  collectedNorm : List String
  collectedTokenSets : List (List String)
  rngK : Nat
  uidK : Nat
deriving DecidableEq, Repr

/-- The acceptance step done for each normalized question of a batch:
stop once `desired` are collected, drop near-duplicates of the
existing corpus and of this session's accepted set, and otherwise
accept the question with shuffled choices. -/
def acceptQuestion (rng : Nat → Nat) (existingNorm : List String)
    (existingTokenSets : List (List String)) (desired : Nat)
    (st : SessState) (q : QuizQuestion) : SessState :=
  if st.collected.length ≥ desired then st
  else if isNearDuplicate q.q existingNorm existingTokenSets then st
  else if isNearDuplicate q.q st.collectedNorm st.collectedTokenSets then st
  else
    let p := randomizeQuestionChoices rng st.rngK q
    { st with
        collected := st.collected ++ [p.1]
        collectedNorm := jsSetAdd st.collectedNorm (normText q.q)
        collectedTokenSets := st.collectedTokenSets ++ [tokenSet q.q]
        rngK := p.2 }

/-- `questionsRaw.map((q) => normalizeQuestion(q, choicesCount))`,
with ids drawn from the supply; the first thrown error aborts. -/
def normalizeBatch (uids : Nat → String) (choicesCount : Nat) :
    Nat → List JVal → Except String (List QuizQuestion)
  | _, [] => .ok []
  | k, q :: rest =>
    match normalizeQuestion (uids k) q choicesCount with
    | .error e => .error e
    | .ok nq =>
      match normalizeBatch uids choicesCount (k + 1) rest with
      | .error e => .error e
      | .ok l => .ok (nq :: l)

/-- One attempt of the collector loop: parse the response text, read
`parsed.questions` (empty when absent), normalize the batch, and run
the acceptance step over it. -/
def attemptStep (rng : Nat → Nat) (uids : Nat → String)
    (existingNorm : List String) (existingTokenSets : List (List String))
    (desired choicesCount : Nat) (responseText : String) (st : SessState) :
    Except String SessState :=
  match safeParseJson responseText with
  | .error e => .error (parseErrMessage e)
  | .ok parsed =>
    let questionsRaw :=
      match objGet parsed "questions" with
      | some (.jarr l) => l
      | _ => []
    match normalizeBatch uids choicesCount st.uidK questionsRaw with
    | .error e => .error e
    | .ok normalized =>
      .ok (normalized.foldl
        (acceptQuestion rng existingNorm existingTokenSets desired)
        { st with uidK := st.uidK + questionsRaw.length })

/-- The collector's `while (collected.length < desired && attempts < 3)`
loop: `fuel` is the remaining attempt budget (3 at entry), `i` the
zero-based attempt index, and each attempt requests
`min(12, desired - collected.length)` questions. -/
def collectLoop (rng : Nat → Nat) (uids : Nat → String) (responses : Nat → Nat → String)
    (existingNorm : List String) (existingTokenSets : List (List String))
    (desired choicesCount : Nat) : Nat → Nat → SessState → Except String SessState
  | 0, _, st => .ok st
  | Nat.succ fuel, i, st =>
    if st.collected.length ≥ desired then .ok st
    else
      let reqCount := min 12 (desired - st.collected.length)
      match attemptStep rng uids existingNorm existingTokenSets desired choicesCount
        (responses i reqCount) st with
      | .error e => .error e
      | .ok st2 =>
        collectLoop rng uids responses existingNorm existingTokenSets desired choicesCount
          fuel (i + 1) st2

/-- `addMoreQuestionsToCurrentQuiz` from the source, as a pure
function from the quiz to an optional thrown message and the
(possibly appended-to) quiz. -/
def addMoreQuestionsToCurrentQuiz (settings : Settings) (responses : Nat → Nat → String)
    (rng : Nat → Nat) (uids : Nat → String) (now : String)
    (quiz : Quiz) (count : Int) : Option String × Quiz :=
  if quiz.submitted then (some "Quiz already submitted.", quiz)
  else
    let desired := (clampInt count 1 50 5).toNat
    let plan := buildQuestionTypePlan settings desired
    if totalQuestionsFromPlan plan = 0 then
      (some "Question plan is empty. Enable at least one question type.", quiz)
    else if jsTrim quiz.sourceText = "" then
      (some "This quiz has no source text. Regenerate it from a note or custom prompt.", quiz)
    else
      let existingQuestions := quiz.questions.map (fun q => q.q)
      let existingNorm := (existingQuestions.map normText).dedup
      let existingTokenSets := existingQuestions.map tokenSet
      match collectLoop rng uids responses existingNorm existingTokenSets desired
        quiz.choicesCount 3 0 ⟨[], [], [], 0, 0⟩ with
      | .error e => (some e, quiz)
      | .ok st =>
        if st.collected.isEmpty then (some NO_NEW_QUESTIONS_MSG, quiz)
        else
          let sh := shuffleInPlace rng st.rngK st.collected
          (none, { quiz with questions := quiz.questions ++ sh.1, updated_at := now })

/-! ## A renderer (model of `JSON.stringify`)

Used to state the recovery parser's round-trip property: a value is
rendered compactly, wrapped in one of the noisy forms the repair step
targets, and fed back through `safeParseJson`. -/

/-- Hex digit character (lowercase). -/
def hexDigitChar (d : Nat) : Char :=
  if d < 10 then Char.ofNat (48 + d) else Char.ofNat (87 + d)

/-- `JSON.stringify`'s escaping of one character. -/
def escapeUnit (c : Char) : List Char :=
  if c = '"' then ['\\', '"']
  else if c = '\\' then ['\\', '\\']
  else if c = '\n' then ['\\', 'n']
  else if c = '\r' then ['\\', 'r']
  else if c = '\t' then ['\\', 't']
  else if c = Char.ofNat 8 then ['\\', 'b']
  else if c = Char.ofNat 12 then ['\\', 'f']
  else if c.toNat < 32 then
    ['\\', 'u', '0', '0', hexDigitChar (c.toNat / 16), hexDigitChar (c.toNat % 16)]
  else [c]

/-- Escaped body of a rendered string. -/
def escBody : List Char → List Char
  | [] => []
  | c :: cs => escapeUnit c ++ escBody cs

/-- A rendered string literal. -/
def renderStr (s : String) : List Char :=
  '"' :: escBody s.data ++ ['"']

mutual

/-- Compact rendering of a JSON value, as `JSON.stringify` emits it. -/
def renderV : JVal → List Char
  | .jnull => ['n', 'u', 'l', 'l']
  | .jbool true => ['t', 'r', 'u', 'e']
  | .jbool false => ['f', 'a', 'l', 's', 'e']
  | .jnum q => (jsNumToString q).data
  | .jstr s => renderStr s
  | .jarr l => '[' :: renderElems l ++ [']']
  | .jobj l => '{' :: renderMembers l ++ ['}']

/-- Rendered array elements, comma separated. -/
def renderElems : List JVal → List Char
  | [] => []
  | [v] => renderV v
  | v :: rest => renderV v ++ ',' :: renderElems rest

/-- Rendered object members, comma separated. -/
def renderMembers : List (String × JVal) → List Char
  | [] => []
  | [(k, v)] => renderStr k ++ ':' :: renderV v
  | (k, v) :: rest => renderStr k ++ ':' :: renderV v ++ ',' :: renderMembers rest

end

mutual

/-- Are all numeric literals of a value integers?  (The renderer's
round-trip statement is proved for such values.) -/
def numsInt : JVal → Bool
  | .jnull => true
  | .jbool _ => true
  | .jnum q => q.den = 1
  | .jstr _ => true
  | .jarr l => numsIntL l
  | .jobj l => numsIntM l

def numsIntL : List JVal → Bool
  | [] => true
  | v :: l => numsInt v && numsIntL l

def numsIntM : List (String × JVal) → Bool
  | [] => true
  | (_, v) :: l => numsInt v && numsIntM l

end

/-- The noisy wrapping of a rendered text in a `json` code fence. -/
def fenceWrap (r : List Char) : List Char :=
  tickChar :: tickChar :: tickChar :: 'j' :: 's' :: 'o' :: 'n' :: '\n' :: r ++ '\n' :: tickChar :: tickChar :: [tickChar]

/-- The noisy rendering with typographic quotes in place of straight
double quotes. -/
def curlify (r : List Char) : List Char :=
  r.map (fun c => if c = '"' then '”' else c)

/-- Does the text contain a comma followed by whitespace and a closing
brace or bracket (the pattern the trailing-comma repair rewrites)? -/
def hasCommaCloser : List Char → Bool
  | [] => false
  | c :: rest => (c = ',' && (wsThenCloser rest).isSome) || hasCommaCloser rest

/-- The typographic quote characters the repair step rewrites. -/
def curlyChar (c : Char) : Bool :=
  c = '“' ∨ c = '”' ∨ c = '‘' ∨ c = '’'

mutual

/-- Structural size of a JSON value, used as a fuel bound for the
parser in the round-trip statement. -/
def sizeV : JVal → Nat
  | .jnull => 1
  | .jbool _ => 1
  | .jnum _ => 1
  | .jstr _ => 1
  | .jarr l => 1 + sizeL l
  | .jobj l => 1 + sizeM l

/-- Size of an array's element list. -/
def sizeL : List JVal → Nat
  | [] => 1
  | v :: l => 1 + sizeV v + sizeL l

/-- Size of an object's member list. -/
def sizeM : List (String × JVal) → Nat
  | [] => 1
  | (_, v) :: l => 1 + sizeV v + sizeM l

end

/-- A character none of the repair passes can touch: not a backtick,
not a typographic quote, and not whitespace. -/
def cleanChar (c : Char) : Bool :=
  !(c = tickChar) && !(curlyChar c) && !(jsWsChar c)

/-- No comma immediately followed by a closing brace or bracket
anywhere in the text (for whitespace-free text this is exactly the
absence of the trailing-comma repair pattern). -/
def noAdjCommaCloser : List Char → Bool
  | c1 :: c2 :: rest =>
    !(c1 = ',' && (c2 = '}' || c2 = ']')) && noAdjCommaCloser (c2 :: rest)
  | _ => true

/-- A rendering left unchanged by every repair pass. -/
def cleanText (s : List Char) : Bool :=
  s.all cleanChar && noAdjCommaCloser s

/-- Can parsing of a rendered number stop right here?  (The next
character continues a numeric literal in none of the grammar's ways.) -/
def numStop (s : List Char) : Bool :=
  match s with
  | [] => true
  | c :: _ => !(c.isDigit || c = '.' || c = 'e' || c = 'E')

/-- The rendering of a value with a stray trailing comma inserted
immediately before its closer (containers only; other values render
plainly, having no closer). -/
def commaWrap : JVal → List Char
  | .jarr l => '[' :: renderElems l ++ [',', ']']
  | .jobj l => '{' :: renderMembers l ++ [',', '}']
  | v => renderV v

/-! ## Specification-side twins

Definitions that follow the specification's words where they differ
from the source, for refutation by comparison. -/

/-- The deduplication normalization as claim C8 words it: characters
outside `[a-z0-9 ]` are *stripped* (removed), rather than replaced by
a space as the source does. -/
def normTextStrippedSpec (s : String) : String :=
  String.mk (jsTrimL (collapseWsAux false
    ((s.data.map Char.toLower).filter (fun c => keptChar c))))

/-- Token set over the stripped-style normalization. -/
def tokenSetStrippedSpec (s : String) : List String :=
  (((splitOnSpace (normTextStrippedSpec s).data).map String.mk).filter
    (fun w => w.length ≥ 3)).dedup

/-- The rejection condition of claim C8, read literally: the
stripped-style normalized text is empty, or equals an existing entry,
or its token set has Jaccard similarity at least 0.72 with some
existing token set. -/
def nearDuplicateSpecC8 (qText : String) (existing : List String)
    (existingTokenSets : List (List String)) : Prop :=
  normTextStrippedSpec qText = "" ∨
  normTextStrippedSpec qText ∈ existing ∨
  ∃ ex ∈ existingTokenSets,
    mkRat 72 100 ≤ jaccard (tokenSetStrippedSpec qText) ex

/-! ## Concrete example values used by instances and witnesses -/

/-- A quiz with five questions, three answered, two correctly
(the grading example of the specification). -/
def gradeDemoQuiz : Quiz :=
  ⟨"T", "src", 2, false,
    [ ⟨"1", "q1", ["a", "b"], mkRat 0 1, "", some (mkRat 0 1)⟩,
      ⟨"2", "q2", ["a", "b"], mkRat 1 1, "", some (mkRat 0 1)⟩,
      ⟨"3", "q3", ["a", "b"], mkRat 0 1, "", some (mkRat 0 1)⟩,
      ⟨"4", "q4", ["a", "b"], mkRat 0 1, "", none⟩,
      ⟨"5", "q5", ["a", "b"], mkRat 0 1, "", none⟩ ], "t0"⟩

/-- A multiple-choice candidate whose `answer_index` is the finite
non-integer 2.5. -/
def halfIndexCandidate : JVal :=
  .jobj [("q", .jstr "x"),
         ("choices", .jarr [.jstr "a", .jstr "b", .jstr "c", .jstr "d"]),
         ("answer_index", .jnum (mkRat 5 2))]

/-- A multiple-choice candidate with three choices. -/
def threeChoiceCandidate : JVal :=
  .jobj [("q", .jstr "x"),
         ("choices", .jarr [.jstr "a", .jstr "b", .jstr "c"]),
         ("answer_index", .jnum (mkRat 0 1))]

/-- A multiple-choice candidate with four choices. -/
def fourChoiceCandidate : JVal :=
  .jobj [("q", .jstr "x"),
         ("choices", .jarr [.jstr "a", .jstr "b", .jstr "c", .jstr "d"]),
         ("answer_index", .jnum (mkRat 1 1)),
         ("explanation", .jstr "because")]

/-- A record that satisfies the multiple-choice shape and additionally
carries a string `answer` field. -/
def mcWithAnswerCandidate : JVal :=
  .jobj [("q", .jstr "x"),
         ("choices", .jarr [.jstr "a", .jstr "b"]),
         ("answer_index", .jnum (mkRat 0 1)),
         ("answer", .jstr "y")]

/-- The four-choice geography question of the randomizer example, with
the correct answer "Paris" at index 2 and an unanswered state. -/
def parisQuestion : QuizQuestion :=
  ⟨"p1", "capital?", ["London", "Berlin", "Paris", "Rome"], mkRat 2 1, "", none⟩

/-- The corpus question of the deduplication example. -/
def franceQuestion : String := "What is the capital of France?"

/-- The near-duplicate candidate of the deduplication example. -/
def franceCandidate : String := "What's the capital city of France?"

/-- The low-overlap candidate of the deduplication example. -/
def egyptCandidate : String := "Name the longest river in Egypt"

/-- A one-question quiz used by the collector examples. -/
def collectorQuiz : Quiz :=
  ⟨"T", "source text", 2, false,
    [⟨"1", franceQuestion, ["Paris", "Rome"], mkRat 0 1, "", none⟩], "t0"⟩

/-- A response whose only question near-duplicates the existing corpus. -/
def duplicateResponse : Nat → Nat → String := fun _ _ =>
  "\x7b\"questions\":[\x7b\"q\":\"What's the capital city of France?\",\"choices\":[\"Paris\",\"Rome\"],\"answer_index\":0\x7d]\x7d"

/-- A response carrying one fresh question. -/
def freshResponse : Nat → Nat → String := fun _ _ =>
  "\x7b\"questions\":[\x7b\"q\":\"Name the longest river in Egypt\",\"choices\":[\"Nile\",\"Amazon\"],\"answer_index\":0\x7d]\x7d"

/-- A deterministic random stream used by witnesses. -/
def demoRng : Nat → Nat := fun n => n + 1

/-- A deterministic id supply used by witnesses. -/
def demoUids : Nat → String := fun n => String.mk ('q' :: natToChars n)

/-- The array `[", ]"]`, whose rendering contains a comma followed by
a space and a bracket inside a string literal. -/
def commaCloserValue : JVal := .jarr [.jstr ", ]"]

/-- The value the repair pipeline turns `[", ]"]` into. -/
def corruptedValue : JVal := .jarr [.jstr "]"]

/-- A small clean object used by the round-trip witness. -/
def roundTripDemo : JVal :=
  .jobj [("title", .jstr "t"), ("questions", .jarr [.jnum (mkRat 0 1), .jnull, .jbool true])]

/-- The noisy input of the C1 counterexample: two complete top-level
objects after leading junk, so that the first balanced structure ends
before the last one. -/
def twoObjectsInput : String := "junk \x7b\"a\":1\x7d \x7b\"b\":2\x7d"

/-- Settings with no question type enabled. -/
def noneEnabledSettings : Settings :=
  ⟨some ⟨false, 0, false, 0, false, 0, false, 0, false, 0, false, 0⟩⟩

/-- Settings with only fill-in-blank enabled (quantity deliberately
different from any requested total). -/
def oneEnabledSettings : Settings :=
  ⟨some ⟨false, 0, false, 0, true, 7, false, 0, false, 0, false, 0⟩⟩

/-- Settings with matching (quantity 30) and true/false (quantity 0)
enabled. -/
def twoEnabledSettings : Settings :=
  ⟨some ⟨true, 30, false, 0, false, 0, false, 0, true, 0, false, 0⟩⟩

/-! # Theorems -/

/-! ## Shared facts -/

/-- `jsRound` is rounding half up. -/
theorem jsRound_eq_round (q : Rat) : jsRound q = round q := by
  have hden : (0 : Int) ≤ 2 * (q.den : Int) := by positivity
  have hdenQ : ((q.den : ℚ)) ≠ 0 := by
    exact_mod_cast q.den_nz
  rw [jsRound, Int.fdiv_eq_ediv _ hden, round_eq]
  have h2 : (2 * (q.den : Int)) = ((2 * q.den : ℕ) : ℤ) := by push_cast; ring
  rw [h2, ← Rat.floor_intCast_div_natCast]
  congr 1
  have hq : (q.num : ℚ) = q * q.den := by
    have hcancel := div_mul_cancel₀ ((q.num : ℚ)) hdenQ
    rw [Rat.num_div_den q] at hcancel
    exact hcancel.symm
  push_cast
  field_simp
  rw [hq]
  ring

/-! ## C9: grading engine -/

/-- C9: `computeGrade` returns `total` = number of questions,
`answered` = number of questions with a non-null user answer,
`correct` = number of answered questions whose user answer equals the
answer index, and the two accuracies as the half-up rounding of
`100·correct/answered` resp. `100·correct/total` (0 on a zero
denominator); on the five-question quiz with three answered and two
correct it yields `answered = 3`, `correct = 2`,
`accuracyAnswered = 67`, `accuracyTotal = 40`. -/
theorem computeGrade_correct :
    (∀ quiz : Quiz,
      (computeGrade quiz).total = quiz.questions.length ∧
      (computeGrade quiz).answered =
        quiz.questions.countP (fun q => q.user_answer_index.isSome) ∧
      (computeGrade quiz).correct =
        quiz.questions.countP
          (fun q => q.user_answer_index.isSome && q.user_answer_index = some q.answer_index) ∧
      (computeGrade quiz).accuracyAnswered =
        (if (computeGrade quiz).answered = 0 then 0
         else round ((100 * ((computeGrade quiz).correct : ℚ)) / ((computeGrade quiz).answered : ℚ))) ∧
      (computeGrade quiz).accuracyTotal =
        (if (computeGrade quiz).total = 0 then 0
         else round ((100 * ((computeGrade quiz).correct : ℚ)) / ((computeGrade quiz).total : ℚ)))) ∧
    (computeGrade gradeDemoQuiz).total = 5 ∧
    (computeGrade gradeDemoQuiz).answered = 3 ∧
    (computeGrade gradeDemoQuiz).correct = 2 ∧
    (computeGrade gradeDemoQuiz).accuracyAnswered = 67 ∧
    (computeGrade gradeDemoQuiz).accuracyTotal = 40 := by
  have hacc : ∀ c d : Nat, jsRound (mkRat (c * 100) d) = round ((100 * (c : ℚ)) / (d : ℚ)) := by
    intro c d
    rw [jsRound_eq_round, Rat.mkRat_eq_div]
    congr 1
    push_cast
    ring
  refine ⟨fun quiz => ?_, by decide, by decide, by decide, by decide, by decide⟩
  refine ⟨rfl, ?_, ?_, ?_, ?_⟩
  · simp [computeGrade, List.countP_map, Function.comp_def]
  · simp [computeGrade, List.countP_map, Function.comp_def]
  · simp only [computeGrade, List.countP_map, Function.comp_def]
    split <;> simp_all [hacc]
  · simp only [computeGrade, List.countP_map, Function.comp_def]
    split <;> simp_all [hacc]

/-! ## C7: plan builder -/

/-- C7: `buildQuestionTypePlan` returns a single multiple-choice entry
with the full requested total when no type is enabled; the single
enabled type with the full total when exactly one is enabled; and with
several enabled types, each configured quantity clamped to
`[0, total]` with zero-quantity entries dropped (first enabled type
with the full total when everything drops out) — quantities are passed
through unreconciled, and the plan total equals the requested total
whenever at most one type is enabled. -/
theorem buildQuestionTypePlan_spec (settings : Settings) (t : Int)
    (qts : QuestionTypeSettings) (enabled : List QuestionTypeRegistryEntry)
    (hq : qts = settings.questionTypeSettings.getD DEFAULT_QUESTION_TYPE_SETTINGS)
    (he : enabled = questionTypeRegistry.filter (fun entry => enabledOf qts entry.key)) :
    (enabled = [] →
      buildQuestionTypePlan settings t = [⟨.multipleChoice, t⟩]) ∧
    (∀ e, enabled = [e] →
      buildQuestionTypePlan settings t = [⟨e.key, t⟩]) ∧
    (∀ e1 e2 rest, enabled = e1 :: e2 :: rest →
      (∀ base, base = (enabled.map (fun entry =>
          QuestionTypePlanEntry.mk entry.key (clampInt (quantityOf qts entry.key) 0 t 0))).filter
          (fun item => item.quantity > 0) →
        (base = [] → buildQuestionTypePlan settings t = [⟨e1.key, t⟩]) ∧
        (base ≠ [] → buildQuestionTypePlan settings t = base ∧
          ∀ p ∈ buildQuestionTypePlan settings t,
            p.quantity = max 0 (min t (quantityOf qts p.key)) ∧ 0 < p.quantity))) ∧
    (enabled.length ≤ 1 →
      totalQuestionsFromPlan (buildQuestionTypePlan settings t) = t) := by
  subst hq
  have hPlan : buildQuestionTypePlan settings t =
      (match questionTypeRegistry.filter (fun entry =>
          enabledOf (settings.questionTypeSettings.getD DEFAULT_QUESTION_TYPE_SETTINGS) entry.key) with
       | [] =>
         match questionTypeRegistry.find? (fun entry => entry.key = MULTIPLE_CHOICE_TOGGLE_KEY) with
         | some fallback => [⟨fallback.key, t⟩]
         | none => []
       | [only] => [⟨only.key, t⟩]
       | first :: _ =>
         match ((questionTypeRegistry.filter (fun entry =>
             enabledOf (settings.questionTypeSettings.getD DEFAULT_QUESTION_TYPE_SETTINGS) entry.key)).map
             (fun entry => QuestionTypePlanEntry.mk entry.key
               (clampInt (quantityOf (settings.questionTypeSettings.getD DEFAULT_QUESTION_TYPE_SETTINGS) entry.key) 0 t 0))).filter
           (fun item => item.quantity > 0) with
         | [] => [⟨first.key, t⟩]
         | _ => ((questionTypeRegistry.filter (fun entry =>
             enabledOf (settings.questionTypeSettings.getD DEFAULT_QUESTION_TYPE_SETTINGS) entry.key)).map
             (fun entry => QuestionTypePlanEntry.mk entry.key
               (clampInt (quantityOf (settings.questionTypeSettings.getD DEFAULT_QUESTION_TYPE_SETTINGS) entry.key) 0 t 0))).filter
           (fun item => item.quantity > 0)) := rfl
  refine ⟨?_, ?_, ?_, ?_⟩
  · intro h
    rw [he] at h
    rw [hPlan, h]
    rfl
  · intro e h
    rw [he] at h
    rw [hPlan, h]
  · intro e1 e2 rest h base hbasedef
    rw [he] at h
    rw [he, h] at hbasedef
    rw [h] at hPlan
    constructor
    · intro hbase
      rw [hbasedef] at hbase
      rw [hPlan, hbase]
    · intro hbase
      have hplan2 : buildQuestionTypePlan settings t = base := by
        rw [hbasedef] at hbase ⊢
        rcases hb : (((e1 :: e2 :: rest).map (fun entry =>
          QuestionTypePlanEntry.mk entry.key
            (clampInt (quantityOf (settings.questionTypeSettings.getD DEFAULT_QUESTION_TYPE_SETTINGS) entry.key) 0 t 0))).filter
          (fun item => item.quantity > 0)) with _ | ⟨p, ps⟩
        · exact absurd hb hbase
        · rw [hPlan, hb]
      refine ⟨hplan2, ?_⟩
      intro p hp
      rw [hplan2, hbasedef] at hp
      simp only [List.mem_filter, List.mem_map] at hp
      obtain ⟨⟨e, _, rfl⟩, hpos⟩ := hp
      refine ⟨?_, by simpa using hpos⟩
      simp [clampInt, Int.max_comm]
  · intro hlen
    rcases henabled : enabled with _ | ⟨e, _ | ⟨e2, rest⟩⟩
    · rw [he] at henabled
      rw [hPlan, henabled]
      have hf : questionTypeRegistry.find? (fun entry => entry.key = MULTIPLE_CHOICE_TOGGLE_KEY) =
          some ⟨.multipleChoice, "Multiple Choice (single correct choice)", isMultipleChoiceQuestion⟩ := rfl
      rw [hf]
      simp [totalQuestionsFromPlan]
    · rw [he] at henabled
      rw [hPlan, henabled]
      simp [totalQuestionsFromPlan]
    · rw [henabled] at hlen
      simp at hlen

/-- Witness for C7: concrete settings with zero, one and two enabled
types produce the claimed plans. -/
theorem buildQuestionTypePlan_spec_witness :
    buildQuestionTypePlan noneEnabledSettings 10 = [⟨.multipleChoice, 10⟩] ∧
    buildQuestionTypePlan oneEnabledSettings 10 = [⟨.fillBlank, 10⟩] ∧
    buildQuestionTypePlan twoEnabledSettings 10 = [⟨.matching, 10⟩] := by
  refine ⟨?_, ?_, ?_⟩
  · exact (buildQuestionTypePlan_spec noneEnabledSettings 10 _ _ rfl rfl).1 rfl
  · exact (buildQuestionTypePlan_spec oneEnabledSettings 10 _ _ rfl rfl).2.1 _ rfl
  · have h := (buildQuestionTypePlan_spec twoEnabledSettings 10 _ _ rfl rfl).2.2.1 _ _ _ rfl _ rfl
    exact (h.2 (by decide)).1.trans rfl

/-! ## C6: the question normalizer on multiple-choice candidates -/

/-- The missing-question-text message differs from every choice-count
message. -/
theorem missingText_ne_choiceMsg (t : String) :
    ("Bad model output: missing question text." : String) ≠
      "Bad model output: choices must be exactly " ++ t := by
  intro h
  have hd := congrArg String.data h
  rw [String.data_append] at hd
  have h2 := congrArg (List.take 20) hd
  rw [List.take_append_of_le_length (by decide)] at h2
  exact absurd h2 (by decide)

/-- `jsMaxQ` is `max`. -/
theorem jsMaxQ_eq_max (a b : Rat) : jsMaxQ a b = max a b := by
  by_cases h : a ≤ b <;> simp [jsMaxQ, max_def, h]

/-- `jsMinQ` is `min`. -/
theorem jsMinQ_eq_min (a b : Rat) : jsMinQ a b = min a b := by
  by_cases h : a ≤ b <;> simp [jsMinQ, min_def, h]

/-- C6 (amended): for a candidate matched as multiple-choice,
`normalizeQuestion` fails with the missing-text error iff the trimmed
question text is empty, otherwise fails with the choice-count error
iff the surviving choice count differs from `choicesCount` (exact
match), and otherwise succeeds with the given fresh id, the trimmed
text, the surviving choices, `user_answer_index = null`, the
explanation defaulted to the empty string, and `answer_index` equal to
the raw finite answer index *used as-is* (it is parsed only when not
finite, and may remain non-integral) clamped into
`[0, choices.length − 1]`; in particular three choices are rejected
when `choicesCount = 4` and exactly four are accepted. -/
theorem normalizeQuestion_mc_spec :
    (∀ (freshId : String) (q : JVal) (choicesCount : Nat)
       (m : QuestionTypeRegistryEntry), matchQuestionType q = some m →
       m.key = MULTIPLE_CHOICE_TOGGLE_KEY →
       ∀ (s : String), objGet q "q" = some (.jstr s) →
       ∀ (l : List JVal), objGet q "choices" = some (.jarr l) →
       ∀ (x : Rat), objGet q "answer_index" = some (.jnum x) →
       ∀ (surviving : List String),
         surviving = (l.map (fun x => jsTrim (jsToString x))).filter (fun s => s ≠ "") →
       (normalizeQuestion freshId q choicesCount =
          .error ("Bad model output: missing question text.") ↔ jsTrim s = "") ∧
       (jsTrim s ≠ "" →
         (normalizeQuestion freshId q choicesCount =
            .error ("Bad model output: choices must be exactly " ++
              String.mk (natToChars choicesCount) ++ ".") ↔
          surviving.length ≠ choicesCount)) ∧
       (jsTrim s ≠ "" → surviving.length = choicesCount →
         ∃ r, normalizeQuestion freshId q choicesCount = .ok r ∧
           r.id = freshId ∧ r.q = jsTrim s ∧ r.choices = surviving ∧
           r.answer_index = max (mkRat 0 1) (min (ratOfInt ((choicesCount : Int) - 1)) x) ∧
           r.user_answer_index = none ∧
           (objGet q "explanation" = none → r.explanation = ""))) ∧
    normalizeQuestion ("cx") threeChoiceCandidate 4 =
      .error ("Bad model output: choices must be exactly " ++ String.mk (natToChars 4) ++ ".") ∧
    normalizeQuestion ("cx") fourChoiceCandidate 4 =
      .ok ⟨"cx", "x", ["a", "b", "c", "d"], mkRat 1 1, "because", none⟩ := by
  refine ⟨?_, by rfl, by rfl⟩
  intro freshId q choicesCount m hm hkey s hs l hl x hx surviving hsurv
  have hstr : jsToString (strOrEmpty (objGet q "q")) = s := by
    rw [hs]
    by_cases hempty : s = ""
    · subst hempty
      rfl
    · simp [strOrEmpty, jsTruthy, hempty, jsToString]
  have hnq : normalizeQuestion freshId q choicesCount =
      (if jsTrim s = "" then .error ("Bad model output: missing question text.")
       else if surviving.length ≠ choicesCount then
         .error ("Bad model output: choices must be exactly " ++
           String.mk (natToChars choicesCount) ++ ".")
       else .ok
         { id := freshId
           q := jsTrim s
           choices := surviving
           answer_index := jsMaxQ (mkRat 0 1) (jsMinQ (ratOfInt ((surviving.length : Int) - 1)) x)
           explanation := jsTrim (jsToString (strOrEmpty (objGet q "explanation")))
           user_answer_index := none }) := by
    rw [show normalizeQuestion freshId q choicesCount =
        (match matchQuestionType q with
         | none => .error ("Bad model output: question did not match any expected schema.")
         | some matched =>
           if matched.key ≠ MULTIPLE_CHOICE_TOGGLE_KEY then
             .error ("Bad model output: unsupported question type (" ++ matched.description ++ ").")
           else
             let qq := jsTrim (jsToString (strOrEmpty (objGet q "q")))
             let choices :=
               match objGet q "choices" with
               | some (.jarr l) => (l.map (fun x => jsTrim (jsToString x))).filter (fun s => s ≠ "")
               | _ => []
             let aiOpt : Option Rat :=
               match objGet q "answer_index" with
               | some (.jnum x) => some x
               | other => (parseIntJs (jsToStringU other).data).map ratOfInt
             if qq = "" then .error ("Bad model output: missing question text.")
             else if choices.length ≠ choicesCount then
               .error ("Bad model output: choices must be exactly " ++ String.mk (natToChars choicesCount) ++ ".")
             else
               let ai1 : Rat := aiOpt.getD (mkRat 0 1)
               let ai : Rat := jsMaxQ (mkRat 0 1) (jsMinQ (ratOfInt ((choices.length : Int) - 1)) ai1)
               .ok
                 { id := freshId
                   q := qq
                   choices := choices
                   answer_index := ai
                   explanation := jsTrim (jsToString (strOrEmpty (objGet q "explanation")))
                   user_answer_index := none }) from rfl]
    subst hsurv
    rw [hm]
    show (if m.key ≠ MULTIPLE_CHOICE_TOGGLE_KEY then _ else _) = _
    rw [if_neg (not_not_intro hkey), hstr, hl, hx]
    rfl
  refine ⟨?_, ?_, ?_⟩
  · rw [hnq]
    constructor
    · intro h
      by_contra hne
      rw [if_neg hne] at h
      by_cases hcc : surviving.length ≠ choicesCount
      · rw [if_pos hcc] at h
        exact absurd (Except.error.inj h).symm (missingText_ne_choiceMsg _)
      · rw [if_neg (not_not_intro (not_ne_iff.mp hcc))] at h
        exact Except.noConfusion h
    · intro h
      rw [if_pos h]
  · intro hne
    rw [hnq, if_neg hne]
    constructor
    · intro h
      by_contra hcc
      rw [if_neg (not_not_intro hcc)] at h
      exact Except.noConfusion h
    · intro h
      rw [if_pos h]
  · intro hne hcc
    rw [hnq, if_neg hne, if_neg (not_not_intro hcc)]
    refine ⟨_, rfl, rfl, rfl, rfl, ?_, rfl, ?_⟩
    · rw [hcc, jsMaxQ_eq_max, jsMinQ_eq_min]
    · intro hex
      rw [hex]
      rfl

/-- C6 counterexample to the claim as stated: the candidate whose
`answer_index` is the finite non-integer `2.5` is normalized
successfully with `answer_index = 5/2`, whose denominator is `2`, not
`1` — so the resulting index is *not* an integer, contradicting
"coerced to a finite integer". -/
theorem normalizeQuestion_intCoercion_counterexample :
    (normalizeQuestion ("cx") halfIndexCandidate 4).toOption.map (fun r => r.answer_index) =
      some (mkRat 5 2) ∧ (mkRat 5 2).den = 2 ∧ (2 : Nat) ≠ 1 :=
  ⟨rfl, rfl, by decide⟩

/-- Witness for C6: the amended characterization applied to the
three-choice candidate with `choicesCount = 4`. -/
theorem normalizeQuestion_mc_spec_witness :
    normalizeQuestion ("w1") threeChoiceCandidate 4 =
      .error ("Bad model output: choices must be exactly " ++ String.mk (natToChars 4) ++ ".") := by
  exact ((normalizeQuestion_mc_spec.1 ("w1") threeChoiceCandidate 4 _ rfl rfl _ rfl _ rfl _ rfl _
    rfl).2.1 (by decide)).mpr (by decide)

/-! ## C8: the deduplicator -/

/-- C8 (amended): `isNearDuplicate` rejects a candidate iff its
normalized text — lowercased, every character outside `[a-z0-9 ]`
*replaced by a space* (not stripped), whitespace collapsed, trimmed —
is empty, or equals an existing normalized entry, or its set of tokens
of length at least 3 has Jaccard similarity at least 0.72 with some
existing token set (the Jaccard of empty sets being 0); the France
candidate is rejected against the France corpus question and the Egypt
candidate is accepted. -/
theorem isNearDuplicate_spec :
    (∀ (qText : String) (existing : List String) (ts : List (List String)),
      isNearDuplicate qText existing ts = true ↔
        (normText qText = "" ∨ normText qText ∈ existing ∨
         ∃ ex ∈ ts, mkRat 72 100 ≤ jaccard (tokenSet (normText qText)) ex)) ∧
    jaccard [] [] = mkRat 0 1 ∧
    (∀ b, jaccard [] b = mkRat 0 1) ∧
    isNearDuplicate franceCandidate [normText franceQuestion] [tokenSet franceQuestion] = true ∧
    isNearDuplicate egyptCandidate [normText franceQuestion] [tokenSet franceQuestion] = false := by
  refine ⟨?_, rfl, fun b => rfl, by decide, by decide⟩
  intro qText existing ts
  rw [isNearDuplicate]
  by_cases h1 : normText qText = ""
  · simp [h1]
  · rw [if_neg h1]
    by_cases h2 : normText qText ∈ existing
    · simp [h2]
    · rw [if_neg (by simpa using h2)]
      simp [h1, h2, List.any_eq_true]

/-- C8 counterexample to the claim as stated: with "stripped"
normalization (as the claim words it), the France candidate would be
accepted — its stripped token set has Jaccard 1/2 < 0.72 with the
existing token set and its stripped text matches no entry — yet the
source rejects it, because the source replaces the apostrophe by a
space, keeping the token "what". -/
theorem isNearDuplicate_strip_counterexample :
    isNearDuplicate franceCandidate [normText franceQuestion] [tokenSet franceQuestion] = true ∧
    ¬ nearDuplicateSpecC8 franceCandidate [normText franceQuestion] [tokenSet franceQuestion] := by
  constructor
  · decide
  · intro h
    rcases h with h | h | h
    · exact absurd h (by decide)
    · exact absurd h (by decide)
    · obtain ⟨ex, hex, hj⟩ := h
      rw [List.mem_singleton] at hex
      subst hex
      exact absurd hj (by decide)

/-! ## C10: fill-in-blank shadows the multiple-choice predicate -/

/-- A candidate matched to a non-multiple-choice entry is rejected
with the unsupported-type error. -/
theorem normalizeQuestion_unsupported (freshId : String) (q : JVal) (cc : Nat)
    (m : QuestionTypeRegistryEntry) (hm : matchQuestionType q = some m)
    (hkey : m.key ≠ MULTIPLE_CHOICE_TOGGLE_KEY) :
    normalizeQuestion freshId q cc =
      .error ("Bad model output: unsupported question type (" ++ m.description ++ ").") := by
  simp only [normalizeQuestion, hm]
  rw [if_pos hkey]

/-- C10: the fill-in-blank entry precedes the multiple-choice entry in
the registry, so a record that satisfies the multiple-choice shape but
also carries a string `answer` field is never matched as
multiple-choice and never normalizes successfully — it is matched as
fill-in-blank when the two even earlier guards decline — and the
concrete such record is matched as fill-in-blank and rejected with the
unsupported-type error. -/
theorem matcher_fillBlank_shadows_mc :
    questionTypeRegistry.findIdx (fun e => e.key = QTypeKey.fillBlank) = 2 ∧
    questionTypeRegistry.findIdx (fun e => e.key = QTypeKey.multipleChoice) = 3 ∧
    isMultipleChoiceQuestion mcWithAnswerCandidate = true ∧
    (matchQuestionType mcWithAnswerCandidate).map (fun e => e.key) = some QTypeKey.fillBlank ∧
    normalizeQuestion ("cx") mcWithAnswerCandidate 2 =
      .error ("Bad model output: unsupported question type (Fill in the Blank (short text answer)).") ∧
    (∀ (q : JVal) (freshId : String) (cc : Nat),
      isMultipleChoiceQuestion q = true →
      fieldIsString (objGet q "answer") = true →
      (matchQuestionType q).map (fun e => e.key) ≠ some QTypeKey.multipleChoice ∧
      (∀ r, normalizeQuestion freshId q cc ≠ .ok r) ∧
      (isMatchingQuestion q = false → isSelectAllQuestion q = false →
        (matchQuestionType q).map (fun e => e.key) = some QTypeKey.fillBlank)) := by
  refine ⟨rfl, rfl, rfl, rfl, rfl, ?_⟩
  intro q freshId cc hmc hans
  have hfb : isFillBlankQuestion q = true := by
    cases q <;> simp_all [isFillBlankQuestion, isMultipleChoiceQuestion]
  have hmatch : matchQuestionType q =
      (if isMatchingQuestion q then
        some ⟨.matching, "Matching (pair terms with definitions)", isMatchingQuestion⟩
      else if isSelectAllQuestion q then
        some ⟨.selectAll, "Select All (multiple correct choices)", isSelectAllQuestion⟩
      else some ⟨.fillBlank, "Fill in the Blank (short text answer)", isFillBlankQuestion⟩) := by
    rw [matchQuestionType, questionTypeRegistry]
    by_cases h1 : isMatchingQuestion q <;> by_cases h2 : isSelectAllQuestion q <;>
      simp [List.find?, h1, h2, hfb]
  have hkey : ∀ m, matchQuestionType q = some m → m.key ≠ MULTIPLE_CHOICE_TOGGLE_KEY := by
    intro m hm
    rw [hmatch] at hm
    by_cases h1 : isMatchingQuestion q
    · rw [if_pos h1] at hm
      cases Option.some.inj hm
      decide
    · rw [if_neg h1] at hm
      by_cases h2 : isSelectAllQuestion q
      · rw [if_pos h2] at hm
        cases Option.some.inj hm
        decide
      · rw [if_neg h2] at hm
        cases Option.some.inj hm
        decide
  refine ⟨?_, ?_, ?_⟩
  · intro hcon
    rw [hmatch] at hcon
    by_cases h1 : isMatchingQuestion q
    · rw [if_pos h1] at hcon
      exact absurd (Option.some.inj hcon) (by decide)
    · rw [if_neg h1] at hcon
      by_cases h2 : isSelectAllQuestion q
      · rw [if_pos h2] at hcon
        exact absurd (Option.some.inj hcon) (by decide)
      · rw [if_neg h2] at hcon
        exact absurd (Option.some.inj hcon) (by decide)
  · intro r hcon
    obtain ⟨m, hm⟩ : ∃ m, matchQuestionType q = some m := by
      rw [hmatch]
      by_cases h1 : isMatchingQuestion q
      · exact ⟨_, by rw [if_pos h1]⟩
      · by_cases h2 : isSelectAllQuestion q
        · exact ⟨_, by rw [if_neg h1, if_pos h2]⟩
        · exact ⟨_, by rw [if_neg h1, if_neg h2]⟩
    rw [normalizeQuestion_unsupported freshId q cc m hm (hkey m hm)] at hcon
    exact Except.noConfusion hcon
  · intro h1 h2
    rw [hmatch, if_neg (by simp [h1]), if_neg (by simp [h2])]
    rfl

/-- Witness for C10: the general insufficiency statement applied to
the concrete record. -/
theorem matcher_fillBlank_shadows_mc_witness :
    (matchQuestionType mcWithAnswerCandidate).map (fun e => e.key) ≠ some QTypeKey.multipleChoice ∧
    (matchQuestionType mcWithAnswerCandidate).map (fun e => e.key) = some QTypeKey.fillBlank := by
  have h := matcher_fillBlank_shadows_mc.2.2.2.2.2 mcWithAnswerCandidate ("w") 2 rfl rfl
  exact ⟨h.1, h.2.2 rfl rfl⟩

/-! ## C5: randomizer infrastructure -/

/-- Swapping two positions permutes the list. -/
theorem swapL_perm (l : List α) (i j : Nat) : (swapL l i j).Perm l := by
  classical
  rw [swapL]
  rcases h1 : l[i]? with _ | x
  · exact List.Perm.refl l
  rcases h2 : l[j]? with _ | y
  · exact List.Perm.refl l
  obtain ⟨hi, hxi⟩ := List.getElem?_eq_some_iff.mp h1
  obtain ⟨hj, hyj⟩ := List.getElem?_eq_some_iff.mp h2
  rw [List.perm_iff_count]
  intro b
  have hj2 : j < (l.set i y).length := by simpa using hj
  have hmem_i : l[i] ∈ l := List.getElem_mem hi
  have hmem_j : l[j] ∈ l := List.getElem_mem hj
  have hcount_i : (if l[i] == b then 1 else 0) ≤ l.count b := by
    split
    · rename_i hib
      have : b ∈ l := by
        rw [← eq_of_beq hib]
        exact hmem_i
      have := List.count_pos_iff.mpr this
      omega
    · omega
  have hcount_j : (if l[j] == b then 1 else 0) ≤ l.count b := by
    split
    · rename_i hjb
      have : b ∈ l := by
        rw [← eq_of_beq hjb]
        exact hmem_j
      have := List.count_pos_iff.mpr this
      omega
    · omega
  rw [List.count_set _ _ _ _ hj2, List.count_set _ _ _ _ hi, List.getElem_set]
  subst hxi hyj
  by_cases hij : i = j
  · subst hij
    rw [if_pos rfl]
    cases hib : (l[i] == b) <;>
      simp only [hib, if_true, if_false] at hcount_i ⊢ <;> simp <;> omega
  · rw [if_neg hij]
    cases hib : (l[i] == b) <;> cases hjb : (l[j] == b) <;>
      simp only [hib, hjb, if_true, if_false] at hcount_i hcount_j ⊢ <;> simp <;> omega

/-- The Fisher–Yates loop permutes the list. -/
theorem fyAux_perm (rng : Nat → Nat) :
    ∀ (i k : Nat) (l : List α), (fyAux rng k i l).1.Perm l := by
  intro i
  induction i with
  | zero => intro k l; exact List.Perm.refl l
  | succ i ih =>
    intro k l
    exact (ih (k + 1) (swapL l (i + 1) (rng k % (i + 2)))).trans (swapL_perm l _ _)

/-- `shuffleInPlace` permutes the list. -/
theorem shuffleInPlace_perm (rng : Nat → Nat) (k : Nat) (l : List α) :
    (shuffleInPlace rng k l).1.Perm l :=
  fyAux_perm rng (l.length - 1) k l

/-- `ratOfNat` is injective. -/
theorem ratOfNat_inj {m n : Nat} (h : ratOfNat m = ratOfNat n) : m = n := by
  rw [ratOfNat, ratOfNat, Rat.mkRat_one, Rat.mkRat_one] at h
  exact_mod_cast h

/-- In the shuffled `(text, idx)` pairs of a choice list, `findIdx?`
on a pair index `b` finds exactly the pair `(choices[b], b)`. -/
theorem shuffled_find (rng : Nat → Nat) (k : Nat) (choices : List String) (b : Nat)
    (hb : b < choices.length) :
    ∃ p : Nat,
      ∃ hp : p < (shuffleInPlace rng k (choices.enum.map (fun pr => (pr.2, pr.1)))).1.length,
      List.findIdx? (fun pr => ratOfNat pr.2 = ratOfNat b)
        (shuffleInPlace rng k (choices.enum.map (fun pr => (pr.2, pr.1)))).1 = some p ∧
      (shuffleInPlace rng k (choices.enum.map (fun pr => (pr.2, pr.1)))).1[p] =
        (choices.get ⟨b, hb⟩, b) := by
  classical
  have hperm := shuffleInPlace_perm rng k (choices.enum.map (fun pr => (pr.2, pr.1)))
  have hmem0 : (b, choices.get ⟨b, hb⟩) ∈ choices.enum := by
    rw [List.mem_iff_getElem]
    refine ⟨b, by simpa using hb, ?_⟩
    simp [List.enum]
  have hmem : ((choices.get ⟨b, hb⟩, b) : String × Nat) ∈
      choices.enum.map (fun pr => (pr.2, pr.1)) :=
    List.mem_map.mpr ⟨(b, choices.get ⟨b, hb⟩), hmem0, rfl⟩
  have hmem2 := hperm.mem_iff.mpr hmem
  have hp : List.findIdx? (fun pr => ratOfNat pr.2 = ratOfNat b)
      (shuffleInPlace rng k (choices.enum.map (fun pr => (pr.2, pr.1)))).1 =
      some (List.findIdx (fun pr => ratOfNat pr.2 = ratOfNat b)
        (shuffleInPlace rng k (choices.enum.map (fun pr => (pr.2, pr.1)))).1) :=
    List.findIdx?_eq_some_of_exists ⟨(choices.get ⟨b, hb⟩, b), hmem2, by simp⟩
  set p := List.findIdx (fun pr => ratOfNat pr.2 = ratOfNat b)
    (shuffleInPlace rng k (choices.enum.map (fun pr => (pr.2, pr.1)))).1 with hpdef
  obtain ⟨hlt, hpred, _⟩ := List.findIdx?_eq_some_iff_getElem.mp hp
  have hsnd : ((shuffleInPlace rng k (choices.enum.map (fun pr => (pr.2, pr.1)))).1[p]).2 = b := by
    have := of_decide_eq_true hpred
    exact ratOfNat_inj this
  have hnodup : ((shuffleInPlace rng k (choices.enum.map (fun pr => (pr.2, pr.1)))).1.map
      Prod.snd).Nodup := by
    have h1 : ((choices.enum.map (fun pr => (pr.2, pr.1))).map Prod.snd) =
        choices.enum.map Prod.fst := by
      simp [List.map_map, Function.comp_def]
    have h2 := List.nodup_enum_map_fst choices
    rw [← h1] at h2
    exact ((hperm.map Prod.snd).nodup_iff).mpr h2
  obtain ⟨m, hm, hmeq⟩ := List.mem_iff_getElem.mp hmem2
  have hpm : p = m := by
    have hplen : p < ((shuffleInPlace rng k (choices.enum.map (fun pr => (pr.2, pr.1)))).1.map
        Prod.snd).length := by simpa using hlt
    have hmlen : m < ((shuffleInPlace rng k (choices.enum.map (fun pr => (pr.2, pr.1)))).1.map
        Prod.snd).length := by simpa using hm
    have : ((shuffleInPlace rng k (choices.enum.map (fun pr => (pr.2, pr.1)))).1.map
        Prod.snd)[p] = ((shuffleInPlace rng k (choices.enum.map (fun pr => (pr.2, pr.1)))).1.map
        Prod.snd)[m] := by
      rw [List.getElem_map, List.getElem_map, hsnd, hmeq]
    exact (hnodup.getElem_inj_iff ).mp this
  subst hpm
  exact ⟨p, hlt, hp, by rw [← hmeq]⟩

/-- Every question produced by the `map(randomizeQuestionChoices)`
pass comes from an input question at some random counter. -/
theorem mapRandomize_mem (rng : Nat → Nat) :
    ∀ (qs : List QuizQuestion) (k : Nat) (q2 : QuizQuestion),
      q2 ∈ (mapRandomize rng k qs).1 →
      ∃ q ∈ qs, ∃ k2, q2 = (randomizeQuestionChoices rng k2 q).1 := by
  intro qs
  induction qs with
  | nil => intro k q2 h; simp [mapRandomize] at h
  | cons q qs ih =>
    intro k q2 h
    simp only [mapRandomize, List.mem_cons] at h
    rcases h with h | h
    · exact ⟨q, List.mem_cons_self q qs, k, h⟩
    · obtain ⟨q0, hq0, k2, hk2⟩ := ih _ q2 h
      exact ⟨q0, List.mem_cons_of_mem q hq0, k2, hk2⟩

/-- The text-index pairs project back to the choices. -/
theorem pairs_map_fst (l : List String) :
    ((l.enum.map (fun pr => (pr.2, pr.1))).map (fun p => p.1)) = l := by
  simp [List.map_map, Function.comp_def]

/-- C5: for a question whose `answerIndex` is a valid position, after
`randomizeQuestionChoices` the choices are a permutation of the
originals and the choice text at the recomputed `answerIndex` is the
text that was at the original `answerIndex`; a null `userAnswerIndex`
stays null and a valid non-null one is recomputed the same way; and
every question produced by `randomizeQuestions` is the
choice-randomization of one of the input questions. -/
theorem randomizer_preserves_answer_text :
    (∀ (rng : Nat → Nat) (k : Nat) (q : QuizQuestion) (a : Nat),
      q.answer_index = ratOfNat a → a < q.choices.length →
      ((randomizeQuestionChoices rng k q).1.choices.Perm q.choices ∧
       ∃ p : Nat, (randomizeQuestionChoices rng k q).1.answer_index = ratOfNat p ∧
         ((randomizeQuestionChoices rng k q).1.choices)[p]? = q.choices[a]?) ∧
      ((q.user_answer_index = none →
          (randomizeQuestionChoices rng k q).1.user_answer_index = none) ∧
       (∀ u : Nat, q.user_answer_index = some (ratOfNat u) → u < q.choices.length →
         ∃ pu : Nat,
           (randomizeQuestionChoices rng k q).1.user_answer_index = some (ratOfNat pu) ∧
           ((randomizeQuestionChoices rng k q).1.choices)[pu]? = q.choices[u]?))) ∧
    (∀ (rng : Nat → Nat) (k : Nat) (qs : List QuizQuestion),
      ∀ q2 ∈ (randomizeQuestions rng k qs).1, ∃ q ∈ qs, ∃ k2,
        q2 = (randomizeQuestionChoices rng k2 q).1) := by
  constructor
  · intro rng k q a ha hlt
    refine ⟨⟨?_, ?_⟩, ?_, ?_⟩
    · show ((shuffleInPlace rng k (q.choices.enum.map (fun p : Nat × String => (p.2, p.1)))).1.map
        (fun p : String × Nat => p.1)).Perm q.choices
      have h1 := (shuffleInPlace_perm rng k
        (q.choices.enum.map (fun p : Nat × String => (p.2, p.1)))).map (fun p => (p.1 : String))
      rw [pairs_map_fst] at h1
      exact h1
    · obtain ⟨p, hp, hfind, hget⟩ := shuffled_find rng k q.choices a hlt
      refine ⟨p, ?_, ?_⟩
      · show ratOfInt (max 0 (jsFindIndex (fun p : String × Nat => ratOfNat p.2 = q.answer_index)
          (shuffleInPlace rng k (q.choices.enum.map (fun p : Nat × String => (p.2, p.1)))).1)) = ratOfNat p
        rw [ha, jsFindIndex, hfind]
        rw [max_eq_right (Int.natCast_nonneg p)]
        rfl
      · show (((shuffleInPlace rng k (q.choices.enum.map (fun p : Nat × String => (p.2, p.1)))).1.map
          (fun p : String × Nat => p.1)))[p]? = q.choices[a]?
        rw [List.getElem?_map, List.getElem?_eq_getElem hp, hget,
          List.getElem?_eq_getElem hlt]
        rfl
    · intro hnone
      show ((match q.user_answer_index with
        | none => none
        | some u => some (jsFindIndex (fun p : String × Nat => ratOfNat p.2 = u)
            (shuffleInPlace rng k (q.choices.enum.map (fun p : Nat × String => (p.2, p.1)))).1)).map ratOfInt) = none
      rw [hnone]
      rfl
    · intro u hu hult
      obtain ⟨pu, hpu, hfindu, hgetu⟩ := shuffled_find rng k q.choices u hult
      refine ⟨pu, ?_, ?_⟩
      · show ((match q.user_answer_index with
          | none => none
          | some w => some (jsFindIndex (fun p : String × Nat => ratOfNat p.2 = w)
              (shuffleInPlace rng k (q.choices.enum.map (fun p : Nat × String => (p.2, p.1)))).1)).map ratOfInt) =
          some (ratOfNat pu)
        rw [hu]
        show some (ratOfInt (jsFindIndex (fun p : String × Nat => ratOfNat p.2 = ratOfNat u)
          (shuffleInPlace rng k (q.choices.enum.map (fun p : Nat × String => (p.2, p.1)))).1)) = some (ratOfNat pu)
        rw [jsFindIndex, hfindu]
        rfl
      · show (((shuffleInPlace rng k (q.choices.enum.map (fun p : Nat × String => (p.2, p.1)))).1.map
          (fun p : String × Nat => p.1)))[pu]? = q.choices[u]?
        rw [List.getElem?_map, List.getElem?_eq_getElem hpu, hgetu,
          List.getElem?_eq_getElem hult]
        rfl
  · intro rng k qs q2 h2
    have hperm := shuffleInPlace_perm rng (mapRandomize rng k qs).2 (mapRandomize rng k qs).1
    have h3 : q2 ∈ (mapRandomize rng k qs).1 := hperm.mem_iff.mp h2
    exact mapRandomize_mem rng qs k q2 h3

/-- Witness for C5: the four-choice Paris question with a concrete
random stream keeps "Paris" as the correct answer text. -/
theorem randomizer_preserves_answer_text_witness :
    ((randomizeQuestionChoices demoRng 0 parisQuestion).1.choices.Perm parisQuestion.choices) ∧
    (randomizeQuestionChoices demoRng 0 parisQuestion).1.user_answer_index = none := by
  have h := (randomizer_preserves_answer_text.1 demoRng 0 parisQuestion 2 rfl (by decide))
  exact ⟨h.1.1, h.2.1 rfl⟩

/-! ## C2: the retry-collector -/

/-- The collector loop reads only the responses of the attempts its
fuel allows. -/
theorem collectLoop_agree (rng : Nat → Nat) (uids : Nat → String)
    (responses responses2 : Nat → Nat → String) (existingNorm : List String)
    (existingTokenSets : List (List String)) (desired choicesCount : Nat) :
    ∀ (fuel i : Nat) (st : SessState),
      (∀ j n, i ≤ j → j < i + fuel → responses2 j n = responses j n) →
      collectLoop rng uids responses2 existingNorm existingTokenSets desired choicesCount fuel i st =
      collectLoop rng uids responses existingNorm existingTokenSets desired choicesCount fuel i st := by
  intro fuel
  induction fuel with
  | zero => intro i st _; rfl
  | succ fuel ih =>
    intro i st hagree
    rw [collectLoop, collectLoop]
    by_cases hdone : st.collected.length ≥ desired
    · rw [if_pos hdone, if_pos hdone]
    · rw [if_neg hdone, if_neg hdone]
      simp only [hagree i (min 12 (desired - st.collected.length)) (Nat.le_refl i) (by omega)]
      rcases attemptStep rng uids existingNorm existingTokenSets desired choicesCount
        (responses i (min 12 (desired - st.collected.length))) st with _ | st2
      · rfl
      · exact ih (i + 1) st2 (fun j n hj1 hj2 => hagree j n (by omega) (by omega))

/-- C2: the collect-more call makes at most 3 attempts, each
requesting `min(12, remaining)` questions; an error of an attempt
propagates with the quiz unchanged; if the session accepts nothing the
call fails with the `NoNewQuestions` message and the quiz is
unchanged; and otherwise the whole accepted set — even when smaller
than the requested count — is appended (shuffled) to the quiz's
question list. -/
theorem addMoreQuestions_spec (settings : Settings) (responses : Nat → Nat → String)
    (rng : Nat → Nat) (uids : Nat → String) (now : String) (quiz : Quiz) (count : Int)
    (desired : Nat) (existingNorm : List String) (existingTokenSets : List (List String))
    (hsub : quiz.submitted = false)
    (hdesired : desired = (clampInt count 1 50 5).toNat)
    (hplan : totalQuestionsFromPlan (buildQuestionTypePlan settings ((clampInt count 1 50 5).toNat : Int)) ≠ 0)
    (hsource : jsTrim quiz.sourceText ≠ "")
    (hnorm : existingNorm = ((quiz.questions.map (fun q => q.q)).map normText).dedup)
    (hts : existingTokenSets = (quiz.questions.map (fun q => q.q)).map tokenSet) :
    (∀ e, collectLoop rng uids responses existingNorm existingTokenSets desired
        quiz.choicesCount 3 0 ⟨[], [], [], 0, 0⟩ = .error e →
      addMoreQuestionsToCurrentQuiz settings responses rng uids now quiz count = (some e, quiz)) ∧
    (∀ st, collectLoop rng uids responses existingNorm existingTokenSets desired
        quiz.choicesCount 3 0 ⟨[], [], [], 0, 0⟩ = .ok st →
      (st.collected = [] →
        addMoreQuestionsToCurrentQuiz settings responses rng uids now quiz count =
          (some NO_NEW_QUESTIONS_MSG, quiz)) ∧
      (st.collected ≠ [] → ∃ l, l.Perm st.collected ∧
        addMoreQuestionsToCurrentQuiz settings responses rng uids now quiz count =
          (none, { quiz with questions := quiz.questions ++ l, updated_at := now }))) ∧
    (∀ responses2 : Nat → Nat → String, (∀ i n, i < 3 → responses2 i n = responses i n) →
      addMoreQuestionsToCurrentQuiz settings responses2 rng uids now quiz count =
        addMoreQuestionsToCurrentQuiz settings responses rng uids now quiz count) ∧
    (∀ (fuel i : Nat) (st : SessState), st.collected.length < desired →
      collectLoop rng uids responses existingNorm existingTokenSets desired
          quiz.choicesCount (fuel + 1) i st =
        (match attemptStep rng uids existingNorm existingTokenSets desired quiz.choicesCount
            (responses i (min 12 (desired - st.collected.length))) st with
         | .error e => .error e
         | .ok st2 => collectLoop rng uids responses existingNorm existingTokenSets desired
             quiz.choicesCount fuel (i + 1) st2)) := by
  subst hdesired hnorm hts
  have hunfold : addMoreQuestionsToCurrentQuiz settings responses rng uids now quiz count =
      (match collectLoop rng uids responses
          (((quiz.questions.map (fun q => q.q)).map normText).dedup)
          ((quiz.questions.map (fun q => q.q)).map tokenSet)
          ((clampInt count 1 50 5).toNat) quiz.choicesCount 3 0 ⟨[], [], [], 0, 0⟩ with
       | .error e => (some e, quiz)
       | .ok st =>
         if st.collected.isEmpty then (some NO_NEW_QUESTIONS_MSG, quiz)
         else
           (none, { quiz with
             questions := quiz.questions ++ (shuffleInPlace rng st.rngK st.collected).1,
             updated_at := now })) := by
    rw [addMoreQuestionsToCurrentQuiz]
    rw [if_neg (by simp [hsub])]
    rw [if_neg hplan, if_neg hsource]
  refine ⟨?_, ?_, ?_, ?_⟩
  · intro e he
    rw [hunfold, he]
  · intro st hst
    have hok : addMoreQuestionsToCurrentQuiz settings responses rng uids now quiz count =
        (if st.collected.isEmpty then (some NO_NEW_QUESTIONS_MSG, quiz)
         else
           (none, { quiz with
             questions := quiz.questions ++ (shuffleInPlace rng st.rngK st.collected).1,
             updated_at := now })) := by
      rw [hunfold, hst]
    constructor
    · intro hempty
      rw [hok, if_pos (by rw [hempty]; rfl)]
    · intro hne
      have hcond : st.collected.isEmpty = false := by
        cases hc : st.collected
        · exact absurd hc hne
        · rfl
      refine ⟨(shuffleInPlace rng st.rngK st.collected).1,
        shuffleInPlace_perm rng st.rngK st.collected, ?_⟩
      rw [hok, if_neg (by rw [hcond]; exact Bool.false_ne_true)]
  · intro responses2 hagree
    have hloop := collectLoop_agree rng uids responses responses2
      (((quiz.questions.map (fun q => q.q)).map normText).dedup)
      ((quiz.questions.map (fun q => q.q)).map tokenSet)
      ((clampInt count 1 50 5).toNat) quiz.choicesCount 3 0 ⟨[], [], [], 0, 0⟩
      (fun j n _ hj2 => hagree j n (by omega))
    have hunfold2 : addMoreQuestionsToCurrentQuiz settings responses2 rng uids now quiz count =
        (match collectLoop rng uids responses2
            (((quiz.questions.map (fun q => q.q)).map normText).dedup)
            ((quiz.questions.map (fun q => q.q)).map tokenSet)
            ((clampInt count 1 50 5).toNat) quiz.choicesCount 3 0 ⟨[], [], [], 0, 0⟩ with
         | .error e => (some e, quiz)
         | .ok st =>
           if st.collected.isEmpty then (some NO_NEW_QUESTIONS_MSG, quiz)
           else
             (none, { quiz with
               questions := quiz.questions ++ (shuffleInPlace rng st.rngK st.collected).1,
               updated_at := now })) := by
      rw [addMoreQuestionsToCurrentQuiz]
      rw [if_neg (by simp [hsub])]
      rw [if_neg hplan, if_neg hsource]
    rw [hunfold, hunfold2, hloop]
  · intro fuel i st hlt
    rw [collectLoop, if_neg (by omega)]

/-- A session over the demo quiz where every response near-duplicates
the corpus ends with the `NoNewQuestions` message and an unchanged
quiz. -/
theorem addMoreQuestions_spec_witness :
    addMoreQuestionsToCurrentQuiz ⟨none⟩ duplicateResponse demoRng demoUids "t1" collectorQuiz 10 =
      (some NO_NEW_QUESTIONS_MSG, collectorQuiz) := by
  have h := addMoreQuestions_spec ⟨none⟩ duplicateResponse demoRng demoUids "t1" collectorQuiz 10
    ((clampInt 10 1 50 5).toNat)
    (((collectorQuiz.questions.map (fun q => q.q)).map normText).dedup)
    ((collectorQuiz.questions.map (fun q => q.q)).map tokenSet)
    rfl rfl (by decide) (by decide) rfl rfl
  exact (h.2.1 ⟨[], [], [], 0, 3⟩ rfl).1 rfl

/-! ## C3: the truncated/malformed classification -/

/-- The head surviving `dropWsL` is never whitespace. -/
theorem dropWsL_head_not_ws (s : List Char) :
    ∀ c cs, dropWsL s = c :: cs → jsWsChar c = false := by
  induction s with
  | nil =>
    intro c cs h
    exact List.noConfusion h
  | cons a as ih =>
    intro c cs h
    rw [dropWsL] at h
    by_cases hw : jsWsChar a = true
    · rw [if_pos hw] at h
      exact ih c cs h
    · rw [if_neg hw] at h
      cases h
      simp only [Bool.not_eq_true] at hw
      exact hw

/-- `dropWsL` removes a prefix. -/
theorem dropWsL_suffix (s : List Char) : ∃ p, p ++ dropWsL s = s := by
  induction s with
  | nil => exact ⟨[], rfl⟩
  | cons a as ih =>
    by_cases hw : jsWsChar a = true
    · obtain ⟨p, hp⟩ := ih
      refine ⟨a :: p, ?_⟩
      rw [dropWsL, if_pos hw, List.cons_append, hp]
    · refine ⟨[], ?_⟩
      rw [dropWsL, if_neg hw]
      rfl

/-- `dropWsL` keeps a list whose head is not whitespace. -/
theorem dropWsL_cons_of_not_ws (c : Char) (cs : List Char) (h : jsWsChar c = false) :
    dropWsL (c :: cs) = c :: cs := by
  rw [dropWsL, if_neg (by rw [h]; exact Bool.false_ne_true)]

/-- `dropWsL` is idempotent. -/
theorem dropWsL_idem (s : List Char) : dropWsL (dropWsL s) = dropWsL s := by
  cases h : dropWsL s with
  | nil => rfl
  | cons c cs => exact dropWsL_cons_of_not_ws c cs (dropWsL_head_not_ws s c cs h)

/-- JS `trim` is idempotent. -/
theorem jsTrimL_idem (s : List Char) : jsTrimL (jsTrimL s) = jsTrimL s := by
  have hstep : dropWsL (jsTrimL s).reverse = (jsTrimL s).reverse := by
    obtain ⟨p, hp⟩ := dropWsL_suffix ((dropWsL s.reverse).reverse)
    have hdecomp : dropWsL s.reverse = (jsTrimL s).reverse ++ p.reverse := by
      have h2 := congrArg List.reverse hp
      rw [List.reverse_append, List.reverse_reverse] at h2
      exact h2.symm
    cases ht : (jsTrimL s).reverse with
    | nil => rfl
    | cons c cs =>
      rw [ht, List.cons_append] at hdecomp
      exact dropWsL_cons_of_not_ws c cs
        (dropWsL_head_not_ws s.reverse c (cs ++ p.reverse) hdecomp)
  have h3 : jsTrimL (jsTrimL s) = dropWsL ((dropWsL (jsTrimL s).reverse).reverse) := rfl
  rw [h3, hstep, List.reverse_reverse]
  have h4 : jsTrimL s = dropWsL ((dropWsL s.reverse).reverse) := rfl
  rw [h4]
  exact dropWsL_idem _

/-- The repair pipeline's output is already trimmed. -/
theorem repairJsonCommonL_trimmed (s : List Char) :
    jsTrimL (repairJsonCommonL s) = repairJsonCommonL s :=
  jsTrimL_idem _

/-- On trimmed input, `looksTruncatedJson` is exactly "no trailing
closer, or nonzero scan depth" (an empty text has no trailing
closer). -/
theorem looksTruncated_of_trimmed (s : List Char) (h : jsTrimL s = s) :
    looksTruncatedJsonL s = true ↔ (endsWithCloser s = false ∨ depthScan s ≠ 0) := by
  simp only [looksTruncatedJsonL]
  rw [h]
  by_cases hnil : s = []
  · subst hnil
    rw [if_pos rfl]
    exact ⟨fun _ => Or.inl rfl, fun _ => rfl⟩
  · rw [if_neg hnil]
    cases hc : endsWithCloser s
    · rw [if_pos (by decide)]
      exact ⟨fun _ => Or.inl rfl, fun _ => rfl⟩
    · rw [if_neg (by decide)]
      constructor
      · intro hd
        exact Or.inr (of_decide_eq_true hd)
      · intro hor
        rcases hor with hl | hr
        · exact absurd hl (by decide)
        · exact decide_eq_true hr

set_option maxHeartbeats 1600000 in
/-- C3: when every parse attempt fails, the error kind is decided by
the repaired tail: no candidate start gives the not-JSON (malformed
kind) failure; otherwise the result is the truncated kind iff the tail
lacks a trailing closing brace or bracket or its string-aware depth
scan ends nonzero, and the malformed kind exactly otherwise; the
spec's two sample inputs classify as truncated and as not-JSON. -/
theorem safeParseJson_errorKinds (text : String) (cleaned : List Char)
    (hne : jsTrimL text.data ≠ [])
    (hclean : cleaned = repairJsonCommonL (jsTrimL text.data))
    (hdirect : jsonParseL cleaned = none) :
    (firstBraceStart cleaned = none →
      safeParseJson text = .error .notJson ∧
      parseErrMessage .notJson = "Model output was not JSON.") ∧
    (∀ start, firstBraceStart cleaned = some start →
      (∀ e, findLastBalancedJsonEnd cleaned start = some e →
        jsonParseL (candidateSlice cleaned start e) = none) →
      jsonParseL (tailRepaired cleaned start) = none →
      ((safeParseJson text = .error .truncated ↔
          (endsWithCloser (tailRepaired cleaned start) = false ∨
           depthScan (tailRepaired cleaned start) ≠ 0)) ∧
       (safeParseJson text = .error .malformed ↔
          ¬(endsWithCloser (tailRepaired cleaned start) = false ∨
            depthScan (tailRepaired cleaned start) ≠ 0)))) ∧
    safeParseJson "\x7b\"title\":\"t\",\"questions\":[\x7b\"q\":\"x\"" = .error .truncated ∧
    safeParseJson "not json at all" = .error .notJson := by
  have hbase : safeParseJson text = safeParseRecover cleaned := by
    rw [safeParseJson, if_neg hne, ← hclean, safeParseDirect, hdirect]
  refine ⟨?_, ?_, rfl, rfl⟩
  · intro hnone
    refine ⟨?_, rfl⟩
    rw [hbase, safeParseRecover, hnone]
  · intro start hstart hcand htail
    have hcand2 : candidateParse cleaned start = none := by
      rw [candidateParse]
      cases hfe : findLastBalancedJsonEnd cleaned start with
      | none => rfl
      | some e => exact hcand e hfe
    have hred : safeParseJson text = tailParse cleaned start := by
      rw [hbase, safeParseRecover, hstart]
      show (match candidateParse cleaned start with
        | some v => Except.ok v
        | none => tailParse cleaned start) = _
      rw [hcand2]
    have hfin : safeParseJson text =
        (if looksTruncatedJsonL (tailRepaired cleaned start) then
          Except.error ParseErr.truncated
         else Except.error ParseErr.malformed) := by
      rw [hred, tailParse, htail]
    have htrim : jsTrimL (tailRepaired cleaned start) = tailRepaired cleaned start :=
      repairJsonCommonL_trimmed _
    have hchar := looksTruncated_of_trimmed (tailRepaired cleaned start) htrim
    cases hl : looksTruncatedJsonL (tailRepaired cleaned start)
    · rw [hl] at hfin
      rw [if_neg (by decide)] at hfin
      constructor
      · rw [hfin]
        constructor
        · intro habs
          exact absurd habs (by intro h; exact ParseErr.noConfusion (Except.error.inj h))
        · intro hcond
          exact absurd (hchar.mpr hcond) (by rw [hl]; exact Bool.false_ne_true)
      · rw [hfin]
        constructor
        · intro _
          intro hcond
          exact absurd (hchar.mpr hcond) (by rw [hl]; exact Bool.false_ne_true)
        · intro _
          rfl
    · rw [hl] at hfin
      rw [if_pos rfl] at hfin
      constructor
      · rw [hfin]
        exact ⟨fun _ => hchar.mp hl, fun _ => rfl⟩
      · rw [hfin]
        constructor
        · intro habs
          exact absurd habs (by intro h; exact ParseErr.noConfusion (Except.error.inj h))
        · intro hcond
          exact absurd (hchar.mp hl) hcond

/-! ## C1: which balanced end the recovery scan picks -/

/-- The scan of `findLastBalancedJsonEnd` returns the LAST index where
the depth comes back to zero. -/
theorem scanLastEnd_eq_getLast (l : List Char) :
    ∀ (st : ScanSt) (i : Nat),
      scanLastEnd st i l = (scanZeroHits st i l).getLast? := by
  induction l with
  | nil => intro st i; rfl
  | cons c rest ih =>
    intro st i
    rw [scanLastEnd, scanZeroHits, ih]
    cases hz : scanZeroHits (scanStep st c) (i + 1) rest with
    | nil =>
      rw [List.append_nil]
      cases zeroHit st c
      · rfl
      · rfl
    | cons a as =>
      rw [List.getLast?_append_cons]
      cases hg : (a :: as).getLast? with
      | none => exact absurd (List.getLast?_eq_none_iff.mp hg) (List.cons_ne_nil a as)
      | some e => rfl

/-- C1 (actual behavior): the recovery step's candidate ends at the
LAST index where the string-aware depth scan returns to exactly zero,
not the first; the attempted candidate slice is the one closed at that
last index. -/
theorem findLastBalancedJsonEnd_isLast (s : List Char) (start : Nat) :
    findLastBalancedJsonEnd s start =
      (scanZeroHits scanInit start (s.drop start)).getLast? ∧
    candidateParse s start =
      (match (scanZeroHits scanInit start (s.drop start)).getLast? with
       | some e => jsonParseL (candidateSlice s start e)
       | none => none) := by
  have h := scanLastEnd_eq_getLast (s.drop start) scanInit start
  refine ⟨h, ?_⟩
  rw [candidateParse, findLastBalancedJsonEnd, h]

/-- On `junk` followed by the two objects `a:1` and `b:2`, the depth
scan hits zero first at index 11 — whose slice is the parsable first
object — but the code keeps the last hit 19; the slice up to 19 spans
both objects, fails to parse, and the whole call throws malformed
instead of recovering the first structure. -/
theorem firstStructure_counterexample :
    scanZeroHits scanInit 5 ((repairJsonCommonL (jsTrimL twoObjectsInput.data)).drop 5) =
      [11, 19] ∧
    firstBraceStart (repairJsonCommonL (jsTrimL twoObjectsInput.data)) = some 5 ∧
    findLastBalancedJsonEnd (repairJsonCommonL (jsTrimL twoObjectsInput.data)) 5 = some 19 ∧
    (jsonParseL (candidateSlice (repairJsonCommonL (jsTrimL twoObjectsInput.data)) 5 11)).isSome
      = true ∧
    safeParseJson twoObjectsInput = .error .malformed :=
  ⟨rfl, rfl, rfl, rfl, rfl⟩

/-- The spec's malformed sample discharges the classification's
hypotheses: its direct parse fails and it has no candidate start. -/
theorem safeParseJson_errorKinds_witness :
    safeParseJson "not json at all" = Except.error ParseErr.notJson :=
  ((safeParseJson_errorKinds "not json at all"
      (repairJsonCommonL (jsTrimL ("not json at all").data))
      (by decide) rfl rfl).1 rfl).1

/-! ## C4: the repair round-trip — number literals -/

/-- Facts about digit characters, checked over the ten digits. -/
theorem digitChar_facts : ∀ d, d < 10 →
    (digitChar d).isDigit = true ∧ digitVal (digitChar d) = d ∧
    jsonWsChar (digitChar d) = false ∧ digitChar d ≠ '{' ∧ digitChar d ≠ '[' ∧
    digitChar d ≠ '"' ∧ digitChar d ≠ ']' ∧ digitChar d ≠ '}' ∧ digitChar d ≠ ',' ∧
    cleanChar (digitChar d) = true ∧ (d ≠ 0 → digitChar d ≠ '0') := by decide

/-- Big-endian digit evaluation of a mapped digit list, with
accumulator. -/
theorem digitsToNat_rev_aux : ∀ (ds : List Nat), (∀ d ∈ ds, d < 10) → ∀ a : Nat,
    ((ds.map digitChar).reverse).foldl (fun acc c => 10 * acc + digitVal c) a =
      a * 10 ^ ds.length + Nat.ofDigits 10 ds := by
  intro ds
  induction ds with
  | nil =>
    intro _ a
    simp [Nat.ofDigits_nil]
  | cons d rest ih =>
    intro h a
    rw [List.map_cons, List.reverse_cons, List.foldl_concat]
    rw [ih (fun x hx => h x (List.mem_cons_of_mem d hx)) a]
    rw [(digitChar_facts d (h d (List.mem_cons_self d rest))).2.1]
    rw [Nat.ofDigits_cons, List.length_cons]
    ring

/-- Reading back the decimal rendering of a natural number. -/
theorem digitsToNat_natDigits (n : Nat) : digitsToNat (natDigits n) = n := by
  rw [natDigits, digitsToNat]
  rw [digitsToNat_rev_aux (Nat.digits 10 n) (fun d hd => Nat.digits_lt_base (by norm_num) hd) 0]
  simp [Nat.ofDigits_digits]

/-- The decimal rendering of a positive number starts with a nonzero
digit and continues with digits. -/
theorem natDigits_head (n : Nat) (h : n ≠ 0) :
    ∃ d ds, natDigits n = digitChar d :: ds ∧ d < 10 ∧ d ≠ 0 ∧
      (∀ c ∈ ds, ∃ e, e < 10 ∧ c = digitChar e) := by
  have hne : Nat.digits 10 n ≠ [] := Nat.digits_ne_nil_iff_ne_zero.mpr h
  have hmapne : (Nat.digits 10 n).map digitChar ≠ [] := by
    intro hc
    exact hne (List.map_eq_nil_iff.mp hc)
  cases hrev : ((Nat.digits 10 n).map digitChar).reverse with
  | nil =>
    exact absurd (by rw [← List.reverse_reverse ((Nat.digits 10 n).map digitChar), hrev]; rfl)
      hmapne
  | cons c cs =>
    have hhead : some c = ((Nat.digits 10 n).map digitChar).getLast? := by
      rw [← List.head?_reverse, hrev]
      rfl
    rw [List.getLast?_map] at hhead
    rw [List.getLast?_eq_getLast (Nat.digits 10 n) hne] at hhead
    refine ⟨(Nat.digits 10 n).getLast hne, cs, ?_, ?_, ?_, ?_⟩
    · rw [natDigits, hrev]
      simp only [Option.map_some'] at hhead
      rw [Option.some_inj] at hhead
      rw [hhead]
    · exact Nat.digits_lt_base (by norm_num) (List.getLast_mem hne)
    · exact Nat.getLast_digit_ne_zero 10 h
    · intro x hx
      have hx2 : x ∈ ((Nat.digits 10 n).map digitChar).reverse := by
        rw [hrev]
        exact List.mem_cons_of_mem c hx
      rw [List.mem_reverse] at hx2
      obtain ⟨e, he, hxe⟩ := List.mem_map.mp hx2
      exact ⟨e, Nat.digits_lt_base (by norm_num) he, hxe.symm⟩

/-- Every character of a rendered natural number is a digit. -/
theorem natToChars_all_digits (n : Nat) : ∀ c ∈ natToChars n, c.isDigit = true := by
  intro c hc
  rw [natToChars] at hc
  by_cases hn : n = 0
  · rw [if_pos hn] at hc
    rw [List.mem_singleton] at hc
    rw [hc]
    decide
  · rw [if_neg hn] at hc
    rw [natDigits, List.mem_reverse] at hc
    obtain ⟨e, he, hce⟩ := List.mem_map.mp hc
    rw [← hce]
    exact (digitChar_facts e (Nat.digits_lt_base (by norm_num) he)).1

/-- What `numStop` says about the head character. -/
theorem numStop_head (c : Char) (r : List Char) (h : numStop (c :: r) = true) :
    c.isDigit = false ∧ c ≠ '.' ∧ c ≠ 'e' ∧ c ≠ 'E' := by
  rw [numStop] at h
  simp only [Bool.not_eq_true', Bool.or_eq_false_iff, decide_eq_false_iff_not] at h
  exact ⟨h.1.1.1, h.1.1.2, h.1.2, h.2⟩

/-- `takeDigits` splits a digit prefix exactly at a stopping tail. -/
theorem takeDigits_append (ds tail : List Char) (hds : ∀ c ∈ ds, c.isDigit = true)
    (htail : numStop tail = true) : takeDigits (ds ++ tail) = (ds, tail) := by
  induction ds with
  | nil =>
    cases tail with
    | nil => rfl
    | cons c r =>
      rw [List.nil_append, takeDigits,
        if_neg (by rw [(numStop_head c r htail).1]; exact Bool.false_ne_true)]
  | cons d ds ih =>
    rw [List.cons_append, takeDigits, if_pos (hds d (List.mem_cons_self d ds))]
    rw [ih (fun c hc => hds c (List.mem_cons_of_mem d hc))]

/-- `parseFrac` at a stopping point reads no fraction digits. -/
theorem parseFrac_stop (s : List Char) (h : numStop s = true) :
    parseFrac s = some (0, 0, s) := by
  cases s with
  | nil => rfl
  | cons c r =>
    rw [parseFrac, if_neg (numStop_head c r h).2.1]

/-- `parseNumExp` at a stopping point reads no exponent. -/
theorem parseNumExp_stop (mant : Int) (k : Nat) (s : List Char) (h : numStop s = true) :
    parseNumExp mant k s = some (mkRat mant (10 ^ k), s) := by
  cases s with
  | nil => rfl
  | cons c r =>
    have hc := numStop_head c r h
    rw [parseNumExp, if_neg ?_]
    intro hor
    rcases hor with he | hE
    · exact hc.2.2.1 he
    · exact hc.2.2.2 hE

/-- The integer-only path through `parseNumTail`. -/
theorem parseNumTail_stop (sgn : Int) (n : Nat) (tail : List Char) (h : numStop tail = true) :
    parseNumTail sgn n tail = some (mkRat (sgn * n) 1, tail) := by
  rw [parseNumTail, parseFrac_stop tail h]
  show parseNumExp (sgn * (n * 10 ^ 0 + 0)) 0 tail = some (mkRat (sgn * n) 1, tail)
  rw [parseNumExp_stop _ _ tail h, pow_zero]
  norm_num

/-- Reading back a rendered natural number with an explicit sign. -/
theorem parseNumAfterSign_natToChars (sgn : Int) (n : Nat) (tail : List Char)
    (htail : numStop tail = true) :
    parseNumAfterSign sgn (natToChars n ++ tail) = some (mkRat (sgn * n) 1, tail) := by
  by_cases hn : n = 0
  · subst hn
    rw [show natToChars 0 ++ tail = '0' :: tail from rfl]
    rw [parseNumAfterSign, if_pos rfl]
    rw [parseNumTail_stop sgn 0 tail htail]
  · obtain ⟨d, ds, hnd, hd10, hdne0, hds⟩ := natDigits_head n hn
    have hnat : natToChars n = digitChar d :: ds := by
      rw [natToChars, if_neg hn, hnd]
    have hdigits : ∀ c ∈ digitChar d :: ds, c.isDigit = true := by
      intro c hc
      rw [← hnat] at hc
      exact natToChars_all_digits n c hc
    rw [hnat, List.cons_append, parseNumAfterSign]
    rw [if_neg ((digitChar_facts d hd10).2.2.2.2.2.2.2.2.2.2 hdne0)]
    rw [if_pos (digitChar_facts d hd10).1]
    have htake : takeDigits (digitChar d :: (ds ++ tail)) = (digitChar d :: ds, tail) := by
      rw [← List.cons_append]
      exact takeDigits_append (digitChar d :: ds) tail hdigits htail
    rw [htake]
    show parseNumTail sgn (digitsToNat (digitChar d :: ds)) tail = _
    have hval : digitsToNat (digitChar d :: ds) = n := by
      rw [← hnd, digitsToNat_natDigits]
    rw [hval, parseNumTail_stop sgn n tail htail]

/-- A Lean character is never a UTF-16 high surrogate. -/
theorem char_not_high_surrogate (c : Char) : ¬(0xD800 ≤ c.toNat ∧ c.toNat ≤ 0xDBFF) := by
  have h := c.valid
  rw [show c.toNat = c.val.toNat from rfl]
  rcases h with h | ⟨h1, h2⟩
  · intro hc
    omega
  · intro hc
    omega

/-- `hexVal` inverts `hexDigitChar`, checked over the sixteen digits. -/
theorem hexVal_hexDigitChar : ∀ d, d < 16 → hexVal (hexDigitChar d) = some d := by decide

/-- Step: a closing quote ends the string body. -/
theorem parseStrUnits_quote (rest : List Char) :
    parseStrUnits ('"' :: rest) = some ([], rest) := by
  rw [parseStrUnits.eq_def]
  rfl

/-- Step: a backslash escape other than `\u`. -/
theorem parseStrUnits_esc (e : Char) (rest : List Char) (he : e ≠ 'u') :
    parseStrUnits ('\\' :: e :: rest) =
      (match simpleEscape e with
       | some u => (parseStrUnits rest).map (fun p => (u :: p.1, p.2))
       | none => none) := by
  rw [parseStrUnits.eq_def]
  show (if e = 'u' then
      ((match rest with
       | a :: b :: c2 :: d :: rest3 =>
         ((match hexVal a, hexVal b, hexVal c2, hexVal d with
          | some ha, some hb, some hc2, some hd =>
            (parseStrUnits rest3).map
              (fun p : List Nat × List Char =>
                ((((ha * 16 + hb) * 16 + hc2) * 16 + hd) :: p.1, p.2))
          | _, _, _, _ => none) : Option (List Nat × List Char))
       | _ => none) : Option (List Nat × List Char))
    else
      ((match simpleEscape e with
      | some u => (parseStrUnits rest).map (fun p : List Nat × List Char => (u :: p.1, p.2))
      | none => none) : Option (List Nat × List Char))) =
    (match simpleEscape e with
     | some u => (parseStrUnits rest).map (fun p => (u :: p.1, p.2))
     | none => none)
  rw [if_neg he]

/-- Step: a `\u` escape with four following characters. -/
theorem parseStrUnits_unicode (a b c2 d : Char) (rest : List Char) :
    parseStrUnits ('\\' :: 'u' :: a :: b :: c2 :: d :: rest) =
      (match hexVal a, hexVal b, hexVal c2, hexVal d with
       | some ha, some hb, some hc2, some hd =>
         (parseStrUnits rest).map
           (fun p : List Nat × List Char =>
             ((((ha * 16 + hb) * 16 + hc2) * 16 + hd) :: p.1, p.2))
       | _, _, _, _ => none) := by
  rw [parseStrUnits.eq_def]
  rfl

/-- Step: a plain character is taken literally. -/
theorem parseStrUnits_plain (c : Char) (rest : List Char)
    (h1 : c ≠ '"') (h2 : c ≠ '\\') (h3 : ¬(c.toNat < 32)) :
    parseStrUnits (c :: rest) =
      (parseStrUnits rest).map (fun p => (c.toNat :: p.1, p.2)) := by
  rw [parseStrUnits.eq_def]
  show (if c = '"' then some ([], rest)
    else if c = '\\' then
      ((match rest with
       | e :: rest2 =>
         if e = 'u' then
           ((match rest2 with
           | a :: b :: c2 :: d :: rest3 =>
             ((match hexVal a, hexVal b, hexVal c2, hexVal d with
              | some ha, some hb, some hc2, some hd =>
                (parseStrUnits rest3).map
                  (fun p : List Nat × List Char =>
                    ((((ha * 16 + hb) * 16 + hc2) * 16 + hd) :: p.1, p.2))
              | _, _, _, _ => none) : Option (List Nat × List Char))
           | _ => none) : Option (List Nat × List Char))
         else
           ((match simpleEscape e with
           | some u =>
             (parseStrUnits rest2).map (fun p : List Nat × List Char => (u :: p.1, p.2))
           | none => none) : Option (List Nat × List Char))
       | [] => none) : Option (List Nat × List Char))
    else if c.toNat < 32 then none
    else (parseStrUnits rest).map (fun p : List Nat × List Char => (c.toNat :: p.1, p.2))) =
    (parseStrUnits rest).map (fun p => (c.toNat :: p.1, p.2))
  rw [if_neg h1, if_neg h2, if_neg h3]

/-- Decoding the escaped body of a string literal yields its code
units and the input after the closing quote. -/
theorem parseStrUnits_escBody (s : List Char) (tail : List Char) :
    parseStrUnits (escBody s ++ '"' :: tail) = some (s.map Char.toNat, tail) := by
  induction s with
  | nil =>
    rw [escBody, List.nil_append, parseStrUnits_quote, List.map_nil]
  | cons c cs ih =>
    rw [escBody, List.append_assoc, escapeUnit, List.map_cons]
    by_cases h1 : c = '"'
    · subst h1
      rw [if_pos rfl]
      rw [show ['\\', '"'] ++ (escBody cs ++ '"' :: tail) =
        '\\' :: '"' :: (escBody cs ++ '"' :: tail) from rfl]
      rw [parseStrUnits_esc '"' _ (by decide)]
      show (parseStrUnits (escBody cs ++ '"' :: tail)).map
        (fun p : List Nat × List Char => (34 :: p.1, p.2)) = _
      rw [ih]
      rfl
    · rw [if_neg h1]
      by_cases h2 : c = '\\'
      · subst h2
        rw [if_pos rfl]
        rw [show ['\\', '\\'] ++ (escBody cs ++ '"' :: tail) =
          '\\' :: '\\' :: (escBody cs ++ '"' :: tail) from rfl]
        rw [parseStrUnits_esc '\\' _ (by decide)]
        show (parseStrUnits (escBody cs ++ '"' :: tail)).map
          (fun p : List Nat × List Char => (92 :: p.1, p.2)) = _
        rw [ih]
        rfl
      · rw [if_neg h2]
        by_cases h3 : c = '\n'
        · subst h3
          rw [if_pos rfl]
          rw [show ['\\', 'n'] ++ (escBody cs ++ '"' :: tail) =
            '\\' :: 'n' :: (escBody cs ++ '"' :: tail) from rfl]
          rw [parseStrUnits_esc 'n' _ (by decide)]
          show (parseStrUnits (escBody cs ++ '"' :: tail)).map
            (fun p : List Nat × List Char => (10 :: p.1, p.2)) = _
          rw [ih]
          rfl
        · rw [if_neg h3]
          by_cases h4 : c = '\r'
          · subst h4
            rw [if_pos rfl]
            rw [show ['\\', 'r'] ++ (escBody cs ++ '"' :: tail) =
              '\\' :: 'r' :: (escBody cs ++ '"' :: tail) from rfl]
            rw [parseStrUnits_esc 'r' _ (by decide)]
            show (parseStrUnits (escBody cs ++ '"' :: tail)).map
              (fun p : List Nat × List Char => (13 :: p.1, p.2)) = _
            rw [ih]
            rfl
          · rw [if_neg h4]
            by_cases h5 : c = '\t'
            · subst h5
              rw [if_pos rfl]
              rw [show ['\\', 't'] ++ (escBody cs ++ '"' :: tail) =
                '\\' :: 't' :: (escBody cs ++ '"' :: tail) from rfl]
              rw [parseStrUnits_esc 't' _ (by decide)]
              show (parseStrUnits (escBody cs ++ '"' :: tail)).map
                (fun p : List Nat × List Char => (9 :: p.1, p.2)) = _
              rw [ih]
              rfl
            · rw [if_neg h5]
              by_cases h6 : c = Char.ofNat 8
              · subst h6
                rw [if_pos rfl]
                rw [show ['\\', 'b'] ++ (escBody cs ++ '"' :: tail) =
                  '\\' :: 'b' :: (escBody cs ++ '"' :: tail) from rfl]
                rw [parseStrUnits_esc 'b' _ (by decide)]
                show (parseStrUnits (escBody cs ++ '"' :: tail)).map
                  (fun p : List Nat × List Char => (8 :: p.1, p.2)) = _
                rw [ih]
                rfl
              · rw [if_neg h6]
                by_cases h7 : c = Char.ofNat 12
                · subst h7
                  rw [if_pos rfl]
                  rw [show ['\\', 'f'] ++ (escBody cs ++ '"' :: tail) =
                    '\\' :: 'f' :: (escBody cs ++ '"' :: tail) from rfl]
                  rw [parseStrUnits_esc 'f' _ (by decide)]
                  show (parseStrUnits (escBody cs ++ '"' :: tail)).map
                    (fun p : List Nat × List Char => (12 :: p.1, p.2)) = _
                  rw [ih]
                  rfl
                · rw [if_neg h7]
                  by_cases h8 : c.toNat < 32
                  · rw [if_pos h8]
                    rw [show ('\\' :: 'u' :: '0' :: '0' :: hexDigitChar (c.toNat / 16) ::
                        hexDigitChar (c.toNat % 16) :: []) ++ (escBody cs ++ '"' :: tail) =
                        '\\' :: 'u' :: '0' :: '0' :: hexDigitChar (c.toNat / 16) ::
                        hexDigitChar (c.toNat % 16) :: (escBody cs ++ '"' :: tail) from rfl]
                    rw [parseStrUnits_unicode]
                    rw [show hexVal '0' = some 0 from rfl,
                      hexVal_hexDigitChar (c.toNat / 16) (by omega),
                      hexVal_hexDigitChar (c.toNat % 16) (by omega)]
                    show (parseStrUnits (escBody cs ++ '"' :: tail)).map
                      (fun p : List Nat × List Char =>
                        ((((0 * 16 + 0) * 16 + c.toNat / 16) * 16 + c.toNat % 16)
                          :: p.1, p.2)) = _
                    rw [ih]
                    have harith : ((0 * 16 + 0) * 16 + c.toNat / 16) * 16 + c.toNat % 16 =
                        c.toNat := by omega
                    rw [harith]
                    rfl
                  · rw [if_neg h8]
                    rw [show ([c] ++ (escBody cs ++ '"' :: tail)) =
                      c :: (escBody cs ++ '"' :: tail) from rfl]
                    rw [parseStrUnits_plain c _ h1 h2 h8, ih]
                    rfl


/-- Code units of characters recombine to the same characters. -/
theorem unitsToCharsAux_map_toNat (s : List Char) :
    unitsToCharsAux none (s.map Char.toNat) = s := by
  induction s with
  | nil => rfl
  | cons c cs ih =>
    rw [List.map_cons, unitsToCharsAux]
    show (if 0xD800 ≤ c.toNat ∧ c.toNat ≤ 0xDBFF then
        unitsToCharsAux (some c.toNat) (cs.map Char.toNat)
      else Char.ofNat c.toNat :: unitsToCharsAux none (cs.map Char.toNat)) = c :: cs
    rw [if_neg (char_not_high_surrogate c), Char.ofNat_toNat, ih]

/-- Reading back a rendered string-literal body. -/
theorem parseStrBody_escBody (s : List Char) (tail : List Char) :
    parseStrBody (escBody s ++ '"' :: tail) = some (s, tail) := by
  rw [parseStrBody, parseStrUnits_escBody]
  show some (unitsToChars (s.map Char.toNat), tail) = some (s, tail)
  rw [unitsToChars, unitsToCharsAux_map_toNat]

/-- A digit character is not a minus sign. -/
theorem isDigit_ne_minus (c : Char) (h : c.isDigit = true) : c ≠ '-' := by
  intro he
  rw [he] at h
  exact absurd h (by decide)

/-- Reading back a rendered integer. -/
theorem parseNum_intToChars (i : Int) (tail : List Char) (htail : numStop tail = true) :
    parseNum (intToChars i ++ tail) = some (mkRat i 1, tail) := by
  by_cases hi : i < 0
  · rw [intToChars, if_pos hi, List.cons_append, parseNum, if_pos rfl]
    rw [parseNumAfterSign_natToChars (-1) i.natAbs tail htail]
    have : (-1 : Int) * i.natAbs = i := by omega
    rw [this]
  · rw [intToChars, if_neg hi]
    cases hnat : natToChars i.toNat with
    | nil =>
      exfalso
      rw [natToChars] at hnat
      by_cases h0 : i.toNat = 0
      · rw [if_pos h0] at hnat
        exact List.noConfusion hnat
      · rw [if_neg h0] at hnat
        obtain ⟨d, ds, hnd, _, _, _⟩ := natDigits_head i.toNat h0
        rw [hnd] at hnat
        exact List.noConfusion hnat
    | cons c cs =>
      have hcd : c.isDigit = true := by
        refine natToChars_all_digits i.toNat c ?_
        rw [hnat]
        exact List.mem_cons_self c cs
      rw [List.cons_append, parseNum, if_neg (isDigit_ne_minus c hcd)]
      rw [← List.cons_append, ← hnat]
      rw [parseNumAfterSign_natToChars 1 i.toNat tail htail]
      have : (1 : Int) * i.toNat = i := by omega
      rw [this]

/-! ### Dispatch of a rendered value through the parser -/

/-- `skipJsonWs` keeps a list headed by a non-whitespace character. -/
theorem skipJsonWs_cons (c : Char) (xs : List Char) (h : jsonWsChar c = false) :
    skipJsonWs (c :: xs) = c :: xs := by
  rw [skipJsonWs, if_neg (by rw [h]; exact Bool.false_ne_true)]

/-- `numStop` on a cons inspects only the head. -/
theorem numStop_cons (c : Char) (r : List Char) :
    numStop (c :: r) = !(c.isDigit || c = '.' || c = 'e' || c = 'E') := rfl

/-- An integer rational is remade from its numerator. -/
theorem mkRat_den_one (q : Rat) (h : q.den = 1) : mkRat q.num 1 = q := by
  rw [Rat.mkRat_one]
  exact (Rat.den_eq_one_iff q).mp h

/-- Values have positive size. -/
theorem sizeV_pos (v : JVal) : 1 ≤ sizeV v := by
  cases v with
  | jnull => rw [sizeV]
  | jbool b => rw [sizeV]
  | jnum q => rw [sizeV]
  | jstr s => rw [sizeV]
  | jarr l => rw [sizeV]; omega
  | jobj l => rw [sizeV]; omega

/-- Element lists have positive size. -/
theorem sizeL_pos (l : List JVal) : 1 ≤ sizeL l := by
  cases l with
  | nil => rw [sizeL]
  | cons v r => rw [sizeL]; omega

/-- Member lists have positive size. -/
theorem sizeM_pos (l : List (String × JVal)) : 1 ≤ sizeM l := by
  cases l with
  | nil => rw [sizeM]
  | cons p r =>
    rcases p with ⟨k, v⟩
    rw [sizeM]
    omega

/-- The rendering of an integer-valued number literal. -/
theorem renderV_num (q : Rat) (h : q.den = 1) :
    renderV (.jnum q) = intToChars q.num := by
  rw [renderV, jsNumToString, if_pos h]

/-- Every rendering starts with a distinctive non-whitespace character
that is no closer. -/
theorem renderV_head (v : JVal) (hnum : numsInt v = true) :
    ∃ c cs, renderV v = c :: cs ∧ jsonWsChar c = false ∧ c ≠ ']' ∧ c ≠ '}' := by
  cases v with
  | jnull => exact ⟨'n', _, rfl, by decide, by decide, by decide⟩
  | jbool b =>
    cases b
    · exact ⟨'f', _, rfl, by decide, by decide, by decide⟩
    · exact ⟨'t', _, rfl, by decide, by decide, by decide⟩
  | jstr s =>
    refine ⟨'"', escBody s.data ++ ['"'], ?_, by decide, by decide, by decide⟩
    rw [renderV, renderStr, List.cons_append]
  | jarr l =>
    refine ⟨'[', renderElems l ++ [']'], ?_, by decide, by decide, by decide⟩
    rw [renderV, List.cons_append]
  | jobj l =>
    refine ⟨'{', renderMembers l ++ ['}'], ?_, by decide, by decide, by decide⟩
    rw [renderV, List.cons_append]
  | jnum q =>
    have hden : q.den = 1 := by
      rw [numsInt] at hnum
      exact of_decide_eq_true hnum
    rw [renderV_num q hden, intToChars]
    by_cases hneg : q.num < 0
    · rw [if_pos hneg]
      exact ⟨'-', _, rfl, by decide, by decide, by decide⟩
    · rw [if_neg hneg, natToChars]
      by_cases h0 : q.num.toNat = 0
      · rw [if_pos h0]
        exact ⟨'0', _, rfl, by decide, by decide, by decide⟩
      · rw [if_neg h0]
        obtain ⟨d, ds, hnd, hd10, _, _⟩ := natDigits_head q.num.toNat h0
        rw [hnd]
        have hf := digitChar_facts d hd10
        exact ⟨digitChar d, ds, rfl, hf.2.2.1, hf.2.2.2.2.2.2.1, hf.2.2.2.2.2.2.2.1⟩

/-- One parser step on a numeric head goes to `parseNum`. -/
theorem parseVal_num_head (fuel : Nat) (c : Char) (rest : List Char)
    (hws : jsonWsChar c = false) (h1 : c ≠ '{') (h2 : c ≠ '[') (h3 : c ≠ '"')
    (h4 : c = '-' ∨ c.isDigit = true) :
    parseVal (Nat.succ fuel) (c :: rest) =
      (parseNum (c :: rest)).map (fun p => (JVal.jnum p.1, p.2)) := by
  rw [parseVal, skipJsonWs_cons c rest hws]
  show (if c = '{' then
      ((match skipJsonWs rest with
       | c2 :: r2 =>
         if c2 = '}' then some (JVal.jobj [], r2)
         else (parseMembers fuel (c2 :: r2)).map
           (fun p : List (String × JVal) × List Char => (JVal.jobj p.1, p.2))
       | [] => (parseMembers fuel []).map
           (fun p : List (String × JVal) × List Char => (JVal.jobj p.1, p.2))) :
        Option (JVal × List Char))
    else if c = '[' then
      ((match skipJsonWs rest with
       | c2 :: r2 =>
         if c2 = ']' then some (JVal.jarr [], r2)
         else (parseElems fuel (c2 :: r2)).map
           (fun p : List JVal × List Char => (JVal.jarr p.1, p.2))
       | [] => (parseElems fuel []).map
           (fun p : List JVal × List Char => (JVal.jarr p.1, p.2))) :
        Option (JVal × List Char))
    else if c = '"' then
      (parseStrBody rest).map (fun p : List Char × List Char => (JVal.jstr (String.mk p.1), p.2))
    else if c = '-' ∨ c.isDigit = true then
      (parseNum (c :: rest)).map (fun p : Rat × List Char => (JVal.jnum p.1, p.2))
    else
      ((match c :: rest with
       | 't' :: 'r' :: 'u' :: 'e' :: r => some (JVal.jbool true, r)
       | 'f' :: 'a' :: 'l' :: 's' :: 'e' :: r => some (JVal.jbool false, r)
       | 'n' :: 'u' :: 'l' :: 'l' :: r => some (JVal.jnull, r)
       | _ => none) : Option (JVal × List Char))) =
    (parseNum (c :: rest)).map (fun p => (JVal.jnum p.1, p.2))
  rw [if_neg h1, if_neg h2, if_neg h3, if_pos h4]


/-- The rendering of an integer starts with a sign or digit. -/
theorem intToChars_head (i : Int) : ∃ c cs, intToChars i = c :: cs ∧ jsonWsChar c = false ∧
    c ≠ '{' ∧ c ≠ '[' ∧ c ≠ '"' ∧ (c = '-' ∨ c.isDigit = true) := by
  rw [intToChars]
  by_cases hneg : i < 0
  · rw [if_pos hneg]
    exact ⟨'-', _, rfl, by decide, by decide, by decide, by decide, Or.inl rfl⟩
  · rw [if_neg hneg, natToChars]
    by_cases h0 : i.toNat = 0
    · rw [if_pos h0]
      exact ⟨'0', _, rfl, by decide, by decide, by decide, by decide, Or.inr (by decide)⟩
    · rw [if_neg h0]
      obtain ⟨d, ds, hnd, hd10, _, _⟩ := natDigits_head i.toNat h0
      rw [hnd]
      have hf := digitChar_facts d hd10
      exact ⟨digitChar d, ds, rfl, hf.2.2.1, hf.2.2.2.1, hf.2.2.2.2.1, hf.2.2.2.2.2.1,
        Or.inr hf.1⟩

/-- Parsing a rendered value (with integer numerals) from the head of
an input gives back the value, for every sufficient fuel; proved
together for values, element lists, and member lists by strong
induction on size. -/
theorem parse_render (N : Nat) :
    (∀ v fuel tail, sizeV v ≤ N → sizeV v ≤ fuel → numsInt v = true → numStop tail = true →
      parseVal fuel (renderV v ++ tail) = some (v, tail)) ∧
    (∀ l fuel tail, sizeL l ≤ N → sizeL l ≤ fuel → numsIntL l = true → l ≠ [] →
      parseElems fuel (renderElems l ++ ']' :: tail) = some (l, tail)) ∧
    (∀ l fuel tail, sizeM l ≤ N → sizeM l ≤ fuel → numsIntM l = true → l ≠ [] →
      parseMembers fuel (renderMembers l ++ '}' :: tail) = some (l, tail)) := by
  induction N using Nat.strong_induction_on with
  | _ N ih =>
    refine ⟨?_, ?_, ?_⟩
    · intro v fuel tail hN hfuel hnum hstop
      cases fuel with
      | zero => exact absurd hfuel (by have := sizeV_pos v; omega)
      | succ f =>
        cases v with
        | jnull =>
          rw [show renderV JVal.jnull ++ tail = 'n' :: 'u' :: 'l' :: 'l' :: tail from rfl]
          rw [parseVal, skipJsonWs_cons 'n' _ (by decide)]
          rfl
        | jbool b =>
          cases b
          · rw [show renderV (JVal.jbool false) ++ tail =
              'f' :: 'a' :: 'l' :: 's' :: 'e' :: tail from rfl]
            rw [parseVal, skipJsonWs_cons 'f' _ (by decide)]
            rfl
          · rw [show renderV (JVal.jbool true) ++ tail =
              't' :: 'r' :: 'u' :: 'e' :: tail from rfl]
            rw [parseVal, skipJsonWs_cons 't' _ (by decide)]
            rfl
        | jstr s =>
          have hr : renderV (JVal.jstr s) ++ tail =
              '"' :: (escBody s.data ++ '"' :: tail) := by
            rw [renderV, renderStr, List.append_assoc, List.cons_append]
            rfl
          rw [hr, parseVal, skipJsonWs_cons '"' _ (by decide)]
          show (parseStrBody (escBody s.data ++ '"' :: tail)).map
            (fun p : List Char × List Char => (JVal.jstr (String.mk p.1), p.2)) = _
          rw [parseStrBody_escBody]
          rfl
        | jnum q =>
          have hden : q.den = 1 := by
            rw [numsInt] at hnum
            exact of_decide_eq_true hnum
          obtain ⟨c, cs, hic, hws, hc1, hc2, hc3, hc4⟩ := intToChars_head q.num
          rw [renderV_num q hden, hic, List.cons_append]
          rw [parseVal_num_head f c _ hws hc1 hc2 hc3 hc4]
          rw [← List.cons_append, ← hic]
          rw [parseNum_intToChars q.num tail hstop, mkRat_den_one q hden]
          rfl
        | jarr l =>
          cases l with
          | nil =>
            rw [show renderV (JVal.jarr []) ++ tail = '[' :: ']' :: tail from rfl]
            rw [parseVal, skipJsonWs_cons '[' _ (by decide)]
            show (match skipJsonWs (']' :: tail) with
              | c2 :: r2 =>
                if c2 = ']' then some (JVal.jarr [], r2)
                else (parseElems f (c2 :: r2)).map
                  (fun p : List JVal × List Char => (JVal.jarr p.1, p.2))
              | [] => (parseElems f []).map
                  (fun p : List JVal × List Char => (JVal.jarr p.1, p.2))) = _
            rw [skipJsonWs_cons ']' _ (by decide)]
            rfl
          | cons v r =>
            have hnumL : numsIntL (v :: r) = true := by
              rw [numsInt] at hnum
              exact hnum
            have hnumv : numsInt v = true := by
              rw [numsIntL, Bool.and_eq_true] at hnumL
              exact hnumL.1
            have hszL : sizeL (v :: r) ≤ f := by
              rw [sizeV] at hfuel
              omega
            have hszLN : sizeL (v :: r) < N := by
              rw [sizeV] at hN
              omega
            obtain ⟨c, cs, hvc, hws, hne1, hne2⟩ := renderV_head v hnumv
            have harr : renderV (JVal.jarr (v :: r)) ++ tail =
                '[' :: (renderElems (v :: r) ++ ']' :: tail) := by
              rw [renderV, List.append_assoc, List.cons_append]
              rfl
            rw [harr, parseVal, skipJsonWs_cons '[' _ (by decide)]
            show (match skipJsonWs (renderElems (v :: r) ++ ']' :: tail) with
              | c2 :: r2 =>
                if c2 = ']' then some (JVal.jarr [], r2)
                else (parseElems f (c2 :: r2)).map
                  (fun p : List JVal × List Char => (JVal.jarr p.1, p.2))
              | [] => (parseElems f []).map
                  (fun p : List JVal × List Char => (JVal.jarr p.1, p.2))) = _
            have hEc : ∃ Y, renderElems (v :: r) = c :: Y := by
              cases r with
              | nil =>
                refine ⟨cs, ?_⟩
                rw [renderElems, hvc]
              | cons v2 r2 =>
                refine ⟨cs ++ ',' :: renderElems (v2 :: r2), ?_⟩
                rw [renderElems, hvc, List.cons_append]
                exact fun h => List.noConfusion h
            obtain ⟨Y, hY⟩ := hEc
            rw [hY, List.cons_append, skipJsonWs_cons c _ hws]
            show (if c = ']' then some (JVal.jarr [], Y ++ ']' :: tail)
              else (parseElems f (c :: (Y ++ ']' :: tail))).map
                (fun p : List JVal × List Char => (JVal.jarr p.1, p.2))) = _
            rw [if_neg hne1]
            rw [show c :: (Y ++ ']' :: tail) = renderElems (v :: r) ++ ']' :: tail from by
              rw [hY, List.cons_append]]
            rw [(ih (sizeL (v :: r)) hszLN).2.1 (v :: r) f tail (Nat.le_refl _) hszL hnumL
              (List.cons_ne_nil v r)]
            rfl
        | jobj l =>
          cases l with
          | nil =>
            rw [show renderV (JVal.jobj []) ++ tail = '{' :: '}' :: tail from rfl]
            rw [parseVal, skipJsonWs_cons '{' _ (by decide)]
            show (match skipJsonWs ('}' :: tail) with
              | c2 :: r2 =>
                if c2 = '}' then some (JVal.jobj [], r2)
                else (parseMembers f (c2 :: r2)).map
                  (fun p : List (String × JVal) × List Char => (JVal.jobj p.1, p.2))
              | [] => (parseMembers f []).map
                  (fun p : List (String × JVal) × List Char => (JVal.jobj p.1, p.2))) = _
            rw [skipJsonWs_cons '}' _ (by decide)]
            rfl
          | cons m r =>
            rcases m with ⟨k, v⟩
            have hnumM : numsIntM ((k, v) :: r) = true := by
              rw [numsInt] at hnum
              exact hnum
            have hszM : sizeM ((k, v) :: r) ≤ f := by
              rw [sizeV] at hfuel
              omega
            have hszMN : sizeM ((k, v) :: r) < N := by
              rw [sizeV] at hN
              omega
            have hobj : renderV (JVal.jobj ((k, v) :: r)) ++ tail =
                '{' :: (renderMembers ((k, v) :: r) ++ '}' :: tail) := by
              rw [renderV, List.append_assoc, List.cons_append]
              rfl
            rw [hobj, parseVal, skipJsonWs_cons '{' _ (by decide)]
            show (match skipJsonWs (renderMembers ((k, v) :: r) ++ '}' :: tail) with
              | c2 :: r2 =>
                if c2 = '}' then some (JVal.jobj [], r2)
                else (parseMembers f (c2 :: r2)).map
                  (fun p : List (String × JVal) × List Char => (JVal.jobj p.1, p.2))
              | [] => (parseMembers f []).map
                  (fun p : List (String × JVal) × List Char => (JVal.jobj p.1, p.2))) = _
            have hMc : ∃ Y, renderMembers ((k, v) :: r) = '"' :: Y := by
              cases r with
              | nil =>
                refine ⟨(escBody k.data ++ ['"']) ++ ':' :: renderV v, ?_⟩
                rw [renderMembers, renderStr, List.cons_append, List.cons_append]
              | cons m2 r2 =>
                refine ⟨(escBody k.data ++ ['"'] ++ ':' :: renderV v) ++
                  ',' :: renderMembers (m2 :: r2), ?_⟩
                rw [renderMembers, renderStr, List.cons_append, List.cons_append,
                  List.cons_append]
                exact fun h => List.noConfusion h
            obtain ⟨Y, hY⟩ := hMc
            rw [hY, List.cons_append, skipJsonWs_cons '"' _ (by decide)]
            show (if ('"' : Char) = '}' then some (JVal.jobj [], Y ++ '}' :: tail)
              else (parseMembers f ('"' :: (Y ++ '}' :: tail))).map
                (fun p : List (String × JVal) × List Char => (JVal.jobj p.1, p.2))) = _
            rw [if_neg (by decide)]
            rw [show '"' :: (Y ++ '}' :: tail) = renderMembers ((k, v) :: r) ++ '}' :: tail
              from by rw [hY, List.cons_append]]
            rw [(ih (sizeM ((k, v) :: r)) hszMN).2.2 ((k, v) :: r) f tail (Nat.le_refl _)
              hszM hnumM (List.cons_ne_nil (k, v) r)]
            rfl
    · intro l fuel tail hN hfuel hnuml hne
      cases l with
      | nil => exact absurd rfl hne
      | cons v r =>
        cases fuel with
        | zero =>
          exfalso
          have h1 := sizeV_pos v
          have h2 := sizeL_pos r
          rw [sizeL] at hfuel
          omega
        | succ f =>
          have hnumv : numsInt v = true := by
            rw [numsIntL, Bool.and_eq_true] at hnuml
            exact hnuml.1
          have hnumr : numsIntL r = true := by
            rw [numsIntL, Bool.and_eq_true] at hnuml
            exact hnuml.2
          have hszv : sizeV v ≤ f := by
            have := sizeL_pos r
            rw [sizeL] at hfuel
            omega
          have hszvN : sizeV v < N := by
            have := sizeL_pos r
            rw [sizeL] at hN
            omega
          rw [parseElems]
          cases r with
          | nil =>
            rw [show renderElems [v] = renderV v from by rw [renderElems]]
            rw [(ih (sizeV v) hszvN).1 v f (']' :: tail) (Nat.le_refl _) hszv hnumv
              (by rw [numStop_cons]; decide)]
            show (match skipJsonWs (']' :: tail) with
              | c2 :: r2 =>
                if c2 = ',' then (parseElems f r2).map
                  (fun q : List JVal × List Char => (v :: q.1, q.2))
                else if c2 = ']' then some ([v], r2)
                else none
              | [] => none) = _
            rw [skipJsonWs_cons ']' _ (by decide)]
            rfl
          | cons v2 r2 =>
            have hsz2 : sizeL (v2 :: r2) ≤ f := by
              have := sizeV_pos v
              rw [sizeL] at hfuel
              omega
            have hsz2N : sizeL (v2 :: r2) < N := by
              have := sizeV_pos v
              rw [sizeL] at hN
              omega
            rw [show renderElems (v :: v2 :: r2) ++ ']' :: tail =
                renderV v ++ (',' :: (renderElems (v2 :: r2) ++ ']' :: tail)) from by
              rw [renderElems, List.append_assoc, List.cons_append]
              exact fun h => List.noConfusion h]
            rw [(ih (sizeV v) hszvN).1 v f
              (',' :: (renderElems (v2 :: r2) ++ ']' :: tail))
              (Nat.le_refl _) hszv hnumv (by rw [numStop_cons]; decide)]
            show (match skipJsonWs (',' :: (renderElems (v2 :: r2) ++ ']' :: tail)) with
              | c2 :: r2x =>
                if c2 = ',' then (parseElems f r2x).map
                  (fun q : List JVal × List Char => (v :: q.1, q.2))
                else if c2 = ']' then some ([v], r2x)
                else none
              | [] => none) = _
            rw [skipJsonWs_cons ',' _ (by decide)]
            show (parseElems f (renderElems (v2 :: r2) ++ ']' :: tail)).map
              (fun q : List JVal × List Char => (v :: q.1, q.2)) = _
            rw [(ih (sizeL (v2 :: r2)) hsz2N).2.1 (v2 :: r2) f tail (Nat.le_refl _) hsz2
              hnumr (List.cons_ne_nil v2 r2)]
            rfl
    · intro l fuel tail hN hfuel hnuml hne
      cases l with
      | nil => exact absurd rfl hne
      | cons m r =>
        rcases m with ⟨k, v⟩
        cases fuel with
        | zero =>
          exfalso
          have h1 := sizeV_pos v
          have h2 := sizeM_pos r
          rw [sizeM] at hfuel
          omega
        | succ f =>
          have hnumv : numsInt v = true := by
            rw [numsIntM, Bool.and_eq_true] at hnuml
            exact hnuml.1
          have hnumr : numsIntM r = true := by
            rw [numsIntM, Bool.and_eq_true] at hnuml
            exact hnuml.2
          have hszv : sizeV v ≤ f := by
            have := sizeM_pos r
            rw [sizeM] at hfuel
            omega
          have hszvN : sizeV v < N := by
            have := sizeM_pos r
            rw [sizeM] at hN
            omega
          rw [parseMembers]
          cases r with
          | nil =>
            have hone : renderMembers [(k, v)] ++ '}' :: tail =
                '"' :: (escBody k.data ++ '"' :: (':' :: (renderV v ++ '}' :: tail))) := by
              rw [renderMembers, renderStr]
              simp only [List.cons_append, List.append_assoc, List.nil_append]
            rw [hone, skipJsonWs_cons '"' _ (by decide)]
            show (if ('"' : Char) = '"' then
                (parseStrBody (escBody k.data ++ '"' ::
                    (':' :: (renderV v ++ '}' :: tail)))).bind
                  (fun kp : List Char × List Char =>
                    match skipJsonWs kp.2 with
                    | c2 :: r2 =>
                      if c2 = ':' then
                        (parseVal f r2).bind (fun vp : JVal × List Char =>
                          match skipJsonWs vp.2 with
                          | c3 :: r3 =>
                            if c3 = ',' then
                              (parseMembers f r3).map
                                (fun q : List (String × JVal) × List Char =>
                                  ((String.mk kp.1, vp.1) :: q.1, q.2))
                            else if c3 = '}' then some ([(String.mk kp.1, vp.1)], r3)
                            else none
                          | [] => none)
                      else none
                    | [] => none)
              else none) = _
            rw [if_pos rfl, parseStrBody_escBody]
            show (match skipJsonWs (':' :: (renderV v ++ '}' :: tail)) with
              | c2 :: r2 =>
                if c2 = ':' then
                  (parseVal f r2).bind (fun vp : JVal × List Char =>
                    match skipJsonWs vp.2 with
                    | c3 :: r3 =>
                      if c3 = ',' then
                        (parseMembers f r3).map
                          (fun q : List (String × JVal) × List Char =>
                            ((String.mk k.data, vp.1) :: q.1, q.2))
                      else if c3 = '}' then some ([(String.mk k.data, vp.1)], r3)
                      else none
                    | [] => none)
                else none
              | [] => none) = _
            rw [skipJsonWs_cons ':' _ (by decide)]
            show (parseVal f (renderV v ++ '}' :: tail)).bind
              (fun vp : JVal × List Char =>
                match skipJsonWs vp.2 with
                | c3 :: r3 =>
                  if c3 = ',' then
                    (parseMembers f r3).map
                      (fun q : List (String × JVal) × List Char =>
                        ((String.mk k.data, vp.1) :: q.1, q.2))
                  else if c3 = '}' then some ([(String.mk k.data, vp.1)], r3)
                  else none
                | [] => none) = _
            rw [(ih (sizeV v) hszvN).1 v f ('}' :: tail) (Nat.le_refl _) hszv hnumv
              (by rw [numStop_cons]; decide)]
            show (match skipJsonWs ('}' :: tail) with
              | c3 :: r3 =>
                if c3 = ',' then
                  (parseMembers f r3).map
                    (fun q : List (String × JVal) × List Char =>
                      ((String.mk k.data, v) :: q.1, q.2))
                else if c3 = '}' then some ([(String.mk k.data, v)], r3)
                else none
              | [] => none) = _
            rw [skipJsonWs_cons '}' _ (by decide)]
            rfl
          | cons m2 r2 =>
            rcases m2 with ⟨k2, v2⟩
            have hsz2 : sizeM ((k2, v2) :: r2) ≤ f := by
              have := sizeV_pos v
              rw [sizeM] at hfuel
              omega
            have hsz2N : sizeM ((k2, v2) :: r2) < N := by
              have := sizeV_pos v
              rw [sizeM] at hN
              omega
            have htwo : renderMembers ((k, v) :: (k2, v2) :: r2) ++ '}' :: tail =
                '"' :: (escBody k.data ++ '"' :: (':' :: (renderV v ++
                  ',' :: (renderMembers ((k2, v2) :: r2) ++ '}' :: tail)))) := by
              rw [renderMembers, renderStr]
              simp only [List.cons_append, List.append_assoc, List.nil_append]
              exact fun h => List.noConfusion h
            rw [htwo, skipJsonWs_cons '"' _ (by decide)]
            show (if ('"' : Char) = '"' then
                (parseStrBody (escBody k.data ++ '"' :: (':' :: (renderV v ++
                    ',' :: (renderMembers ((k2, v2) :: r2) ++ '}' :: tail))))).bind
                  (fun kp : List Char × List Char =>
                    match skipJsonWs kp.2 with
                    | c2 :: r2x =>
                      if c2 = ':' then
                        (parseVal f r2x).bind (fun vp : JVal × List Char =>
                          match skipJsonWs vp.2 with
                          | c3 :: r3 =>
                            if c3 = ',' then
                              (parseMembers f r3).map
                                (fun q : List (String × JVal) × List Char =>
                                  ((String.mk kp.1, vp.1) :: q.1, q.2))
                            else if c3 = '}' then some ([(String.mk kp.1, vp.1)], r3)
                            else none
                          | [] => none)
                      else none
                    | [] => none)
              else none) = _
            rw [if_pos rfl, parseStrBody_escBody]
            show (match skipJsonWs (':' :: (renderV v ++
                ',' :: (renderMembers ((k2, v2) :: r2) ++ '}' :: tail))) with
              | c2 :: r2x =>
                if c2 = ':' then
                  (parseVal f r2x).bind (fun vp : JVal × List Char =>
                    match skipJsonWs vp.2 with
                    | c3 :: r3 =>
                      if c3 = ',' then
                        (parseMembers f r3).map
                          (fun q : List (String × JVal) × List Char =>
                            ((String.mk k.data, vp.1) :: q.1, q.2))
                      else if c3 = '}' then some ([(String.mk k.data, vp.1)], r3)
                      else none
                    | [] => none)
                else none
              | [] => none) = _
            rw [skipJsonWs_cons ':' _ (by decide)]
            show (parseVal f (renderV v ++
                ',' :: (renderMembers ((k2, v2) :: r2) ++ '}' :: tail))).bind
              (fun vp : JVal × List Char =>
                match skipJsonWs vp.2 with
                | c3 :: r3 =>
                  if c3 = ',' then
                    (parseMembers f r3).map
                      (fun q : List (String × JVal) × List Char =>
                        ((String.mk k.data, vp.1) :: q.1, q.2))
                  else if c3 = '}' then some ([(String.mk k.data, vp.1)], r3)
                  else none
                | [] => none) = _
            rw [(ih (sizeV v) hszvN).1 v f
              (',' :: (renderMembers ((k2, v2) :: r2) ++ '}' :: tail))
              (Nat.le_refl _) hszv hnumv (by rw [numStop_cons]; decide)]
            show (match skipJsonWs (',' ::
                (renderMembers ((k2, v2) :: r2) ++ '}' :: tail)) with
              | c3 :: r3 =>
                if c3 = ',' then
                  (parseMembers f r3).map
                    (fun q : List (String × JVal) × List Char =>
                      ((String.mk k.data, v) :: q.1, q.2))
                else if c3 = '}' then some ([(String.mk k.data, v)], r3)
                else none
              | [] => none) = _
            rw [skipJsonWs_cons ',' _ (by decide)]
            show (parseMembers f (renderMembers ((k2, v2) :: r2) ++ '}' :: tail)).map
              (fun q : List (String × JVal) × List Char =>
                ((String.mk k.data, v) :: q.1, q.2)) = _
            rw [(ih (sizeM ((k2, v2) :: r2)) hsz2N).2.2 ((k2, v2) :: r2) f tail
              (Nat.le_refl _) hsz2 hnumr (List.cons_ne_nil (k2, v2) r2)]
            rfl

/-- The structural size is bounded by twice the rendered length, so
`jsonParseL`'s fuel suffices for a rendered value. -/
theorem render_size_bound (N : Nat) :
    (∀ v, sizeV v ≤ N → numsInt v = true → sizeV v ≤ 2 * (renderV v).length) ∧
    (∀ l, sizeL l ≤ N → numsIntL l = true →
      sizeL l ≤ 2 * (renderElems l).length + 2) ∧
    (∀ l, sizeM l ≤ N → numsIntM l = true →
      sizeM l ≤ 2 * (renderMembers l).length + 2) := by
  induction N using Nat.strong_induction_on with
  | _ N ih =>
    refine ⟨?_, ?_, ?_⟩
    · intro v hN hnum
      cases v with
      | jnull => rw [sizeV, renderV]; decide
      | jbool b => cases b <;> (rw [sizeV, renderV]; decide)
      | jnum q =>
        have hden : q.den = 1 := by
          rw [numsInt] at hnum
          exact of_decide_eq_true hnum
        obtain ⟨c, cs, hic, -, -⟩ := intToChars_head q.num
        rw [sizeV, renderV_num q hden, hic, List.length_cons]
        omega
      | jstr s =>
        rw [sizeV, renderV, renderStr, List.cons_append, List.length_cons,
          List.length_append]
        omega
      | jarr l =>
        have hl : sizeL l < N := by
          rw [sizeV] at hN
          omega
        have hr := (ih (sizeL l) hl).2.1 l (Nat.le_refl _) (by rwa [numsInt] at hnum)
        rw [sizeV, renderV, List.cons_append, List.length_cons, List.length_append,
          List.length_singleton]
        omega
      | jobj l =>
        have hl : sizeM l < N := by
          rw [sizeV] at hN
          omega
        have hr := (ih (sizeM l) hl).2.2 l (Nat.le_refl _) (by rwa [numsInt] at hnum)
        rw [sizeV, renderV, List.cons_append, List.length_cons, List.length_append,
          List.length_singleton]
        omega
    · intro l hN hnum
      cases l with
      | nil => rw [sizeL, renderElems]; decide
      | cons v rest =>
        rw [numsIntL, Bool.and_eq_true] at hnum
        have hv : sizeV v < N := by
          rw [sizeL] at hN
          have := sizeL_pos rest
          omega
        have hvb := (ih (sizeV v) hv).1 v (Nat.le_refl _) hnum.1
        cases rest with
        | nil =>
          rw [sizeL, sizeL, renderElems]
          omega
        | cons v2 r2 =>
          have hr : sizeL (v2 :: r2) < N := by
            rw [sizeL] at hN
            have := sizeV_pos v
            omega
          have hrb := (ih (sizeL (v2 :: r2)) hr).2.1 (v2 :: r2)
            (Nat.le_refl _) hnum.2
          rw [sizeL, renderElems, List.length_append, List.length_cons]
          omega
          exact fun h => List.noConfusion h
    · intro l hN hnum
      cases l with
      | nil => rw [sizeM, renderMembers]; decide
      | cons m rest =>
        rcases m with ⟨k, v⟩
        rw [numsIntM, Bool.and_eq_true] at hnum
        have hv : sizeV v < N := by
          rw [sizeM] at hN
          have := sizeM_pos rest
          omega
        have hvb := (ih (sizeV v) hv).1 v (Nat.le_refl _) hnum.1
        cases rest with
        | nil =>
          rw [sizeM, sizeM, renderMembers, List.length_append, List.length_cons]
          omega
        | cons m2 r2 =>
          have hr : sizeM (m2 :: r2) < N := by
            rw [sizeM] at hN
            have := sizeV_pos v
            omega
          have hrb := (ih (sizeM (m2 :: r2)) hr).2.2 (m2 :: r2)
            (Nat.le_refl _) hnum.2
          rw [sizeM, renderMembers, List.length_append, List.length_append,
            List.length_cons, List.length_cons]
          omega
          exact fun h => List.noConfusion h

/-- `JSON.parse` inverts `JSON.stringify` on values whose numbers are
integers. -/
theorem jsonParseL_renderV (v : JVal) (hnum : numsInt v = true) :
    jsonParseL (renderV v) = some v := by
  have hsz := (render_size_bound (sizeV v)).1 v (Nat.le_refl _) hnum
  have hp := (parse_render (sizeV v)).1 v (2 * (renderV v).length + 2) []
    (Nat.le_refl _) (by omega) hnum (by rw [numStop])
  rw [List.append_nil] at hp
  rw [jsonParseL, hp]
  rfl

/-- A clean character is not a backtick, not a typographic quote, and
not whitespace. -/
theorem cleanChar_split (c : Char) (h : cleanChar c = true) :
    c ≠ tickChar ∧ curlyChar c = false ∧ jsWsChar c = false := by
  rw [cleanChar, Bool.and_eq_true, Bool.and_eq_true] at h
  refine ⟨?_, ?_, ?_⟩
  · intro hc
    have h1 := h.1.1
    rw [hc] at h1
    exact absurd h1 (by decide)
  · cases hb : curlyChar c with
    | false => rfl
    | true =>
      have h1 := h.1.2
      rw [hb] at h1
      exact absurd h1 (by decide)
  · cases hb : jsWsChar c with
    | false => rfl
    | true =>
      have h1 := h.2
      rw [hb] at h1
      exact absurd h1 (by decide)

/-- On a non-backtick head the fence-stripping pass copies one
character. -/
theorem stripFencesF_step (f : Nat) (c : Char) (rest : List Char)
    (hc : c ≠ tickChar) :
    stripFencesF (f + 1) (c :: rest) = c :: stripFencesF f rest := by
  cases rest with
  | nil =>
    rw [stripFencesF, if_neg hc]
    intros
    simp_all
  | cons x xs =>
    cases xs with
    | nil =>
      rw [stripFencesF, if_neg hc]
      intros
      simp_all
    | cons y ys =>
      cases ys with
      | nil =>
        rw [stripFencesF, if_neg hc]
        intros
        simp_all
      | cons a as =>
        cases as with
        | nil =>
          rw [stripFencesF, if_neg hc]
          intros
          simp_all
        | cons b bs =>
          cases bs with
          | nil =>
            rw [stripFencesF, if_neg hc]
            intros
            simp_all
          | cons c2 cs2 =>
            cases cs2 with
            | nil =>
              rw [stripFencesF, if_neg hc]
              intros
              simp_all
            | cons d ds =>
              rw [stripFencesF, if_neg hc]

/-- On a non-backtick head the backtick-stripping pass copies one
character. -/
theorem stripTicksF_step (f : Nat) (c : Char) (rest : List Char)
    (hc : c ≠ tickChar) :
    stripTicksF (f + 1) (c :: rest) = c :: stripTicksF f rest := by
  cases rest with
  | nil =>
    rw [stripTicksF, if_neg hc]
    intro c2 c3 r2 h
    exact List.noConfusion h
  | cons x xs =>
    cases xs with
    | nil =>
      rw [stripTicksF, if_neg hc]
      intro c2 c3 r2 h
      injection h with h1 h2
      exact List.noConfusion h2
    | cons y ys =>
      rw [stripTicksF, if_neg hc]

/-- The fence-stripping pass keeps backtick-free text unchanged. -/
theorem stripFencesF_id (s : List Char) (h : ∀ c ∈ s, c ≠ tickChar) :
    ∀ fuel, s.length ≤ fuel → stripFencesF fuel s = s := by
  induction s with
  | nil =>
    intro fuel _
    cases fuel <;> rfl
  | cons c cs ih =>
    intro fuel hf
    cases fuel with
    | zero => rfl
    | succ f =>
      rw [stripFencesF_step f c cs (h c (List.mem_cons_self c cs)),
        ih (fun x hx => h x (List.mem_cons_of_mem c hx)) f
          (by rw [List.length_cons] at hf; omega)]

/-- The backtick-stripping pass keeps backtick-free text unchanged. -/
theorem stripTicksF_id (s : List Char) (h : ∀ c ∈ s, c ≠ tickChar) :
    ∀ fuel, s.length ≤ fuel → stripTicksF fuel s = s := by
  induction s with
  | nil =>
    intro fuel _
    cases fuel <;> rfl
  | cons c cs ih =>
    intro fuel hf
    cases fuel with
    | zero => rfl
    | succ f =>
      rw [stripTicksF_step f c cs (h c (List.mem_cons_self c cs)),
        ih (fun x hx => h x (List.mem_cons_of_mem c hx)) f
          (by rw [List.length_cons] at hf; omega)]

/-- The quote-normalizing map fixes a non-typographic character. -/
theorem mapCurly_char_id (c : Char) (h : curlyChar c = false) :
    (if c = '“' ∨ c = '”' then '"'
     else if c = '‘' ∨ c = '’' then aposChar else c) = c := by
  have h4 : ¬(c = '“' ∨ c = '”' ∨ c = '‘' ∨ c = '’') := by
    intro hc
    rw [curlyChar] at h
    rw [decide_eq_true hc] at h
    exact absurd h (by decide)
  rw [if_neg (fun hor => h4 (hor.elim Or.inl (fun hx => Or.inr (Or.inl hx)))),
    if_neg (fun hor => h4 (Or.inr (Or.inr hor)))]

/-- The quote-normalizing passes keep typographic-quote-free text
unchanged. -/
theorem mapCurly_id (s : List Char) (h : ∀ c ∈ s, curlyChar c = false) :
    mapCurly s = s := by
  induction s with
  | nil => rfl
  | cons c cs ih =>
    rw [mapCurly, List.map_cons,
      mapCurly_char_id c (h c (List.mem_cons_self c cs))]
    have hrec := ih (fun x hx => h x (List.mem_cons_of_mem c hx))
    rw [mapCurly] at hrec
    rw [hrec]

/-- The `\s*\n\s*` matcher fails immediately on a non-whitespace
character. -/
theorem wsThenOpen_cons_none (op c : Char) (rest : List Char)
    (h : jsWsChar c = false) : wsThenOpen op false (c :: rest) = none := by
  rw [wsThenOpen]
  by_cases hc : c = op
  · rw [if_pos hc]
    rfl
  · rw [if_neg hc, if_neg (by rw [h]; exact Bool.false_ne_true)]

/-- The `\s*\n\s*` matcher fails on a lone trailing newline. -/
theorem wsThenOpen_nl_none (op : Char) : wsThenOpen op false ['\n'] = none := by
  rw [wsThenOpen]
  by_cases hc : '\n' = op
  · rw [if_pos hc]
    rfl
  · rw [if_neg hc, if_pos (by decide), wsThenOpen]

/-- The comma-inserting pass on an empty text. -/
theorem insertCommasF_nil (close op : Char) (fuel : Nat) :
    insertCommasF close op fuel [] = [] := by
  cases fuel <;> rfl

/-- The comma-inserting pass keeps whitespace-free text unchanged. -/
theorem insertCommasF_id (close op : Char) (s : List Char)
    (hws : ∀ c ∈ s, jsWsChar c = false) :
    ∀ fuel, s.length ≤ fuel → insertCommasF close op fuel s = s := by
  induction s with
  | nil =>
    intro fuel _
    exact insertCommasF_nil close op fuel
  | cons c cs ih =>
    intro fuel hf
    cases fuel with
    | zero => rfl
    | succ f =>
      rw [insertCommasF]
      have hrec := ih (fun x hx => hws x (List.mem_cons_of_mem c hx)) f
        (by rw [List.length_cons] at hf; omega)
      by_cases hc : c = close
      · rw [if_pos hc]
        have hnone : wsThenOpen op false cs = none := by
          cases cs with
          | nil => rfl
          | cons c2 r2 =>
            exact wsThenOpen_cons_none op c2 r2
              (hws c2 (List.mem_cons_of_mem c (List.mem_cons_self c2 r2)))
        rw [hnone]
        show c :: insertCommasF close op f cs = c :: cs
        rw [hrec]
      · rw [if_neg hc, hrec]

/-- The comma-inserting pass keeps a whitespace-free text with one
trailing newline unchanged. -/
theorem insertCommasF_nltail (close op : Char) (s : List Char)
    (hws : ∀ c ∈ s, jsWsChar c = false) :
    ∀ fuel, s.length + 1 ≤ fuel →
      insertCommasF close op fuel (s ++ ['\n']) = s ++ ['\n'] := by
  induction s with
  | nil =>
    intro fuel _
    cases fuel with
    | zero => rfl
    | succ f =>
      rw [List.nil_append, insertCommasF]
      by_cases hc : '\n' = close
      · rw [if_pos hc]
        show ('\n' : Char) :: insertCommasF close op f [] = ['\n']
        rw [insertCommasF_nil]
      · rw [if_neg hc]
        show ('\n' : Char) :: insertCommasF close op f [] = ['\n']
        rw [insertCommasF_nil]
  | cons c cs ih =>
    intro fuel hf
    cases fuel with
    | zero => rfl
    | succ f =>
      rw [List.cons_append, insertCommasF]
      have hrec := ih (fun x hx => hws x (List.mem_cons_of_mem c hx)) f
        (by rw [List.length_cons] at hf; omega)
      by_cases hc : c = close
      · rw [if_pos hc]
        have hnone : wsThenOpen op false (cs ++ ['\n']) = none := by
          cases cs with
          | nil =>
            rw [List.nil_append]
            exact wsThenOpen_nl_none op
          | cons c2 r2 =>
            rw [List.cons_append]
            exact wsThenOpen_cons_none op c2 _
              (hws c2 (List.mem_cons_of_mem c (List.mem_cons_self c2 r2)))
        rw [hnone]
        show c :: insertCommasF close op f (cs ++ ['\n']) = c :: (cs ++ ['\n'])
        rw [hrec]
      · rw [if_neg hc, hrec]

/-- The comma-inserting pass keeps a newline-wrapped whitespace-free
text unchanged. -/
theorem insertCommasF_nlwrap (close op : Char) (s : List Char)
    (hcl : ('\n' : Char) ≠ close) (hws : ∀ c ∈ s, jsWsChar c = false) :
    ∀ fuel, s.length + 2 ≤ fuel →
      insertCommasF close op fuel ('\n' :: (s ++ ['\n'])) =
        '\n' :: (s ++ ['\n']) := by
  intro fuel hf
  cases fuel with
  | zero => rfl
  | succ f =>
    rw [insertCommasF, if_neg hcl,
      insertCommasF_nltail close op s hws f (by omega)]

/-- The `\s*` then closer matcher fails immediately off whitespace and
closers. -/
theorem wsThenCloser_none (c : Char) (rest : List Char)
    (h1 : ¬(c = '}' ∨ c = ']')) (h2 : jsWsChar c = false) :
    wsThenCloser (c :: rest) = none := by
  rw [wsThenCloser, if_neg h1, if_neg (by rw [h2]; exact Bool.false_ne_true)]

/-- Peeling a character preserves the no-adjacent-comma-closer
invariant. -/
theorem noAdj_tail (c : Char) (rest : List Char)
    (h : noAdjCommaCloser (c :: rest) = true) :
    noAdjCommaCloser rest = true := by
  cases rest with
  | nil => rfl
  | cons c2 r2 =>
    rw [noAdjCommaCloser, Bool.and_eq_true] at h
    exact h.2

/-- Under the invariant, the character after a comma is not a closer. -/
theorem noAdj_head_comma (c2 : Char) (r2 : List Char)
    (h : noAdjCommaCloser (',' :: c2 :: r2) = true) :
    ¬(c2 = '}' ∨ c2 = ']') := by
  intro hor
  rw [noAdjCommaCloser, Bool.and_eq_true] at h
  have hb : (c2 = '}' || c2 = ']') = true := by
    rcases hor with h2 | h2 <;> (rw [h2]; decide)
  have hX : ((',' : Char) = ',' && (c2 = '}' || c2 = ']')) = true := by
    rw [hb]
    decide
  have hA := h.1
  rw [hX] at hA
  exact absurd hA (by decide)

/-- The trailing-comma pass on an empty text. -/
theorem stripTrailingCommasF_nil (fuel : Nat) :
    stripTrailingCommasF fuel [] = [] := by
  cases fuel <;> rfl

/-- The trailing-comma pass keeps whitespace-free text with no comma
adjacent to a closer unchanged. -/
theorem stripTrailingCommasF_id (s : List Char)
    (hws : ∀ c ∈ s, jsWsChar c = false)
    (hadj : noAdjCommaCloser s = true) :
    ∀ fuel, s.length ≤ fuel → stripTrailingCommasF fuel s = s := by
  induction s with
  | nil =>
    intro fuel _
    exact stripTrailingCommasF_nil fuel
  | cons c cs ih =>
    intro fuel hf
    cases fuel with
    | zero => rfl
    | succ f =>
      rw [stripTrailingCommasF]
      have hrec := ih (fun x hx => hws x (List.mem_cons_of_mem c hx))
        (noAdj_tail c cs hadj) f (by rw [List.length_cons] at hf; omega)
      by_cases hc : c = ','
      · subst hc
        rw [if_pos rfl]
        have hnone : wsThenCloser cs = none := by
          cases cs with
          | nil => rfl
          | cons c2 r2 =>
            exact wsThenCloser_none c2 r2 (noAdj_head_comma c2 r2 hadj)
              (hws c2 (List.mem_cons_of_mem ',' (List.mem_cons_self c2 r2)))
        rw [hnone]
        show (',' : Char) :: stripTrailingCommasF f cs = ',' :: cs
        rw [hrec]
      · rw [if_neg hc, hrec]

/-- The trailing-comma pass keeps a whitespace-free text with one
trailing newline unchanged. -/
theorem stripTrailingCommasF_nltail (s : List Char)
    (hws : ∀ c ∈ s, jsWsChar c = false)
    (hadj : noAdjCommaCloser s = true) :
    ∀ fuel, s.length + 1 ≤ fuel →
      stripTrailingCommasF fuel (s ++ ['\n']) = s ++ ['\n'] := by
  induction s with
  | nil =>
    intro fuel _
    cases fuel with
    | zero => rfl
    | succ f =>
      rw [List.nil_append, stripTrailingCommasF, if_neg (by decide)]
      show ('\n' : Char) :: stripTrailingCommasF f [] = ['\n']
      rw [stripTrailingCommasF_nil]
  | cons c cs ih =>
    intro fuel hf
    cases fuel with
    | zero => rfl
    | succ f =>
      rw [List.cons_append, stripTrailingCommasF]
      have hrec := ih (fun x hx => hws x (List.mem_cons_of_mem c hx))
        (noAdj_tail c cs hadj) f (by rw [List.length_cons] at hf; omega)
      by_cases hc : c = ','
      · subst hc
        rw [if_pos rfl]
        have hnone : wsThenCloser (cs ++ ['\n']) = none := by
          cases cs with
          | nil =>
            rw [List.nil_append, wsThenCloser, if_neg (by decide),
              if_pos (by decide), wsThenCloser]
          | cons c2 r2 =>
            rw [List.cons_append]
            exact wsThenCloser_none c2 _ (noAdj_head_comma c2 r2 hadj)
              (hws c2 (List.mem_cons_of_mem ',' (List.mem_cons_self c2 r2)))
        rw [hnone]
        show (',' : Char) :: stripTrailingCommasF f (cs ++ ['\n']) =
          ',' :: (cs ++ ['\n'])
        rw [hrec]
      · rw [if_neg hc, hrec]

/-- The trailing-comma pass keeps a newline-wrapped clean text
unchanged. -/
theorem stripTrailingCommasF_nlwrap (s : List Char)
    (hws : ∀ c ∈ s, jsWsChar c = false)
    (hadj : noAdjCommaCloser s = true) :
    ∀ fuel, s.length + 2 ≤ fuel →
      stripTrailingCommasF fuel ('\n' :: (s ++ ['\n'])) =
        '\n' :: (s ++ ['\n']) := by
  intro fuel hf
  cases fuel with
  | zero => rfl
  | succ f =>
    rw [stripTrailingCommasF, if_neg (by decide),
      stripTrailingCommasF_nltail s hws hadj f (by omega)]

/-- `dropWsL` keeps whitespace-free text unchanged. -/
theorem dropWsL_id (s : List Char) (h : ∀ c ∈ s, jsWsChar c = false) :
    dropWsL s = s := by
  cases s with
  | nil => rfl
  | cons c cs => exact dropWsL_cons_of_not_ws c cs (h c (List.mem_cons_self c cs))

/-- `trim` keeps whitespace-free text unchanged. -/
theorem jsTrimL_id (s : List Char) (h : ∀ c ∈ s, jsWsChar c = false) :
    jsTrimL s = s := by
  rw [jsTrimL, dropWsL_id s.reverse (fun c hc => h c (List.mem_reverse.mp hc)),
    List.reverse_reverse, dropWsL_id s h]

/-- The whole repair pipeline keeps clean text unchanged. -/
theorem repairJsonCommonL_id (s : List Char) (hclean : cleanText s = true) :
    repairJsonCommonL s = s := by
  rw [cleanText, Bool.and_eq_true, List.all_eq_true] at hclean
  have htick : ∀ c ∈ s, c ≠ tickChar :=
    fun c hc => (cleanChar_split c (hclean.1 c hc)).1
  have hcurly : ∀ c ∈ s, curlyChar c = false :=
    fun c hc => (cleanChar_split c (hclean.1 c hc)).2.1
  have hws : ∀ c ∈ s, jsWsChar c = false :=
    fun c hc => (cleanChar_split c (hclean.1 c hc)).2.2
  simp only [repairJsonCommonL]
  rw [stripFencesF_id s htick s.length (Nat.le_refl _),
    stripTicksF_id s htick s.length (Nat.le_refl _),
    mapCurly_id s hcurly,
    insertCommasF_id '}' '{' s hws s.length (Nat.le_refl _),
    insertCommasF_id ']' '[' s hws s.length (Nat.le_refl _),
    stripTrailingCommasF_id s hws hclean.2 s.length (Nat.le_refl _),
    jsTrimL_id s hws]

/-- The fence-stripping pass copies a backtick-free prefix. -/
theorem stripFencesF_copy (r tail : List Char) (hr : ∀ c ∈ r, c ≠ tickChar) :
    ∀ fuel, stripFencesF (r.length + fuel) (r ++ tail) =
      r ++ stripFencesF fuel tail := by
  induction r with
  | nil =>
    intro fuel
    rw [List.length_nil, List.nil_append, List.nil_append, Nat.zero_add]
  | cons c cs ih =>
    intro fuel
    have hstep : (c :: cs).length + fuel = (cs.length + fuel) + 1 := by
      rw [List.length_cons]
      omega
    rw [hstep, List.cons_append,
      stripFencesF_step (cs.length + fuel) c _ (hr c (List.mem_cons_self c cs)),
      ih (fun x hx => hr x (List.mem_cons_of_mem c hx)) fuel, List.cons_append]

/-- One fence-stripping step consumes a leading ```` ```json ````. -/
theorem stripFencesF_json_step (f : Nat) (rest : List Char) :
    stripFencesF (f + 1)
      (tickChar :: tickChar :: tickChar :: 'j' :: 's' :: 'o' :: 'n' :: rest) =
      stripFencesF f rest := by
  rw [stripFencesF]
  rfl

/-- A full fence-stripping pass on a fence-wrapped backtick-free text
removes both fences, leaving the wrapping newlines. -/
theorem stripFencesF_fence (r : List Char) (hr : ∀ c ∈ r, c ≠ tickChar) :
    stripFencesF (fenceWrap r).length (fenceWrap r) = '\n' :: (r ++ ['\n']) := by
  have hlen : (fenceWrap r).length = (r.length + 11) + 1 := by
    rw [fenceWrap]
    simp only [List.length_append, List.length_cons, List.length_nil]
  rw [hlen, fenceWrap]
  simp only [List.cons_append]
  rw [stripFencesF_json_step]
  have h11 : r.length + 11 = (r.length + 10) + 1 := by omega
  rw [h11, stripFencesF_step (r.length + 10) '\n' _ (by decide),
    stripFencesF_copy r ('\n' :: tickChar :: tickChar :: [tickChar]) hr 10]
  rfl

/-- `trim` of a newline-wrapped whitespace-free text recovers the
text. -/
theorem jsTrimL_nlwrap (r : List Char) (hws : ∀ c ∈ r, jsWsChar c = false) :
    jsTrimL ('\n' :: (r ++ ['\n'])) = r := by
  cases r with
  | nil => rfl
  | cons c cs =>
    rw [jsTrimL, List.reverse_cons]
    have hrev : (((c :: cs) ++ ['\n']).reverse ++ ['\n']) =
        '\n' :: ((c :: cs).reverse ++ ['\n']) := by
      rw [List.reverse_append]
      rfl
    rw [hrev, dropWsL, if_pos (by decide)]
    obtain ⟨d, Y, hdY, hd⟩ :
        ∃ d Y, (c :: cs).reverse = d :: Y ∧ jsWsChar d = false := by
      cases hrev2 : (c :: cs).reverse with
      | nil => exact absurd (List.reverse_eq_nil_iff.mp hrev2) (List.cons_ne_nil c cs)
      | cons d Y =>
        refine ⟨d, Y, rfl, ?_⟩
        have hmem : d ∈ (c :: cs).reverse := by
          rw [hrev2]
          exact List.mem_cons_self d Y
        exact hws d (List.mem_reverse.mp hmem)
    rw [hdY, List.cons_append, dropWsL_cons_of_not_ws d _ hd,
      ← List.cons_append, ← hdY, List.reverse_append, List.reverse_reverse]
    show dropWsL ('\n' :: (c :: cs)) = c :: cs
    rw [dropWsL, if_pos (by decide)]
    exact dropWsL_id (c :: cs) hws

/-- The whole repair pipeline on a fence-wrapped clean text recovers
the text. -/
theorem repairJsonCommonL_fence (r : List Char)
    (hall : ∀ c ∈ r, cleanChar c = true)
    (hadj : noAdjCommaCloser r = true) :
    repairJsonCommonL (fenceWrap r) = r := by
  have htick : ∀ c ∈ r, c ≠ tickChar :=
    fun c hc => (cleanChar_split c (hall c hc)).1
  have hcurly : ∀ c ∈ r, curlyChar c = false :=
    fun c hc => (cleanChar_split c (hall c hc)).2.1
  have hws : ∀ c ∈ r, jsWsChar c = false :=
    fun c hc => (cleanChar_split c (hall c hc)).2.2
  have htickA : ∀ c ∈ '\n' :: (r ++ ['\n']), c ≠ tickChar := by
    intro c hc
    rcases List.mem_cons.mp hc with h | h
    · rw [h]; decide
    · rcases List.mem_append.mp h with h2 | h2
      · exact htick c h2
      · rw [List.mem_singleton.mp h2]; decide
  have hcurlyA : ∀ c ∈ '\n' :: (r ++ ['\n']), curlyChar c = false := by
    intro c hc
    rcases List.mem_cons.mp hc with h | h
    · rw [h]; decide
    · rcases List.mem_append.mp h with h2 | h2
      · exact hcurly c h2
      · rw [List.mem_singleton.mp h2]; decide
  have hlenA : ('\n' :: (r ++ ['\n'])).length = r.length + 2 := by
    rw [List.length_cons, List.length_append, List.length_singleton]
  simp only [repairJsonCommonL]
  rw [stripFencesF_fence r htick,
    stripTicksF_id _ htickA _ (Nat.le_refl _),
    mapCurly_id _ hcurlyA,
    insertCommasF_nlwrap '}' '{' r (by decide) hws _ (by rw [hlenA]),
    insertCommasF_nlwrap ']' '[' r (by decide) hws _ (by rw [hlenA]),
    stripTrailingCommasF_nlwrap r hws hadj _ (by rw [hlenA]),
    jsTrimL_nlwrap r hws]

/-- Re-straightening the typographic quotes introduced by `curlify`
recovers the original typographic-quote-free text. -/
theorem mapCurly_curlify (r : List Char) (h : ∀ c ∈ r, curlyChar c = false) :
    mapCurly (curlify r) = r := by
  induction r with
  | nil => rfl
  | cons c cs ih =>
    have hrec := ih (fun x hx => h x (List.mem_cons_of_mem c hx))
    show (if (if c = '"' then '”' else c) = '“' ∨ (if c = '"' then '”' else c) = '”'
        then '"'
        else if (if c = '"' then '”' else c) = '‘' ∨ (if c = '"' then '”' else c) = '’'
        then aposChar
        else (if c = '"' then '”' else c)) :: mapCurly (curlify cs) = c :: cs
    rw [hrec]
    congr 1
    by_cases hq : c = '"'
    · rw [if_pos hq, if_pos (Or.inr rfl)]
      exact hq.symm
    · rw [if_neg hq]
      exact mapCurly_char_id c (h c (List.mem_cons_self c cs))

/-- The whole repair pipeline on a curlified clean text recovers the
text. -/
theorem repairJsonCommonL_curlify (r : List Char)
    (hall : ∀ c ∈ r, cleanChar c = true)
    (hadj : noAdjCommaCloser r = true) :
    repairJsonCommonL (curlify r) = r := by
  have htick : ∀ c ∈ r, c ≠ tickChar :=
    fun c hc => (cleanChar_split c (hall c hc)).1
  have hcurly : ∀ c ∈ r, curlyChar c = false :=
    fun c hc => (cleanChar_split c (hall c hc)).2.1
  have hws : ∀ c ∈ r, jsWsChar c = false :=
    fun c hc => (cleanChar_split c (hall c hc)).2.2
  have htickC : ∀ a ∈ curlify r, a ≠ tickChar := by
    intro a ha
    rw [curlify] at ha
    obtain ⟨c, hc, he⟩ := List.mem_map.mp ha
    have he2 : (if c = '"' then '”' else c) = a := he
    by_cases h2 : c = '"'
    · rw [← he2, if_pos h2]
      decide
    · rw [← he2, if_neg h2]
      exact htick c hc
  simp only [repairJsonCommonL]
  rw [stripFencesF_id _ htickC _ (Nat.le_refl _),
    stripTicksF_id _ htickC _ (Nat.le_refl _),
    mapCurly_curlify r hcurly,
    insertCommasF_id '}' '{' r hws _ (Nat.le_refl _),
    insertCommasF_id ']' '[' r hws _ (Nat.le_refl _),
    stripTrailingCommasF_id r hws hadj _ (Nat.le_refl _),
    jsTrimL_id r hws]

/-- The trailing-comma pass removes a stray comma inserted right
before the final closer of a clean text. -/
theorem stripTrailingCommasF_last (r : List Char) (cl : Char)
    (hcl : cl = '}' ∨ cl = ']')
    (hws : ∀ c ∈ r, jsWsChar c = false)
    (hadj : noAdjCommaCloser (r ++ [cl]) = true) :
    ∀ fuel, r.length + 2 ≤ fuel →
      stripTrailingCommasF fuel (r ++ [',', cl]) = r ++ [cl] := by
  induction r with
  | nil =>
    intro fuel hf
    cases fuel with
    | zero => exact absurd hf (by decide)
    | succ f =>
      rw [List.nil_append, stripTrailingCommasF, if_pos rfl]
      have hsome : wsThenCloser [cl] = some (cl, []) := by
        rw [wsThenCloser, if_pos hcl]
      rw [hsome]
      show cl :: stripTrailingCommasF f [] = [cl]
      rw [stripTrailingCommasF_nil]
  | cons c cs ih =>
    intro fuel hf
    cases fuel with
    | zero =>
      rw [List.length_cons] at hf
      omega
    | succ f =>
      rw [List.cons_append, stripTrailingCommasF]
      have hadjt : noAdjCommaCloser (cs ++ [cl]) = true := by
        have h2 := hadj
        rw [List.cons_append] at h2
        exact noAdj_tail c _ h2
      have hrec := ih (fun x hx => hws x (List.mem_cons_of_mem c hx)) hadjt f
        (by rw [List.length_cons] at hf; omega)
      by_cases hc : c = ','
      · subst hc
        rw [if_pos rfl]
        have hnone : wsThenCloser (cs ++ [',', cl]) = none := by
          cases cs with
          | nil =>
            rw [List.nil_append]
            exact wsThenCloser_none ',' [cl] (by decide) (by decide)
          | cons c2 r2 =>
            rw [List.cons_append]
            have hpair : ¬(c2 = '}' ∨ c2 = ']') := by
              have h2 := hadj
              rw [List.cons_append, List.cons_append] at h2
              exact noAdj_head_comma c2 _ h2
            exact wsThenCloser_none c2 _ hpair
              (hws c2 (List.mem_cons_of_mem ',' (List.mem_cons_self c2 r2)))
        rw [hnone]
        show (',' : Char) :: stripTrailingCommasF f (cs ++ [',', cl]) =
          (',' :: cs) ++ [cl]
        rw [hrec, List.cons_append]
      · rw [if_neg hc, hrec, List.cons_append]

/-- The whole repair pipeline on a clean text with a stray comma
before its final closer removes exactly that comma. -/
theorem repairJsonCommonL_commaCloser (r : List Char) (cl : Char)
    (hcl : cl = '}' ∨ cl = ']')
    (hall : ∀ c ∈ r ++ [cl], cleanChar c = true)
    (hadj : noAdjCommaCloser (r ++ [cl]) = true) :
    repairJsonCommonL (r ++ [',', cl]) = r ++ [cl] := by
  have hallr : ∀ c ∈ r, cleanChar c = true :=
    fun c hc => hall c (List.mem_append_left _ hc)
  have hclS : ∀ c ∈ r ++ [',', cl], cleanChar c = true := by
    intro c hc
    rcases List.mem_append.mp hc with h | h
    · exact hallr c h
    · rcases List.mem_cons.mp h with h2 | h2
      · rw [h2]
        decide
      · rw [List.mem_singleton.mp h2]
        exact hall cl (List.mem_append_right _ (List.mem_cons_self cl []))
  have htickS : ∀ c ∈ r ++ [',', cl], c ≠ tickChar :=
    fun c hc => (cleanChar_split c (hclS c hc)).1
  have hcurlyS : ∀ c ∈ r ++ [',', cl], curlyChar c = false :=
    fun c hc => (cleanChar_split c (hclS c hc)).2.1
  have hwsS : ∀ c ∈ r ++ [',', cl], jsWsChar c = false :=
    fun c hc => (cleanChar_split c (hclS c hc)).2.2
  have hwsr : ∀ c ∈ r, jsWsChar c = false :=
    fun c hc => (cleanChar_split c (hallr c hc)).2.2
  have hwsfinal : ∀ c ∈ r ++ [cl], jsWsChar c = false :=
    fun c hc => (cleanChar_split c (hall c hc)).2.2
  have hlenS : r.length + 2 ≤ (r ++ [',', cl]).length := by
    simp only [List.length_append, List.length_cons, List.length_singleton]
    omega
  simp only [repairJsonCommonL]
  rw [stripFencesF_id _ htickS _ (Nat.le_refl _),
    stripTicksF_id _ htickS _ (Nat.le_refl _),
    mapCurly_id _ hcurlyS,
    insertCommasF_id '}' '{' _ hwsS _ (Nat.le_refl _),
    insertCommasF_id ']' '[' _ hwsS _ (Nat.le_refl _),
    stripTrailingCommasF_last r cl hcl hwsr hadj _ hlenS,
    jsTrimL_id _ hwsfinal]

/-- `trim` keeps a text with non-whitespace first and last characters
unchanged. -/
theorem jsTrimL_ends (c d : Char) (X : List Char)
    (hc : jsWsChar c = false) (hd : jsWsChar d = false) :
    jsTrimL ((c :: X) ++ [d]) = (c :: X) ++ [d] := by
  rw [jsTrimL, List.reverse_append]
  show dropWsL ((dropWsL (d :: (c :: X).reverse)).reverse) = (c :: X) ++ [d]
  rw [dropWsL_cons_of_not_ws d _ hd, List.reverse_cons, List.reverse_reverse,
    List.cons_append]
  exact dropWsL_cons_of_not_ws c _ hc

/-- C4 (amended).  For a value whose numbers are integers and whose
rendering contains no backtick, no typographic quote, no whitespace and
no comma adjacent to a closer, `safeParseJson` recovers the value
exactly from the plain rendering, the code-fence wrapping, the
curly-quote rewriting, and the stray-trailing-comma insertion.  (The
original claim, over every JSON value, is refuted by
`repair_corrupts_counterexample`: the repair passes are not
string-aware, so a value whose string content contains a comma-closer
pattern is corrupted.) -/
theorem repair_roundtrip (v : JVal) (hnum : numsInt v = true)
    (hclean : cleanText (renderV v) = true) :
    safeParseJson (String.mk (renderV v)) = Except.ok v ∧
    safeParseJson (String.mk (fenceWrap (renderV v))) = Except.ok v ∧
    safeParseJson (String.mk (curlify (renderV v))) = Except.ok v ∧
    safeParseJson (String.mk (commaWrap v)) = Except.ok v := by
  have hcc := hclean
  rw [cleanText, Bool.and_eq_true, List.all_eq_true] at hcc
  have hall := hcc.1
  have hadj := hcc.2
  have hws : ∀ c ∈ renderV v, jsWsChar c = false :=
    fun c hc => (cleanChar_split c (hall c hc)).2.2
  obtain ⟨h0, t0, hrv, hws0, hne1, hne2⟩ := renderV_head v hnum
  have hnonempty : renderV v ≠ [] := by
    rw [hrv]
    exact List.cons_ne_nil h0 t0
  have hdir : safeParseDirect (renderV v) = Except.ok v := by
    rw [safeParseDirect, jsonParseL_renderV v hnum]
  have hplain : safeParseJson (String.mk (renderV v)) = Except.ok v := by
    rw [safeParseJson, show (String.mk (renderV v)).data = renderV v from rfl,
      jsTrimL_id (renderV v) hws, if_neg hnonempty,
      repairJsonCommonL_id (renderV v) hclean, hdir]
  refine ⟨hplain, ?_, ?_, ?_⟩
  · have hfw : fenceWrap (renderV v) =
        (tickChar :: (tickChar :: tickChar :: 'j' :: 's' :: 'o' :: 'n' :: '\n' ::
          (renderV v ++ ['\n', tickChar, tickChar]))) ++ [tickChar] := by
      rw [fenceWrap]
      simp only [List.cons_append, List.append_assoc, List.nil_append]
    have htrimF : jsTrimL (fenceWrap (renderV v)) = fenceWrap (renderV v) := by
      rw [hfw]
      exact jsTrimL_ends tickChar tickChar _ (by decide) (by decide)
    have hneF : fenceWrap (renderV v) ≠ [] := by
      rw [hfw]
      intro h
      rw [List.cons_append] at h
      exact List.noConfusion h
    rw [safeParseJson,
      show (String.mk (fenceWrap (renderV v))).data = fenceWrap (renderV v) from rfl,
      htrimF, if_neg hneF, repairJsonCommonL_fence (renderV v) hall hadj, hdir]
  · have hwsC : ∀ a ∈ curlify (renderV v), jsWsChar a = false := by
      intro a ha
      rw [curlify] at ha
      obtain ⟨c, hc, he⟩ := List.mem_map.mp ha
      have he2 : (if c = '"' then '”' else c) = a := he
      by_cases h2 : c = '"'
      · rw [← he2, if_pos h2]
        decide
      · rw [← he2, if_neg h2]
        exact hws c hc
    have hneC : curlify (renderV v) ≠ [] := by
      rw [hrv, curlify, List.map_cons]
      exact List.cons_ne_nil _ _
    rw [safeParseJson,
      show (String.mk (curlify (renderV v))).data = curlify (renderV v) from rfl,
      jsTrimL_id _ hwsC, if_neg hneC,
      repairJsonCommonL_curlify (renderV v) hall hadj, hdir]
  · cases v with
    | jnull =>
      have hcw : commaWrap JVal.jnull = renderV JVal.jnull := by
        rw [commaWrap] <;> (intros; simp_all)
      rw [hcw]
      exact hplain
    | jbool b =>
      have hcw : commaWrap (JVal.jbool b) = renderV (JVal.jbool b) := by
        rw [commaWrap] <;> (intros; simp_all)
      rw [hcw]
      exact hplain
    | jnum q =>
      have hcw : commaWrap (JVal.jnum q) = renderV (JVal.jnum q) := by
        rw [commaWrap] <;> (intros; simp_all)
      rw [hcw]
      exact hplain
    | jstr s =>
      have hcw : commaWrap (JVal.jstr s) = renderV (JVal.jstr s) := by
        rw [commaWrap] <;> (intros; simp_all)
      rw [hcw]
      exact hplain
    | jarr l =>
      have hrend : renderV (JVal.jarr l) = ('[' :: renderElems l) ++ [']'] := by
        rw [renderV]
      have hallX : ∀ c ∈ ('[' :: renderElems l) ++ [']'], cleanChar c = true :=
        fun c hc => hall c (by rw [hrend]; exact hc)
      have hadjX : noAdjCommaCloser (('[' :: renderElems l) ++ [']']) = true := by
        rw [← hrend]
        exact hadj
      have hcw : commaWrap (JVal.jarr l) =
          ('[' :: renderElems l) ++ [',', ']'] := by
        rw [commaWrap]
      have hwsS : ∀ c ∈ ('[' :: renderElems l) ++ [',', ']'],
          jsWsChar c = false := by
        intro c hc
        rcases List.mem_append.mp hc with h | h
        · exact (cleanChar_split c (hallX c (List.mem_append_left _ h))).2.2
        · rcases List.mem_cons.mp h with h2 | h2
          · rw [h2]
            decide
          · rw [List.mem_singleton.mp h2]
            decide
      rw [safeParseJson,
        show (String.mk (commaWrap (JVal.jarr l))).data = commaWrap (JVal.jarr l)
          from rfl,
        hcw, jsTrimL_id _ hwsS,
        if_neg (by intro h; rw [List.cons_append] at h; exact List.noConfusion h),
        repairJsonCommonL_commaCloser ('[' :: renderElems l) ']' (Or.inr rfl)
          hallX hadjX, ← hrend, hdir]
    | jobj l =>
      have hrend : renderV (JVal.jobj l) = ('{' :: renderMembers l) ++ ['}'] := by
        rw [renderV]
      have hallX : ∀ c ∈ ('{' :: renderMembers l) ++ ['}'], cleanChar c = true :=
        fun c hc => hall c (by rw [hrend]; exact hc)
      have hadjX : noAdjCommaCloser (('{' :: renderMembers l) ++ ['}']) = true := by
        rw [← hrend]
        exact hadj
      have hcw : commaWrap (JVal.jobj l) =
          ('{' :: renderMembers l) ++ [',', '}'] := by
        rw [commaWrap]
      have hwsS : ∀ c ∈ ('{' :: renderMembers l) ++ [',', '}'],
          jsWsChar c = false := by
        intro c hc
        rcases List.mem_append.mp hc with h | h
        · exact (cleanChar_split c (hallX c (List.mem_append_left _ h))).2.2
        · rcases List.mem_cons.mp h with h2 | h2
          · rw [h2]
            decide
          · rw [List.mem_singleton.mp h2]
            decide
      rw [safeParseJson,
        show (String.mk (commaWrap (JVal.jobj l))).data = commaWrap (JVal.jobj l)
          from rfl,
        hcw, jsTrimL_id _ hwsS,
        if_neg (by intro h; rw [List.cons_append] at h; exact List.noConfusion h),
        repairJsonCommonL_commaCloser ('{' :: renderMembers l) '}' (Or.inl rfl)
          hallX hadjX, ← hrend, hdir]

/-- Witness for C4 at the demo value: the hypotheses hold and all four
noisy renderings parse back to it. -/
theorem repair_roundtrip_witness :
    (numsInt roundTripDemo = true ∧ cleanText (renderV roundTripDemo) = true) ∧
    (safeParseJson (String.mk (renderV roundTripDemo)) = Except.ok roundTripDemo ∧
     safeParseJson (String.mk (fenceWrap (renderV roundTripDemo))) =
       Except.ok roundTripDemo ∧
     safeParseJson (String.mk (curlify (renderV roundTripDemo))) =
       Except.ok roundTripDemo ∧
     safeParseJson (String.mk (commaWrap roundTripDemo)) =
       Except.ok roundTripDemo) :=
  ⟨⟨by decide, by decide⟩, repair_roundtrip roundTripDemo (by decide) (by decide)⟩

/-- C4 counterexample: the repair passes are not string-aware.  The
value `[", ]"]`, fence-wrapped and fed to `safeParseJson`, comes back
as the different value `["]"]` because the trailing-comma repair
rewrites the comma-space-closer inside the string literal. -/
theorem repair_corrupts_counterexample :
    safeParseJson (String.mk (fenceWrap (renderV commaCloserValue))) =
      Except.ok corruptedValue ∧
    corruptedValue ≠ commaCloserValue := by
  constructor
  · rfl
  · intro h
    have h2 : "]" = ", ]" := congrArg (fun w => match w with
      | JVal.jarr (JVal.jstr s :: _) => s
      | _ => "") h
    exact absurd h2 (by decide)

end QuizCore
